import Mathlib

/-!
# Buffer pool manager over a page file

A shallow embedding of `storage_mgr.c` (the page file) and `buffer_mgr.c` (the buffer
pool), followed by the verification of the properties the specification states about them.

Conventions of the embedding

* A C function that mutates a record through a pointer becomes a function that returns the
  new record next to its return code.
* `int` fields are `Int`. The counters `numRead`, `numWrite` and `fixCount` are not reduced
  modulo `2 ^ 32`: signed overflow is undefined in C, and no property below is about it.
  `TimeStamp` is `unsigned int`; its arithmetic is defined and is reduced modulo `2 ^ 32`.
  The byte offset `pageNum * PAGE_SIZE` that `readBlock` and `writeBlock` hand to `fseek` is
  an `int` product: it is reduced to 32 bits in two's complement, as the machine computes it.
* A frame buffer (`char *data`, `PAGE_SIZE` bytes) is the list of its bytes. A pointer to a
  frame of the pool is the index of the frame.
* The buffer pool operations return `none` where the C program has no defined result: an
  access outside the frame array, a remainder by zero, or a loop that has not ended within
  the `fuel` it was given.
-/

namespace BufferMgr

/-! ## Declarations the two source files take from headers -/

/-- Modelled from the spec: the return codes `RC` are declared in a header that is not among
the sources; these are the codes the specification lists in its section on external
interfaces. -/
inductive RC where
  | RC_OK
  | RC_FILE_NOT_FOUND
  | RC_FILE_HANDLE_NOT_INIT
  | RC_READ_NON_EXISTING_PAGE
  | RC_READ_FAILED
  | RC_WRITE_FAILED
  | RC_PAGE_OUT_OF_RANGE
  | RC_SEEK_FAILED
  | RC_ALLOCATION_FAILED
  | RC_IM_KEY_NOT_FOUND
  | RC_IM_CONFIG_ERROR
  deriving DecidableEq, Repr

open RC

/-- Modelled from the spec: `PAGE_SIZE` is defined in a header that is not among the sources;
the specification names 4096 as its conventional value. -/
def PAGE_SIZE : Nat := 4096

/-- Modelled from the spec: the sentinel `NO_PAGE` is `-1`. -/
def NO_PAGE : Int := -1

/-- The constant `PAGE_TABLE_SIZE` of `buffer_mgr.c`. -/
def PAGE_TABLE_SIZE : Nat := 256

/-- The largest `unsigned int`, `UINT_MAX` of `limits.h`. -/
def UINT_MAX : Nat := 4294967295

/-- Modelled from the spec: the replacement strategies are declared in a header that is not
among the sources. The specification knows FIFO and LRU; `RS_OTHER` stands for every other
value of the enumeration. -/
inductive ReplacementStrategy where
  | RS_FIFO
  | RS_LRU
  | RS_OTHER
  deriving DecidableEq, Repr

open ReplacementStrategy

/-- Modelled from the spec: `hash_table.h` and its implementation are not among the sources.
The specification describes the directory as a key-to-integer mapping with `get`, `set` and
`remove`. The handle records the size it was created with and the mapping itself; the
specification does not say what happens at capacity, so no operation fails for lack of room. -/
structure HT_TableHandle where
  size : Nat
  map : Int → Option Int

/-- Modelled from the spec: `initHashTable` creates an empty directory of the given size. -/
def initHashTable (size : Nat) : HT_TableHandle :=
  { size := size, map := fun _ => none }

/-- Modelled from the spec: `getValue` is the directory's `get`. The C function returns `0` and
stores the value when the key is present, and returns a non-zero code otherwise; here that is
`some value` and `none`. -/
def getValue (table : HT_TableHandle) (key : Int) : Option Int :=
  table.map key

/-- Modelled from the spec: `setValue` is the directory's `set`. -/
def setValue (table : HT_TableHandle) (key value : Int) : HT_TableHandle :=
  { table with map := fun k => if k = key then some value else table.map k }

/-- Modelled from the spec: `removePair` is the directory's `remove`. -/
def removePair (table : HT_TableHandle) (key : Int) : HT_TableHandle :=
  { table with map := fun k => if k = key then none else table.map k }

/-! ## The page file (`storage_mgr.c`) -/

/-- The stream behind an open page file, as the C library presents it: the pages stored on
the device, and the number of pages the device has room for. A write that stays within the
room succeeds; a write that would make the file longer than `capacity` pages writes nothing
and reports a short count. Seeks and reads of stored pages succeed. -/
structure FILE where
  pages : List (List Nat)
  capacity : Nat

/-- The file handle `SM_FileHandle`; `mgmtInfo` is the `FILE *`, `none` for `NULL`. -/
structure SM_FileHandle where
  fileName : String
  totalNumPages : Int
  curPagePos : Int
  mgmtInfo : Option FILE

/-- The page that `memset(emptyPage, 0, PAGE_SIZE)` builds. -/
def emptyPage : List Nat := List.replicate PAGE_SIZE 0

/-- The number of pages whose byte offset fits an `int`: `2 ^ 31 / PAGE_SIZE`. -/
def SEEK_PAGES : Int := 524288

/-- The value of the `int` product `pageNum * PAGE_SIZE` in the calls of `fseek`: the product
reduced to 32 bits, two's complement. It is the product itself for `pageNum` in
`[0, SEEK_PAGES)`, negative for `pageNum = SEEK_PAGES`, and 0 again for
`pageNum = 2 * SEEK_PAGES`. -/
def seekOffset (pageNum : Int) : Int :=
  (pageNum * PAGE_SIZE + 2147483648) % 4294967296 - 2147483648

/-- The call `fread` of one page with the stream positioned at the start of page `pageNum`: the
stored page, or `none` when the position is at or beyond the end of the file. -/
def freadPage (fp : FILE) (pageNum : Nat) : Option (List Nat) :=
  fp.pages[pageNum]?

/-- The call `fwrite` of one page with the stream positioned at the start of page `pageNum`.
Inside the file the page is overwritten. Beyond the end the file grows (the gap reads as zero bytes) if
the device has room, and nothing is written otherwise. -/
def fwritePage (fp : FILE) (pageNum : Nat) (memPage : List Nat) : Option FILE :=
  if pageNum < fp.pages.length then
    some { fp with pages := fp.pages.set pageNum memPage }
  else if pageNum + 1 ≤ fp.capacity then
    some { fp with pages :=
      fp.pages ++ List.replicate (pageNum - fp.pages.length) emptyPage ++ [memPage] }
  else none

/-- The call `fseek(fp, 0, SEEK_END)` followed by `fwrite` of one page. -/
def fwriteEnd (fp : FILE) (memPage : List Nat) : Option FILE :=
  fwritePage fp fp.pages.length memPage

/-- The function `openPageFile`: `fs` is the file system `fopen` looks the name up in. `_getFileSize` is
the length of the stream, a whole number of pages. On failure the handle is not written. -/
def openPageFile (fs : String → Option FILE) (fileName : String) (fHandle : SM_FileHandle) :
    RC × SM_FileHandle :=
  match fs fileName with
  | none => (RC_FILE_NOT_FOUND, fHandle)
  | some fp =>
    (RC_OK, { fileName := fileName
              totalNumPages := ((fp.pages.length * PAGE_SIZE / PAGE_SIZE : Nat) : Int)
              curPagePos := 0
              mgmtInfo := some fp })

/-- The function `readBlock`: the return code and the contents of `memPage` after the call.
`fseek` fails for a negative offset; otherwise the stream stands at the page that the offset
`seekOffset pageNum` addresses. -/
def readBlock (pageNum : Int) (fHandle : SM_FileHandle) (memPage : List Nat) :
    RC × List Nat :=
  match fHandle.mgmtInfo with
  | none => (RC_FILE_NOT_FOUND, memPage)
  | some fp =>
    if pageNum < 0 ∨ pageNum ≥ fHandle.totalNumPages then (RC_READ_NON_EXISTING_PAGE, memPage)
    else if seekOffset pageNum < 0 then (RC_FILE_NOT_FOUND, memPage)
    else
      match freadPage fp (seekOffset pageNum / PAGE_SIZE).toNat with
      | none => (RC_READ_NON_EXISTING_PAGE, memPage)
      | some bytes => (RC_OK, bytes)

/-- The function `writeBlock`: the return code and the file handle after the call. `fseek` fails
for a negative offset; otherwise the stream stands at the page that the offset
`seekOffset pageNum` addresses. -/
def writeBlock (pageNum : Int) (fHandle : SM_FileHandle) (memPage : List Nat) :
    RC × SM_FileHandle :=
  match fHandle.mgmtInfo with
  | none => (RC_FILE_NOT_FOUND, fHandle)
  | some fp =>
    if pageNum < 0 ∨ pageNum ≥ fHandle.totalNumPages then (RC_PAGE_OUT_OF_RANGE, fHandle)
    else if seekOffset pageNum < 0 then (RC_FILE_NOT_FOUND, fHandle)
    else
      match fwritePage fp (seekOffset pageNum / PAGE_SIZE).toNat memPage with
      | none => (RC_WRITE_FAILED, fHandle)
      | some fp' => (RC_OK, { fHandle with mgmtInfo := some fp' })

/-- The function `appendEmptyBlock`: the return code and the file handle after the call. -/
def appendEmptyBlock (fHandle : SM_FileHandle) : RC × SM_FileHandle :=
  match fHandle.mgmtInfo with
  | none => (RC_FILE_NOT_FOUND, fHandle)
  | some fp =>
    match fwriteEnd fp emptyPage with
    | none => (RC_WRITE_FAILED, fHandle)
    | some fp' =>
      (RC_OK, { fHandle with mgmtInfo := some fp', totalNumPages := fHandle.totalNumPages + 1 })

/-- The `while` loop of `ensureCapacity`. Every pass that does not return adds one to
`totalNumPages`, so `numberOfPages - totalNumPages` passes are enough; the first argument
counts them down. -/
def ensureCapacityLoop : Nat → Int → SM_FileHandle → RC × SM_FileHandle
  | 0, _, fHandle => (RC_OK, fHandle)
  | k + 1, numberOfPages, fHandle =>
    if fHandle.totalNumPages < numberOfPages then
      if (appendEmptyBlock fHandle).1 = RC_OK then
        ensureCapacityLoop k numberOfPages (appendEmptyBlock fHandle).2
      else appendEmptyBlock fHandle
    else (RC_OK, fHandle)

/-- The function `ensureCapacity`: the return code and the file handle after the call. -/
def ensureCapacity (numberOfPages : Int) (fHandle : SM_FileHandle) : RC × SM_FileHandle :=
  match fHandle.mgmtInfo with
  | none => (RC_FILE_NOT_FOUND, fHandle)
  | some _ =>
    ensureCapacityLoop (numberOfPages - fHandle.totalNumPages).toNat numberOfPages fHandle

/-- The function `closePageFile`: `fclose` succeeds on an open stream. -/
def closePageFile (fHandle : SM_FileHandle) : RC × SM_FileHandle :=
  match fHandle.mgmtInfo with
  | none => (RC_FILE_NOT_FOUND, fHandle)
  | some _ => (RC_OK, { fHandle with mgmtInfo := none })

/-- The function `getBlockPos`. -/
def getBlockPos (fHandle : SM_FileHandle) : Int :=
  fHandle.curPagePos

/-- The function `readFirstBlock`: the return code, the file handle and the contents of
`memPage` after the call. -/
def readFirstBlock (fHandle : SM_FileHandle) (memPage : List Nat) :
    RC × SM_FileHandle × List Nat :=
  ((readBlock 0 fHandle memPage).1, fHandle, (readBlock 0 fHandle memPage).2)

/-- The function `readPreviousBlock`. -/
def readPreviousBlock (fHandle : SM_FileHandle) (memPage : List Nat) :
    RC × SM_FileHandle × List Nat :=
  if fHandle.curPagePos - 1 < 0 then (RC_READ_NON_EXISTING_PAGE, fHandle, memPage)
  else if (readBlock (fHandle.curPagePos - 1) fHandle memPage).1 = RC_OK then
    (RC_OK, { fHandle with curPagePos := fHandle.curPagePos - 1 },
      (readBlock (fHandle.curPagePos - 1) fHandle memPage).2)
  else
    ((readBlock (fHandle.curPagePos - 1) fHandle memPage).1, fHandle,
      (readBlock (fHandle.curPagePos - 1) fHandle memPage).2)

/-- The function `readCurrentBlock`. -/
def readCurrentBlock (fHandle : SM_FileHandle) (memPage : List Nat) :
    RC × SM_FileHandle × List Nat :=
  match fHandle.mgmtInfo with
  | none => (RC_FILE_NOT_FOUND, fHandle, memPage)
  | some _ =>
    if fHandle.curPagePos < 0 ∨ fHandle.curPagePos ≥ fHandle.totalNumPages then
      (RC_READ_NON_EXISTING_PAGE, fHandle, memPage)
    else
      ((readBlock fHandle.curPagePos fHandle memPage).1, fHandle,
        (readBlock fHandle.curPagePos fHandle memPage).2)

/-- The function `readNextBlock`. -/
def readNextBlock (fHandle : SM_FileHandle) (memPage : List Nat) :
    RC × SM_FileHandle × List Nat :=
  if (readBlock (fHandle.curPagePos + 1) fHandle memPage).1 = RC_OK then
    (RC_OK, { fHandle with curPagePos := fHandle.curPagePos + 1 },
      (readBlock (fHandle.curPagePos + 1) fHandle memPage).2)
  else
    ((readBlock (fHandle.curPagePos + 1) fHandle memPage).1, fHandle,
      (readBlock (fHandle.curPagePos + 1) fHandle memPage).2)

/-- The function `readLastBlock`. -/
def readLastBlock (fHandle : SM_FileHandle) (memPage : List Nat) :
    RC × SM_FileHandle × List Nat :=
  if fHandle.totalNumPages = 0 then (RC_READ_NON_EXISTING_PAGE, fHandle, memPage)
  else
    ((readBlock (fHandle.totalNumPages - 1) fHandle memPage).1, fHandle,
      (readBlock (fHandle.totalNumPages - 1) fHandle memPage).2)

/-- The function `writeCurrentBlock`. -/
def writeCurrentBlock (fHandle : SM_FileHandle) (memPage : List Nat) : RC × SM_FileHandle :=
  writeBlock fHandle.curPagePos fHandle memPage

/-! ## The buffer pool (`buffer_mgr.c`) -/

/-- The frame record `BM_PageFrame`. `data` is the contents of the frame's buffer. -/
structure BM_PageFrame where
  data : List Nat
  pageNum : Int
  frameIndex : Int
  fixCount : Int
  dirty : Bool
  occupied : Bool
  timeStamp : Nat

/-- The record `BM_Metadata` behind `bm->mgmtData`. -/
structure BM_Metadata where
  pageFrames : List BM_PageFrame
  pageTable : HT_TableHandle
  pageFile : SM_FileHandle
  timeStamp : Nat
  queueIndex : Int
  numRead : Int
  numWrite : Int

/-- The pool record `BM_BufferPool`; `mgmtData` is `none` for `NULL`. Its field `pageFile`
holds a pointer that no function of the two files reads, and is left out. -/
structure BM_BufferPool where
  numPages : Int
  strategy : ReplacementStrategy
  mgmtData : Option BM_Metadata

/-- The client handle `BM_PageHandle`; `data` points into the frame with that index. -/
structure BM_PageHandle where
  pageNum : Int
  data : Option Int

/-- The array access `pageFrames[i]`, defined inside the array only. -/
def frameAt (pageFrames : List BM_PageFrame) (i : Int) : Option BM_PageFrame :=
  if i < 0 then none else pageFrames[i.toNat]?

/-- The assignment to `pageFrames[i]`, used after `frameAt` has found the frame. -/
def setFrame (pageFrames : List BM_PageFrame) (i : Int) (frame : BM_PageFrame) :
    List BM_PageFrame :=
  pageFrames.set i.toNat frame

/-- The function `getTimeStamp`: returns the pool's clock and advances it (`metadata->timeStamp++` on an
`unsigned int`). -/
def getTimeStamp (metadata : BM_Metadata) : Nat × BM_Metadata :=
  (metadata.timeStamp, { metadata with timeStamp := (metadata.timeStamp + 1) % 2 ^ 32 })

/-- The function `getAfterEviction`: the pointer it returns is the index it was given. -/
def getAfterEviction (metadata : BM_Metadata) (frameIndex : Int) :
    Option (Int × BM_Metadata) :=
  match frameAt metadata.pageFrames frameIndex with
  | none => none
  | some frame =>
    let md1 : BM_Metadata :=
      { (getTimeStamp metadata).2 with
        pageFrames := setFrame metadata.pageFrames frameIndex
          { frame with timeStamp := (getTimeStamp metadata).1 } }
    if frame.occupied then
      let md2 : BM_Metadata := { md1 with pageTable := removePair md1.pageTable frame.pageNum }
      if frame.dirty then
        some (frameIndex,
          { md2 with
            pageFile := (writeBlock frame.pageNum md2.pageFile frame.data).2
            numWrite := md2.numWrite + 1 })
      else some (frameIndex, md2)
    else some (frameIndex, md1)

/-- The `while (true)` loop of `replacementFIFO`, from `currentIndex`; the result is the
value of `currentIndex` when the loop is left. `%` of C is the truncating remainder. -/
def fifoLoop (pageFrames : List BM_PageFrame) (numPages firstIndex : Int) :
    Nat → Int → Option Int
  | 0, _ => none
  | fuel + 1, currentIndex =>
    if numPages = 0 then none
    else
      match frameAt pageFrames (Int.tmod (currentIndex + 1) numPages) with
      | none => none
      | some frame =>
        if frame.fixCount = 0 then some (Int.tmod (currentIndex + 1) numPages)
        else if Int.tmod (currentIndex + 1) numPages = firstIndex then
          some (Int.tmod (currentIndex + 1) numPages)
        else fifoLoop pageFrames numPages firstIndex fuel (Int.tmod (currentIndex + 1) numPages)

/-- The function `replacementFIFO`: the frame it returns (`none` for `NULL`) and the metadata it leaves. -/
def replacementFIFO (fuel : Nat) (numPages : Int) (metadata : BM_Metadata) :
    Option (Option Int × BM_Metadata) :=
  match fifoLoop metadata.pageFrames numPages metadata.queueIndex fuel metadata.queueIndex with
  | none => none
  | some currentIndex =>
    match frameAt metadata.pageFrames currentIndex with
    | none => none
    | some frame =>
      if frame.fixCount = 0 then
        (getAfterEviction { metadata with queueIndex := currentIndex } currentIndex).map
          fun r => (some r.1, r.2)
      else some (none, { metadata with queueIndex := currentIndex })

/-- The `while (i < bm->numPages)` loop of `replacementLRU`: the first argument counts the
passes that remain, the result is `(min, minIndex)` after the last pass. -/
def lruLoop (pageFrames : List BM_PageFrame) : Nat → Nat → Nat → Int → Option (Nat × Int)
  | 0, _, min, minIndex => some (min, minIndex)
  | k + 1, i, min, minIndex =>
    match pageFrames[i]? with
    | none => none
    | some frame =>
      if frame.fixCount = 0 ∧ frame.timeStamp < min then
        lruLoop pageFrames k (i + 1) frame.timeStamp i
      else lruLoop pageFrames k (i + 1) min minIndex

/-- The function `replacementLRU`: the frame it returns (`none` for `NULL`) and the metadata it leaves. -/
def replacementLRU (numPages : Int) (metadata : BM_Metadata) :
    Option (Option Int × BM_Metadata) :=
  match lruLoop metadata.pageFrames numPages.toNat 0 UINT_MAX (-1) with
  | none => none
  | some r =>
    if r.2 = -1 then some (none, metadata)
    else (getAfterEviction metadata r.2).map fun e => (some e.1, e.2)

/-- The frame loop of `initBufferPool`, passes `0` to `k - 1`. `garbage i` is what `malloc`
handed out for frame `i`: the fields the loop does not assign keep that value. -/
def initFrames (garbage : Nat → BM_PageFrame) : Nat → BM_Metadata → BM_Metadata
  | 0, metadata => metadata
  | k + 1, metadata =>
    let md := initFrames garbage k metadata
    { (getTimeStamp md).2 with
      pageFrames := md.pageFrames ++
        [{ garbage k with
           frameIndex := (k : Int)
           fixCount := 0
           dirty := false
           occupied := false
           timeStamp := (getTimeStamp md).1 }] }

/-- The function `initBufferPool`. `bm` is the pool record as the caller hands it in; `fs` is the file
system. The queue index is read from `bm->numPages` before that field is assigned. -/
def initBufferPool (bm : BM_BufferPool) (fs : String → Option FILE) (pageFileName : String)
    (numPages : Int) (strategy : ReplacementStrategy) (garbage : Nat → BM_PageFrame) :
    RC × BM_BufferPool :=
  let opened := openPageFile fs pageFileName
    { fileName := "", totalNumPages := 0, curPagePos := 0, mgmtInfo := none }
  if opened.1 = RC_OK then
    let metadata : BM_Metadata :=
      { pageFrames := []
        pageTable := initHashTable PAGE_TABLE_SIZE
        pageFile := opened.2
        timeStamp := 0
        queueIndex := bm.numPages - 1
        numRead := 0
        numWrite := 0 }
    (RC_OK, { numPages := numPages
              strategy := strategy
              mgmtData := some (initFrames garbage numPages.toNat metadata) })
  else (opened.1, { bm with mgmtData := none })

/-- One pass of the loop of `forceFlushPool` over frame `i`, and the passes after it. -/
def forceFlushLoop : Nat → Nat → BM_Metadata → Option BM_Metadata
  | 0, _, metadata => some metadata
  | k + 1, i, metadata =>
    match metadata.pageFrames[i]? with
    | none => none
    | some frame =>
      if frame.occupied ∧ frame.dirty ∧ frame.fixCount = 0 then
        let md1 : BM_Metadata :=
          { metadata with
            pageFile := (writeBlock frame.pageNum metadata.pageFile frame.data).2
            numWrite := metadata.numWrite + 1 }
        forceFlushLoop k (i + 1)
          { (getTimeStamp md1).2 with
            pageFrames := md1.pageFrames.set i
              { frame with timeStamp := (getTimeStamp md1).1, dirty := false } }
      else forceFlushLoop k (i + 1) metadata

/-- The function `forceFlushPool`: the return code and the pool after the call. -/
def forceFlushPool (bm : BM_BufferPool) : Option (RC × BM_BufferPool) :=
  match bm.mgmtData with
  | none => some (RC_FILE_HANDLE_NOT_INIT, bm)
  | some metadata =>
    (forceFlushLoop bm.numPages.toNat 0 metadata).map
      fun md => (RC_OK, { bm with mgmtData := some md })

/-- The first loop of `shutdownBufferPool`: whether one of the frames `i`, `i + 1`, ... has a
positive fix count; the first argument counts the passes that remain. -/
def anyFixed (pageFrames : List BM_PageFrame) : Nat → Nat → Option Bool
  | 0, _ => some false
  | k + 1, i =>
    match pageFrames[i]? with
    | none => none
    | some frame => if frame.fixCount > 0 then some true else anyFixed pageFrames k (i + 1)

/-- The function `shutdownBufferPool`: the return code, the pool record, and the stream of
the page file as `closePageFile` closed it (`none` when the function returns before that
call). The result of `forceFlushPool` is not looked at. -/
def shutdownBufferPool (bm : BM_BufferPool) : Option (RC × BM_BufferPool × Option FILE) :=
  match bm.mgmtData with
  | none => some (RC_FILE_HANDLE_NOT_INIT, bm, none)
  | some metadata =>
    match anyFixed metadata.pageFrames bm.numPages.toNat 0 with
    | none => none
    | some true => some (RC_WRITE_FAILED, bm, none)
    | some false =>
      (forceFlushLoop bm.numPages.toNat 0 metadata).map fun md =>
        (RC_OK, { bm with mgmtData := none }, md.pageFile.mgmtInfo)

/-- The function `markDirty`; `pageNum` is `page->pageNum`. -/
def markDirty (bm : BM_BufferPool) (pageNum : Int) : Option (RC × BM_BufferPool) :=
  match bm.mgmtData with
  | none => some (RC_FILE_HANDLE_NOT_INIT, bm)
  | some metadata =>
    match getValue metadata.pageTable pageNum with
    | none => some (RC_IM_KEY_NOT_FOUND, bm)
    | some frameIndex =>
      match frameAt metadata.pageFrames frameIndex with
      | none => none
      | some frame =>
        some (RC_OK, { bm with mgmtData := some (
          { (getTimeStamp metadata).2 with
            pageFrames := setFrame metadata.pageFrames frameIndex
              { frame with timeStamp := (getTimeStamp metadata).1, dirty := true } }) })

/-- The function `unpinPage`; `pageNum` is `page->pageNum`. -/
def unpinPage (bm : BM_BufferPool) (pageNum : Int) : Option (RC × BM_BufferPool) :=
  match bm.mgmtData with
  | none => some (RC_FILE_HANDLE_NOT_INIT, bm)
  | some metadata =>
    match getValue metadata.pageTable pageNum with
    | none => some (RC_IM_KEY_NOT_FOUND, bm)
    | some frameIndex =>
      match frameAt metadata.pageFrames frameIndex with
      | none => none
      | some frame =>
        some (RC_OK, { bm with mgmtData := some (
          { (getTimeStamp metadata).2 with
            pageFrames := setFrame metadata.pageFrames frameIndex
              { frame with
                timeStamp := (getTimeStamp metadata).1
                fixCount := if frame.fixCount > 0 then frame.fixCount - 1
                            else frame.fixCount } }) })

/-- The function `forcePage`; `pageNum` is `page->pageNum`. -/
def forcePage (bm : BM_BufferPool) (pageNum : Int) : Option (RC × BM_BufferPool) :=
  match bm.mgmtData with
  | none => some (RC_FILE_HANDLE_NOT_INIT, bm)
  | some metadata =>
    match getValue metadata.pageTable pageNum with
    | none => some (RC_IM_KEY_NOT_FOUND, bm)
    | some frameIndex =>
      match frameAt metadata.pageFrames frameIndex with
      | none => none
      | some frame =>
        let md1 : BM_Metadata :=
          { (getTimeStamp metadata).2 with
            pageFrames := setFrame metadata.pageFrames frameIndex
              { frame with timeStamp := (getTimeStamp metadata).1 } }
        if frame.fixCount = 0 then
          some (RC_OK, { bm with mgmtData := some (
            { md1 with
              pageFile := (writeBlock pageNum md1.pageFile frame.data).2
              numWrite := md1.numWrite + 1
              pageFrames := setFrame metadata.pageFrames frameIndex
                { frame with timeStamp := (getTimeStamp metadata).1, dirty := false } }) })
        else some (RC_WRITE_FAILED, { bm with mgmtData := some md1 })

/-- The end of `pinPage` on a miss, from the test of the frame the replacement returned:
`victim` is that frame (`none` for `NULL`) and the metadata the replacement left. The results
of `ensureCapacity` and `readBlock` are not looked at. -/
def pinPageInstall (bm : BM_BufferPool) (page : BM_PageHandle) (pageNum : Int)
    (victim : Option Int × BM_Metadata) : Option (RC × BM_BufferPool × BM_PageHandle) :=
  match victim.1 with
  | none => some (RC_WRITE_FAILED, { bm with mgmtData := some victim.2 }, page)
  | some idx =>
    match frameAt victim.2.pageFrames idx with
    | none => none
    | some pageFrame =>
      let pageFile := (ensureCapacity (pageNum + 1) victim.2.pageFile).2
      some (RC_OK,
        { bm with mgmtData := some (
          { victim.2 with
            pageTable := setValue victim.2.pageTable pageNum pageFrame.frameIndex
            pageFile := pageFile
            numRead := victim.2.numRead + 1
            pageFrames := setFrame victim.2.pageFrames idx
              { pageFrame with
                data := (readBlock pageNum pageFile pageFrame.data).2
                dirty := false
                fixCount := 1
                occupied := true
                pageNum := pageNum } }) },
        { pageNum := pageNum, data := some idx })

/-- The function `pinPage`: the return code, the pool, and the handle `page` after the call. `fuel`
bounds the passes of the FIFO loop. -/
def pinPage (fuel : Nat) (bm : BM_BufferPool) (page : BM_PageHandle) (pageNum : Int) :
    Option (RC × BM_BufferPool × BM_PageHandle) :=
  match bm.mgmtData with
  | none => some (RC_FILE_HANDLE_NOT_INIT, bm, page)
  | some metadata =>
    if pageNum ≥ 0 then
      match getValue metadata.pageTable pageNum with
      | some frameIndex =>
        match frameAt metadata.pageFrames frameIndex with
        | none => none
        | some frame =>
          some (RC_OK,
            { bm with mgmtData := some (
              { (getTimeStamp metadata).2 with
                pageFrames := setFrame metadata.pageFrames frameIndex
                  { frame with
                    timeStamp := (getTimeStamp metadata).1
                    fixCount := frame.fixCount + 1 } }) },
            { pageNum := pageNum, data := some frameIndex })
      | none =>
        match bm.strategy with
        | RS_FIFO =>
          (replacementFIFO fuel bm.numPages metadata).bind (pinPageInstall bm page pageNum)
        | RS_LRU =>
          (replacementLRU bm.numPages metadata).bind (pinPageInstall bm page pageNum)
        | RS_OTHER => some (RC_IM_CONFIG_ERROR, bm, page)
    else some (RC_IM_KEY_NOT_FOUND, bm, page)

/-- The loop shared by the three statistics functions: entry `i` is `g` of frame `i`. -/
def statLoop {α : Type} (g : BM_PageFrame → α) (pageFrames : List BM_PageFrame) :
    Nat → Nat → Option (List α)
  | 0, _ => some []
  | k + 1, i =>
    match pageFrames[i]? with
    | none => none
    | some frame => (statLoop g pageFrames k (i + 1)).map fun rest => g frame :: rest

/-- The function `getFrameContents`; the outer `none` is the `NULL` it returns for a pool without
metadata. -/
def getFrameContents (bm : BM_BufferPool) : Option (Option (List Int)) :=
  match bm.mgmtData with
  | none => some none
  | some metadata =>
    (statLoop (fun f => if f.occupied then f.pageNum else NO_PAGE)
      metadata.pageFrames bm.numPages.toNat 0).map some

/-- The function `getDirtyFlags`. -/
def getDirtyFlags (bm : BM_BufferPool) : Option (Option (List Bool)) :=
  match bm.mgmtData with
  | none => some none
  | some metadata =>
    (statLoop (fun f => if f.occupied then f.dirty else false)
      metadata.pageFrames bm.numPages.toNat 0).map some

/-- The function `getFixCounts`. -/
def getFixCounts (bm : BM_BufferPool) : Option (Option (List Int)) :=
  match bm.mgmtData with
  | none => some none
  | some metadata =>
    (statLoop (fun f => if f.occupied then f.fixCount else 0)
      metadata.pageFrames bm.numPages.toNat 0).map some

/-- The function `getNumReadIO`. -/
def getNumReadIO (bm : BM_BufferPool) : Int :=
  match bm.mgmtData with
  | none => 0
  | some metadata => metadata.numRead

/-- The function `getNumWriteIO`. -/
def getNumWriteIO (bm : BM_BufferPool) : Int :=
  match bm.mgmtData with
  | none => 0
  | some metadata => metadata.numWrite

/-! ## Closed forms and example states used by the theorems -/

/-- The metadata `getAfterEviction` leaves when it evicts frame `i`, whose record was `f`. -/
def evicted (md : BM_Metadata) (i : Int) (f : BM_PageFrame) : BM_Metadata :=
  { pageFrames := setFrame md.pageFrames i { f with timeStamp := md.timeStamp }
    pageTable := if f.occupied then removePair md.pageTable f.pageNum else md.pageTable
    pageFile :=
      if f.occupied ∧ f.dirty then (writeBlock f.pageNum md.pageFile f.data).2 else md.pageFile
    timeStamp := (md.timeStamp + 1) % 2 ^ 32
    queueIndex := md.queueIndex
    numRead := md.numRead
    numWrite := if f.occupied ∧ f.dirty then md.numWrite + 1 else md.numWrite }

/-- The metadata a miss of `pinPage` leaves when the replacement chose frame `v`, whose record
was `f`, for page `p`; `md` is the metadata the replacement started from (with the queue
index it stored). -/
def missMetadata (md : BM_Metadata) (v : Int) (f : BM_PageFrame) (p : Int) : BM_Metadata :=
  { pageFrames := setFrame md.pageFrames v
      { f with
        timeStamp := md.timeStamp
        data := (readBlock p (ensureCapacity (p + 1) (evicted md v f).pageFile).2 f.data).2
        dirty := false
        fixCount := 1
        occupied := true
        pageNum := p }
    pageTable := setValue (evicted md v f).pageTable p f.frameIndex
    pageFile := (ensureCapacity (p + 1) (evicted md v f).pageFile).2
    timeStamp := (md.timeStamp + 1) % 2 ^ 32
    queueIndex := md.queueIndex
    numRead := md.numRead + 1
    numWrite := (evicted md v f).numWrite }

/-- A page file of two zero pages on a device with room for eight. -/
def fileW : SM_FileHandle :=
  { fileName := "w.bin", totalNumPages := 2, curPagePos := 0
    mgmtInfo := some { pages := [emptyPage, emptyPage], capacity := 8 } }

/-- The metadata of a pool of two frames: page 0 in frame 0, held by one client; page 1 in
frame 1, not held; the queue index stands at frame 1. -/
def mdW : BM_Metadata :=
  { pageFrames :=
      [{ data := emptyPage, pageNum := 0, frameIndex := 0, fixCount := 1, dirty := false,
         occupied := true, timeStamp := 2 },
       { data := emptyPage, pageNum := 1, frameIndex := 1, fixCount := 0, dirty := false,
         occupied := true, timeStamp := 4 }]
    pageTable := setValue (setValue (initHashTable PAGE_TABLE_SIZE) 0 0) 1 1
    pageFile := fileW
    timeStamp := 5
    queueIndex := 1
    numRead := 2
    numWrite := 0 }

/-- A FIFO pool over `mdW`. -/
def poolW : BM_BufferPool :=
  { numPages := 2, strategy := RS_FIFO, mgmtData := some mdW }

/-! ### Client programs

The scenarios of the specification are runs of a client that owns one page handle, like the
test programs for this pool do. -/

/-- A client writes `bytes` through the pointer `page->data` of its handle. -/
def writeBuffer (bm : BM_BufferPool) (page : BM_PageHandle) (bytes : List Nat) :
    Option BM_BufferPool :=
  match bm.mgmtData, page.data with
  | some metadata, some i =>
    (frameAt metadata.pageFrames i).map fun frame =>
      { bm with mgmtData := some (
          { metadata with
            pageFrames := setFrame metadata.pageFrames i { frame with data := bytes } }) }
  | _, _ => none

/-- The calls a client makes. All but `pin` and `flush` act on the client's handle. -/
inductive ClientOp where
  | pin (pageNum : Int)
  | fill (bytes : List Nat)
  | dirty
  | unpin
  | force
  | flush

/-- A client: the pool, its page handle, and the return codes it has seen, oldest first. -/
structure Client where
  pool : BM_BufferPool
  handle : BM_PageHandle
  codes : List RC

/-- One call of the client. -/
def clientStep (fuel : Nat) (c : Client) : ClientOp → Option Client
  | ClientOp.pin pageNum =>
    (pinPage fuel c.pool c.handle pageNum).map fun r =>
      { pool := r.2.1, handle := r.2.2, codes := c.codes ++ [r.1] }
  | ClientOp.fill bytes =>
    (writeBuffer c.pool c.handle bytes).map fun bm => { c with pool := bm }
  | ClientOp.dirty =>
    (markDirty c.pool c.handle.pageNum).map fun r =>
      { c with pool := r.2, codes := c.codes ++ [r.1] }
  | ClientOp.unpin =>
    (unpinPage c.pool c.handle.pageNum).map fun r =>
      { c with pool := r.2, codes := c.codes ++ [r.1] }
  | ClientOp.force =>
    (forcePage c.pool c.handle.pageNum).map fun r =>
      { c with pool := r.2, codes := c.codes ++ [r.1] }
  | ClientOp.flush =>
    (forceFlushPool c.pool).map fun r => { c with pool := r.2, codes := c.codes ++ [r.1] }

/-- A run of the client: the calls of the list, in order. -/
def runClient (fuel : Nat) : List ClientOp → Client → Option Client
  | [], c => some c
  | op :: ops, c => (clientStep fuel c op).bind (runClient fuel ops)

/-- The file system of the scenarios: the page file `testbuffer.bin` as `createPageFile`
leaves it, one zero page, on a device with room for sixteen pages. -/
def scenarioFS : String → Option FILE := fun name =>
  if name = "testbuffer.bin" then some { pages := [emptyPage], capacity := 16 } else none

/-- What `malloc` hands out in the scenarios: every byte of a fresh buffer is `0xAA`. -/
def scenarioMalloc : Nat → BM_PageFrame := fun _ =>
  { data := List.replicate PAGE_SIZE 170, pageNum := 170, frameIndex := 170, fixCount := 170,
    dirty := true, occupied := true, timeStamp := 170 }

/-- The client of a scenario at its start: a pool of `numPages` frames over `testbuffer.bin`,
initialised in a pool record whose `numPages` field held `prior` before the call. -/
def scenarioClient (prior numPages : Int) (strategy : ReplacementStrategy) : Client :=
  { pool := (initBufferPool { numPages := prior, strategy := RS_OTHER, mgmtData := none }
      scenarioFS "testbuffer.bin" numPages strategy scenarioMalloc).2
    handle := { pageNum := NO_PAGE, data := none }
    codes := [] }

/-- The metadata of an LRU pool of one frame that holds page 0, not held by any client, whose
time stamp is `UINT_MAX`: the clock had reached `UINT_MAX` when the frame was last touched,
and has wrapped to 0. -/
def mdStampMax : BM_Metadata :=
  { pageFrames :=
      [{ data := emptyPage, pageNum := 0, frameIndex := 0, fixCount := 0, dirty := false,
         occupied := true, timeStamp := UINT_MAX }]
    pageTable := setValue (initHashTable PAGE_TABLE_SIZE) 0 0
    pageFile := fileW
    timeStamp := 0
    queueIndex := 0
    numRead := 1
    numWrite := 0 }

/-- An LRU pool over `mdStampMax`. -/
def poolStampMax : BM_BufferPool :=
  { numPages := 1, strategy := RS_LRU, mgmtData := some mdStampMax }

/-- A page file of one zero page on a device that has no room for a second page. -/
def fileFull : SM_FileHandle :=
  { fileName := "full.bin", totalNumPages := 1, curPagePos := 0
    mgmtInfo := some { pages := [emptyPage], capacity := 1 } }

/-- A FIFO pool of one empty frame over `fileFull`, as `initBufferPool` leaves it. -/
def poolFull : BM_BufferPool :=
  { numPages := 1
    strategy := RS_FIFO
    mgmtData := some (
      { pageFrames :=
          [{ data := List.replicate PAGE_SIZE 170, pageNum := 170, frameIndex := 0,
             fixCount := 0, dirty := false, occupied := false, timeStamp := 0 }]
        pageTable := initHashTable PAGE_TABLE_SIZE
        pageFile := fileFull
        timeStamp := 1
        queueIndex := 0
        numRead := 0
        numWrite := 0 }) }

/-- The codes of `k` calls `pinPage(bm, page, pageNum)` in a row, and the pool after them. -/
def pinRepeatedly (fuel : Nat) (page : BM_PageHandle) (pageNum : Int) :
    Nat → BM_BufferPool → Option (List RC × BM_BufferPool)
  | 0, bm => some ([], bm)
  | k + 1, bm =>
    (pinPage fuel bm page pageNum).bind fun r =>
      (pinRepeatedly fuel page pageNum k r.2.1).map fun rest => (r.1 :: rest.1, rest.2)

/-- A FIFO pool of two frames, both held: pages 0 and 1. -/
def mdAllPinned : BM_Metadata :=
  { mdW with
    pageFrames :=
      [{ data := emptyPage, pageNum := 0, frameIndex := 0, fixCount := 1, dirty := false,
         occupied := true, timeStamp := 2 },
       { data := emptyPage, pageNum := 1, frameIndex := 1, fixCount := 2, dirty := false,
         occupied := true, timeStamp := 4 }] }

/-! ### The invariants of the data model -/

/-- The directory and the frame table agree. Every frame carries its own index; a frame is
occupied exactly when the directory maps its page number to its index (I1); every entry of
the directory points at an occupied frame that holds the key (I2). -/
def DirAgree (md : BM_Metadata) : Prop :=
  (∀ i f, frameAt md.pageFrames i = some f → f.frameIndex = i) ∧
  (∀ i f, frameAt md.pageFrames i = some f →
    (f.occupied = true ↔ getValue md.pageTable f.pageNum = some f.frameIndex)) ∧
  (∀ p i, getValue md.pageTable p = some i →
    ∃ f, frameAt md.pageFrames i = some f ∧ f.occupied = true ∧ f.pageNum = p)

/-- The invariants of a single frame: the fix count is not negative (I4), a frame that is not
occupied has fix count 0 and is not dirty (I3), a dirty frame is occupied (I5). -/
def FrameInv (md : BM_Metadata) : Prop :=
  ∀ i f, frameAt md.pageFrames i = some f →
    0 ≤ f.fixCount ∧ (f.occupied = false → f.fixCount = 0 ∧ f.dirty = false) ∧
    (f.dirty = true → f.occupied = true)

/-- What one frame may look like after `forceFlushPool`, given what it was before: only the
time stamp may have changed and the dirty flag may have been cleared. -/
def FlushRel (f f' : BM_PageFrame) : Prop :=
  f'.pageNum = f.pageNum ∧ f'.occupied = f.occupied ∧ f'.frameIndex = f.frameIndex ∧
  f'.fixCount = f.fixCount ∧ f'.data = f.data ∧ (f'.dirty = true → f.dirty = true)

/-! ### The backing file -/

/-- The pages of the backing file, as a reader that opens the file on its own sees them. -/
def filePages (fHandle : SM_FileHandle) : List (List Nat) :=
  match fHandle.mgmtInfo with
  | some fp => fp.pages
  | none => []

/-- The number of pages the device of the backing file has room for. -/
def fileRoom (fHandle : SM_FileHandle) : Nat :=
  match fHandle.mgmtInfo with
  | some fp => fp.capacity
  | none => 0

/-- The handle is open and `totalNumPages` is the number of pages of the file, as
`openPageFile` establishes it. -/
def FileOK (fHandle : SM_FileHandle) : Prop :=
  ∃ fp, fHandle.mgmtInfo = some fp ∧ fHandle.totalNumPages = (fp.pages.length : Int)

/-- The payload of the write-back scenario: a page of `'X'` bytes. -/
def payloadX : List Nat := List.replicate PAGE_SIZE 88

/-- The metadata of a pool of one frame over a page file of one zero page with room to grow:
the frame holds page 0, is not held by any client, and is dirty with the payload of `'X'`
bytes. -/
def mdDirty : BM_Metadata :=
  { pageFrames :=
      [{ data := payloadX, pageNum := 0, frameIndex := 0, fixCount := 0, dirty := true,
         occupied := true, timeStamp := 3 }]
    pageTable := setValue (initHashTable PAGE_TABLE_SIZE) 0 0
    pageFile :=
      { fileName := "testbuffer.bin", totalNumPages := 1, curPagePos := 0
        mgmtInfo := some { pages := [emptyPage], capacity := 16 } }
    timeStamp := 4
    queueIndex := 0
    numRead := 1
    numWrite := 0 }

/-- A FIFO pool over `mdDirty`. -/
def poolDirty : BM_BufferPool :=
  { numPages := 1, strategy := RS_FIFO, mgmtData := some mdDirty }

/-- The metadata of a pool of one frame that holds page 0 for a client (fix count 1), clean,
over a page file of one zero page. -/
def mdHeld : BM_Metadata :=
  { pageFrames :=
      [{ data := emptyPage, pageNum := 0, frameIndex := 0, fixCount := 1, dirty := false,
         occupied := true, timeStamp := 1 }]
    pageTable := setValue (initHashTable PAGE_TABLE_SIZE) 0 0
    pageFile :=
      { fileName := "testbuffer.bin", totalNumPages := 1, curPagePos := 0
        mgmtInfo := some { pages := [emptyPage], capacity := 16 } }
    timeStamp := 2
    queueIndex := 0
    numRead := 1
    numWrite := 0 }

/-- A FIFO pool over `mdHeld`. -/
def poolHeld : BM_BufferPool :=
  { numPages := 1, strategy := RS_FIFO, mgmtData := some mdHeld }

/-- Frame `v` of the pool holds page `p`, its record is `g`, and the pool and its file are
in order with page `p` inside the file, a file all of whose byte offsets fit an `int`: the
facts that are followed through the steps of the round trip. -/
def Tracked (md : BM_Metadata) (v p : Int) (g : BM_PageFrame) : Prop :=
  frameAt md.pageFrames v = some g ∧ g.pageNum = p ∧ g.occupied = true ∧ DirAgree md ∧
  FileOK md.pageFile ∧ 0 ≤ p ∧ p < md.pageFile.totalNumPages ∧
  md.pageFile.totalNumPages ≤ SEEK_PAGES

/-- The test of the loop of `forceFlushPool`: the frame is occupied, dirty and not pinned. -/
def flushable (f : BM_PageFrame) : Bool :=
  f.occupied && f.dirty && decide (f.fixCount = 0)

/-- The metadata of a FIFO pool of two frames, both held, whose queue index is `-1`, outside
`[0, 2)`: the value `initBufferPool` stores when the pool record held `numPages = 0` before
the call. -/
def mdCursorOut : BM_Metadata :=
  { mdAllPinned with queueIndex := -1 }

/-- The handle that `openPageFile` leaves for a page file of `n` zero pages on a device without
room for more. -/
def zeroFile (n : Nat) : SM_FileHandle :=
  { fileName := "zero.bin", totalNumPages := (n : Int), curPagePos := 0
    mgmtInfo := some { pages := List.replicate n emptyPage, capacity := n } }

/-- A client of `poolFull` at its start. -/
def clientFull : Client :=
  { pool := poolFull, handle := { pageNum := NO_PAGE, data := none }, codes := [] }

open ClientOp

/-! ## Lemmas about the embedding -/

theorem frameAt_eq_some {pf : List BM_PageFrame} {i : Int} {f : BM_PageFrame} :
    frameAt pf i = some f ↔ 0 ≤ i ∧ pf[i.toNat]? = some f := by
  unfold frameAt
  by_cases h : i < 0
  · simp [h]
  · simp [h]; omega

theorem frameAt_setFrame {pf : List BM_PageFrame} {i : Int} {f g : BM_PageFrame}
    (h : frameAt pf i = some f) (j : Int) :
    frameAt (setFrame pf i g) j = if j = i then some g else frameAt pf j := by
  obtain ⟨hi, hf⟩ := frameAt_eq_some.mp h
  have hlt : i.toNat < pf.length := by
    rcases List.getElem?_eq_some_iff.mp hf with ⟨hl, _⟩
    exact hl
  unfold frameAt setFrame
  by_cases hj : j = i
  · subst hj
    simp [not_lt.mpr hi, List.getElem?_set_self hlt]
  · by_cases hj0 : j < 0
    · simp [hj0, hj]
    · have : i.toNat ≠ j.toNat := by omega
      simp [hj0, hj, List.getElem?_set_ne this]

theorem setFrame_setFrame (pf : List BM_PageFrame) (i : Int) (f g : BM_PageFrame) :
    setFrame (setFrame pf i f) i g = setFrame pf i g := by
  unfold setFrame
  simp [List.set_set]

theorem length_setFrame (pf : List BM_PageFrame) (i : Int) (f : BM_PageFrame) :
    (setFrame pf i f).length = pf.length := by
  simp [setFrame]

theorem getAfterEviction_eq {md : BM_Metadata} {i : Int} {f : BM_PageFrame}
    (h : frameAt md.pageFrames i = some f) :
    getAfterEviction md i = some (i, evicted md i f) := by
  unfold getAfterEviction evicted
  rw [h]
  cases ho : f.occupied <;> cases hd : f.dirty <;> simp [getTimeStamp, ho, hd]

theorem getAfterEviction_none {md : BM_Metadata} {i : Int}
    (h : frameAt md.pageFrames i = none) : getAfterEviction md i = none := by
  unfold getAfterEviction
  rw [h]


theorem frameAt_natCast (pf : List BM_PageFrame) (i : Nat) : frameAt pf (i : Int) = pf[i]? := by
  unfold frameAt
  simp

theorem fifoLoop_sound (pf : List BM_PageFrame) (n first : Int) :
    ∀ (fuel : Nat) (cur r : Int), fifoLoop pf n first fuel cur = some r →
      ∃ f, frameAt pf r = some f ∧ (f.fixCount = 0 ∨ r = first) := by
  intro fuel
  induction fuel with
  | zero => intro cur r h; simp [fifoLoop] at h
  | succ k ih =>
    intro cur r h
    unfold fifoLoop at h
    split at h
    · simp at h
    · split at h
      · simp at h
      · rename_i frame hfr
        split at h
        · rename_i h0
          simp at h
          subst h
          exact ⟨frame, hfr, Or.inl h0⟩
        · split at h
          · rename_i h1
            simp at h
            subst h
            exact ⟨frame, hfr, Or.inr h1⟩
          · exact ih _ _ h

theorem replacementFIFO_inv {fuel : Nat} {n : Int} {md md' : BM_Metadata} {victim : Option Int}
    (h : replacementFIFO fuel n md = some (victim, md')) :
    ∃ r f, fifoLoop md.pageFrames n md.queueIndex fuel md.queueIndex = some r ∧
      frameAt md.pageFrames r = some f ∧
      ((f.fixCount = 0 ∧ victim = some r ∧ md' = evicted { md with queueIndex := r } r f) ∨
       (f.fixCount ≠ 0 ∧ victim = none ∧ md' = { md with queueIndex := r })) := by
  unfold replacementFIFO at h
  split at h
  · simp at h
  · rename_i r hr
    split at h
    · simp at h
    · rename_i f hf
      refine ⟨r, f, hr, hf, ?_⟩
      split at h
      · rename_i h0
        left
        have hf' : frameAt ({ md with queueIndex := r } : BM_Metadata).pageFrames r = some f := hf
        rw [getAfterEviction_eq hf'] at h
        simp at h
        exact ⟨h0, h.1.symm, h.2.symm⟩
      · rename_i h0
        right
        simp at h
        exact ⟨h0, h.1.symm, h.2.symm⟩

theorem lruLoop_spec (pf : List BM_PageFrame) :
    ∀ (k i min : Nat) (mi : Int) (m' : Nat) (mi' : Int),
      lruLoop pf k i min mi = some (m', mi') →
      ((mi' = mi ∧ m' = min ∧
          ∀ j f, i ≤ j → j < i + k → pf[j]? = some f → f.fixCount = 0 → min ≤ f.timeStamp) ∨
       (∃ (v : Nat) (f : BM_PageFrame), mi' = (v : Int) ∧ i ≤ v ∧ v < i + k ∧ pf[v]? = some f ∧ f.fixCount = 0 ∧
          f.timeStamp = m' ∧ m' < min ∧
          (∀ j g, i ≤ j → j < i + k → pf[j]? = some g → g.fixCount = 0 → m' ≤ g.timeStamp) ∧
          (∀ j g, i ≤ j → j < v → pf[j]? = some g → g.fixCount = 0 → m' < g.timeStamp))) := by
  intro k
  induction k with
  | zero =>
    intro i min mi m' mi' h
    simp [lruLoop] at h
    left
    refine ⟨h.2.symm, h.1.symm, ?_⟩
    intro j f h1 h2
    omega
  | succ k ih =>
    intro i min mi m' mi' h
    unfold lruLoop at h
    split at h
    · simp at h
    · rename_i frame hfr
      split at h
      · rename_i hc
        right
        rcases ih _ _ _ _ _ h with ⟨h1, h2, h3⟩ | ⟨v, f, h1, h2, h3, h4, h5, h6, h7, h8, h9⟩
        · refine ⟨i, frame, h1, le_refl _, by omega, hfr, hc.1, h2.symm, by omega, ?_, ?_⟩
          · intro j g hj1 hj2 hg hg0
            rcases Nat.eq_or_lt_of_le hj1 with he | hl
            · subst he
              rw [hfr] at hg
              cases hg
              omega
            · have := h3 j g (by omega) (by omega) hg hg0
              omega
          · intro j g hj1 hj2
            omega
        · refine ⟨v, f, h1, by omega, by omega, h4, h5, h6, by omega, ?_, ?_⟩
          · intro j g hj1 hj2 hg hg0
            rcases Nat.eq_or_lt_of_le hj1 with he | hl
            · subst he
              rw [hfr] at hg
              cases hg
              omega
            · exact h8 j g (by omega) (by omega) hg hg0
          · intro j g hj1 hj2 hg hg0
            rcases Nat.eq_or_lt_of_le hj1 with he | hl
            · subst he
              rw [hfr] at hg
              cases hg
              omega
            · exact h9 j g (by omega) hj2 hg hg0
      · rename_i hc
        rcases ih _ _ _ _ _ h with ⟨h1, h2, h3⟩ | ⟨v, f, h1, h2, h3, h4, h5, h6, h7, h8, h9⟩
        · left
          refine ⟨h1, h2, ?_⟩
          intro j g hj1 hj2 hg hg0
          rcases Nat.eq_or_lt_of_le hj1 with he | hl
          · subst he
            rw [hfr] at hg
            cases hg
            by_contra hlt
            exact hc ⟨hg0, by omega⟩
          · exact h3 j g (by omega) (by omega) hg hg0
        · right
          refine ⟨v, f, h1, by omega, by omega, h4, h5, h6, h7, ?_, ?_⟩
          · intro j g hj1 hj2 hg hg0
            rcases Nat.eq_or_lt_of_le hj1 with he | hl
            · subst he
              rw [hfr] at hg
              cases hg
              by_contra hlt
              exact hc ⟨hg0, by omega⟩
            · exact h8 j g (by omega) (by omega) hg hg0
          · intro j g hj1 hj2 hg hg0
            rcases Nat.eq_or_lt_of_le hj1 with he | hl
            · subst he
              rw [hfr] at hg
              cases hg
              by_contra hlt
              exact hc ⟨hg0, by omega⟩
            · exact h9 j g (by omega) hj2 hg hg0

theorem replacementLRU_inv {n : Int} {md md' : BM_Metadata} {victim : Option Int}
    (h : replacementLRU n md = some (victim, md')) :
    (victim = none ∧ md' = md) ∨
    (∃ (v : Nat) (f : BM_PageFrame), victim = some (v : Int) ∧
        frameAt md.pageFrames v = some f ∧ f.fixCount = 0 ∧ md' = evicted md v f) := by
  unfold replacementLRU at h
  split at h
  · simp at h
  · rename_i r hr
    split at h
    · rename_i hm
      left
      simp at h
      exact ⟨h.1.symm, h.2.symm⟩
    · rename_i hm
      right
      rcases lruLoop_spec _ _ _ _ _ _ _ hr with ⟨h1, _, _⟩ | ⟨v, f, h1, _, _, h4, h5, _⟩
      · exact absurd h1 hm
      · have hf : frameAt md.pageFrames r.2 = some f := by
          rw [h1, frameAt_natCast]; exact h4
        rw [getAfterEviction_eq hf] at h
        simp at h
        refine ⟨v, f, ?_, ?_, h5, ?_⟩
        · rw [← h1]; exact h.1.symm
        · rw [← h1]; exact hf
        · rw [← h1]; exact h.2.symm


theorem pinPageInstall_victim (bm : BM_BufferPool) (page : BM_PageHandle) (p : Int)
    {md : BM_Metadata} {v : Int} {f : BM_PageFrame} (hf : frameAt md.pageFrames v = some f) :
    pinPageInstall bm page p (some v, evicted md v f) =
      some (RC_OK, { bm with mgmtData := some (missMetadata md v f p) },
        { pageNum := p, data := some v }) := by
  have hf' : frameAt (evicted md v f).pageFrames v = some { f with timeStamp := md.timeStamp } := by
    show frameAt (setFrame md.pageFrames v _) v = _
    rw [frameAt_setFrame hf]
    simp
  unfold pinPageInstall
  simp only [hf']
  simp [missMetadata, evicted, setFrame_setFrame]

theorem pinPage_hit {fuel : Nat} {bm : BM_BufferPool} {page : BM_PageHandle} {p : Int}
    {md : BM_Metadata} {i : Int} (hmd : bm.mgmtData = some md) (hp : 0 ≤ p)
    (hget : getValue md.pageTable p = some i) :
    pinPage fuel bm page p =
      (frameAt md.pageFrames i).map fun f =>
        (RC_OK,
          { bm with mgmtData := some (
            { md with
              timeStamp := (md.timeStamp + 1) % 2 ^ 32
              pageFrames := setFrame md.pageFrames i
                { f with timeStamp := md.timeStamp, fixCount := f.fixCount + 1 } }) },
          { pageNum := p, data := some i }) := by
  unfold pinPage
  simp only [hmd, hget, ge_iff_le, hp, if_true]
  cases hfr : frameAt md.pageFrames i <;> simp [getTimeStamp]

theorem pinPage_miss_inv {fuel : Nat} {bm bm' : BM_BufferPool} {page page' : BM_PageHandle}
    {p : Int} {rc : RC} {md : BM_Metadata}
    (h : pinPage fuel bm page p = some (rc, bm', page'))
    (hmd : bm.mgmtData = some md) (hp : 0 ≤ p) (hget : getValue md.pageTable p = none) :
    (bm.strategy = RS_OTHER ∧ rc = RC_IM_CONFIG_ERROR ∧ bm' = bm ∧ page' = page) ∨
    (∃ q, rc = RC_WRITE_FAILED ∧ page' = page ∧
        bm' = { bm with mgmtData := some { md with queueIndex := q } } ∧
        (bm.strategy = RS_LRU → q = md.queueIndex) ∧
        (bm.strategy = RS_FIFO → ∃ g, frameAt md.pageFrames q = some g ∧ g.fixCount ≠ 0 ∧
          fifoLoop md.pageFrames bm.numPages md.queueIndex fuel md.queueIndex = some q)) ∨
    (∃ q v f, rc = RC_OK ∧ page' = { pageNum := p, data := some v } ∧
        frameAt md.pageFrames v = some f ∧ f.fixCount = 0 ∧
        bm' = { bm with mgmtData := some (missMetadata { md with queueIndex := q } v f p) } ∧
        (bm.strategy = RS_LRU → q = md.queueIndex ∧
          replacementLRU bm.numPages md = some (some v, evicted md v f)) ∧
        (bm.strategy = RS_FIFO → q = v ∧
          fifoLoop md.pageFrames bm.numPages md.queueIndex fuel md.queueIndex = some v)) := by
  unfold pinPage at h
  simp only [hmd, hget, ge_iff_le, hp, if_true] at h
  have hcases : bm.strategy = RS_OTHER ∨ bm.strategy = RS_FIFO ∨ bm.strategy = RS_LRU := by
    cases bm.strategy <;> simp
  rcases hcases with hs | hs | hs
  · left
    simp [hs] at h
    exact ⟨hs, h.1.symm, h.2.1.symm, h.2.2.symm⟩
  · right
    simp only [hs] at h
    rcases Option.bind_eq_some.mp h with ⟨⟨victim, md1⟩, hrep, hinst⟩
    rcases replacementFIFO_inv hrep with ⟨r, f, hloop, hfr, ⟨h0, hv, hm⟩ | ⟨h0, hv, hm⟩⟩
    · right
      subst hv hm
      have hfr' : frameAt ({ md with queueIndex := r } : BM_Metadata).pageFrames r = some f := hfr
      rw [pinPageInstall_victim bm page p hfr'] at hinst
      simp at hinst
      refine ⟨r, r, f, hinst.1.symm, hinst.2.2.symm, hfr, h0, hinst.2.1.symm, ?_, ?_⟩
      · intro hc; rw [hs] at hc; cases hc
      · intro _; exact ⟨rfl, hloop⟩
    · left
      subst hv hm
      simp [pinPageInstall] at hinst
      refine ⟨r, hinst.1.symm, hinst.2.2.symm, hinst.2.1.symm, ?_, ?_⟩
      · intro hc; rw [hs] at hc; cases hc
      · intro _; exact ⟨f, hfr, h0, hloop⟩
  · right
    simp only [hs] at h
    rcases Option.bind_eq_some.mp h with ⟨⟨victim, md1⟩, hrep, hinst⟩
    rcases replacementLRU_inv hrep with ⟨hv, hm⟩ | ⟨v, f, hv, hfr, h0, hm⟩
    · left
      subst hv hm
      simp [pinPageInstall] at hinst
      refine ⟨md1.queueIndex, hinst.1.symm, hinst.2.2.symm, ?_, ?_, ?_⟩
      · rw [← hinst.2.1]
      · intro _; rfl
      · intro hc; rw [hs] at hc; cases hc
    · right
      subst hv hm
      rw [pinPageInstall_victim bm page p hfr] at hinst
      simp at hinst
      refine ⟨md.queueIndex, v, f, hinst.1.symm, hinst.2.2.symm, hfr, h0, ?_, ?_, ?_⟩
      · rw [← hinst.2.1]
      · intro _; exact ⟨rfl, hrep⟩
      · intro hc; rw [hs] at hc; cases hc

theorem frameAt_isSome_of_lt (pf : List BM_PageFrame) {i : Int} (h0 : 0 ≤ i)
    (h1 : i < (pf.length : Int)) : ∃ g, frameAt pf i = some g := by
  have hlt : i.toNat < pf.length := by omega
  refine ⟨pf[i.toNat], ?_⟩
  rw [frameAt_eq_some]
  exact ⟨h0, List.getElem?_eq_getElem hlt⟩

theorem frameAt_lt {pf : List BM_PageFrame} {i : Int} {g : BM_PageFrame}
    (h : frameAt pf i = some g) : 0 ≤ i ∧ i < (pf.length : Int) := by
  obtain ⟨hi, hf⟩ := frameAt_eq_some.mp h
  rcases List.getElem?_eq_some_iff.mp hf with ⟨hl, _⟩
  omega

theorem fifoLoop_steps (pf : List BM_PageFrame) (n first : Int) (hn : 0 < n)
    (hlen : (pf.length : Int) = n) :
    ∀ (m fuel : Nat) (cur : Int), m < fuel → 0 ≤ cur → cur < n →
      (∀ t : Nat, 1 ≤ t → t ≤ m → ∀ g, frameAt pf ((cur + t) % n) = some g →
        g.fixCount ≠ 0 ∧ (cur + t) % n ≠ first) →
      (∀ g, frameAt pf ((cur + (m + 1 : Nat)) % n) = some g →
        g.fixCount = 0 ∨ (cur + (m + 1 : Nat)) % n = first) →
      fifoLoop pf n first fuel cur = some ((cur + (m + 1 : Nat)) % n) := by
  intro m
  induction m with
  | zero =>
    intro fuel cur hf h0 h1 _ hstop
    obtain ⟨k, rfl⟩ : ∃ k, fuel = k + 1 := ⟨fuel - 1, by omega⟩
    have hmod : Int.tmod (cur + 1) n = (cur + 1) % n := Int.tmod_eq_emod (by omega) (by omega)
    have hr0 : 0 ≤ (cur + 1) % n := Int.emod_nonneg _ (by omega)
    have hr1 : (cur + 1) % n < n := Int.emod_lt_of_pos _ hn
    obtain ⟨g, hg⟩ := frameAt_isSome_of_lt pf hr0 (by omega)
    have hs := hstop g (by simpa using hg)
    unfold fifoLoop
    simp only [hmod, hg, if_neg (ne_of_gt hn)]
    rcases hs with hs | hs
    · simp [hs]
    · have hs' : (cur + 1) % n = first := by simpa using hs
      by_cases hz : g.fixCount = 0
      · simp [hz]
      · simp [hz, hs']
  | succ m ih =>
    intro fuel cur hf h0 h1 hgo hstop
    obtain ⟨k, rfl⟩ : ∃ k, fuel = k + 1 := ⟨fuel - 1, by omega⟩
    have hmod : Int.tmod (cur + 1) n = (cur + 1) % n := Int.tmod_eq_emod (by omega) (by omega)
    have hr0 : 0 ≤ (cur + 1) % n := Int.emod_nonneg _ (by omega)
    have hr1 : (cur + 1) % n < n := Int.emod_lt_of_pos _ hn
    obtain ⟨g, hg⟩ := frameAt_isSome_of_lt pf hr0 (by omega)
    have h1' := hgo 1 (le_refl _) (by omega) g (by simpa using hg)
    have hshift : ∀ t : Nat, ((cur + 1) % n + (t : Int)) % n = (cur + ((t + 1 : Nat) : Int)) % n := by
      intro t
      rw [Int.emod_add_emod]
      congr 1
      push_cast
      ring
    unfold fifoLoop
    simp only [hmod, hg, if_neg (ne_of_gt hn), if_neg h1'.1]
    have hne : ¬ (cur + 1) % n = first := by simpa using h1'.2
    simp only [if_neg hne]
    have := ih k ((cur + 1) % n) (by omega) hr0 hr1
      (by
        intro t ht1 ht2 g' hg'
        rw [hshift t] at hg' ⊢
        exact hgo (t + 1) (by omega) (by omega) g' hg')
      (by
        intro g' hg'
        rw [hshift (m + 1)] at hg' ⊢
        exact hstop g' hg')
    rw [this, hshift (m + 1)]


theorem emod_add_ne_self {c n : Int} {t : Nat} (hc0 : 0 ≤ c) (hc1 : c < n) (ht0 : 1 ≤ t)
    (ht1 : (t : Int) < n) : (c + t) % n ≠ c := by
  intro h
  by_cases hlt : c + t < n
  · rw [Int.emod_eq_of_lt (by omega) hlt] at h
    omega
  · have h2 : (c + t) % n = (c + t - n) % n := by
      rw [Int.sub_emod, Int.emod_self, sub_zero, Int.emod_emod_of_dvd _ (dvd_refl n)]
    rw [h2, Int.emod_eq_of_lt (by omega) (by omega)] at h
    omega

theorem emod_add_self_eq {c n : Int} (hc0 : 0 ≤ c) (hc1 : c < n) : (c + n) % n = c := by
  rw [Int.add_emod_self, Int.emod_eq_of_lt hc0 hc1]

theorem replacementFIFO_of_loop {fuel : Nat} {n : Int} {md : BM_Metadata} {r : Int}
    {g : BM_PageFrame}
    (hloop : fifoLoop md.pageFrames n md.queueIndex fuel md.queueIndex = some r)
    (hg : frameAt md.pageFrames r = some g) :
    replacementFIFO fuel n md =
      if g.fixCount = 0 then some (some r, evicted { md with queueIndex := r } r g)
      else some (none, { md with queueIndex := r }) := by
  unfold replacementFIFO
  simp only [hloop, hg]
  have hg' : frameAt ({ md with queueIndex := r } : BM_Metadata).pageFrames r = some g := hg
  by_cases h0 : g.fixCount = 0
  · simp [h0, getAfterEviction_eq hg']
  · simp [h0]

theorem lruLoop_isSome (pf : List BM_PageFrame) :
    ∀ (k i min : Nat) (mi : Int), i + k ≤ pf.length → ∃ r, lruLoop pf k i min mi = some r := by
  intro k
  induction k with
  | zero => intro i min mi _; exact ⟨_, rfl⟩
  | succ k ih =>
    intro i min mi h
    have hlt : i < pf.length := by omega
    unfold lruLoop
    rw [List.getElem?_eq_getElem hlt]
    simp only
    split
    · exact ih _ _ _ (by omega)
    · exact ih _ _ _ (by omega)

theorem replacementFIFO_spec (fuel : Nat) (n : Int) (md : BM_Metadata)
    (hn : 0 < n) (hlen : (md.pageFrames.length : Int) = n)
    (hc0 : 0 ≤ md.queueIndex) (hc1 : md.queueIndex < n) (hfuel : n ≤ (fuel : Int)) :
    ((∃ i g, frameAt md.pageFrames i = some g ∧ g.fixCount = 0) →
      ∃ k : Nat, 1 ≤ k ∧ (k : Int) ≤ n ∧
        (∃ g, frameAt md.pageFrames ((md.queueIndex + k) % n) = some g ∧ g.fixCount = 0) ∧
        (∀ j : Nat, 1 ≤ j → j < k →
          ∀ g, frameAt md.pageFrames ((md.queueIndex + j) % n) = some g → g.fixCount ≠ 0) ∧
        ∃ md', replacementFIFO fuel n md = some (some ((md.queueIndex + k) % n), md') ∧
          md'.queueIndex = (md.queueIndex + k) % n) ∧
    ((∀ i g, frameAt md.pageFrames i = some g → g.fixCount ≠ 0) →
      replacementFIFO fuel n md = some (none, md)) := by
  refine ⟨?_, ?_⟩
  · rintro ⟨i, g, hg, hg0⟩
    classical
    obtain ⟨hi0, hi1⟩ := frameAt_lt hg
    rw [hlen] at hi1
    let P : Nat → Prop := fun k =>
      1 ≤ k ∧ ∃ g, frameAt md.pageFrames ((md.queueIndex + k) % n) = some g ∧ g.fixCount = 0
    have hex : ∃ k, P k := by
      refine ⟨((i - md.queueIndex - 1) % n + 1).toNat, ?_, g, ?_, hg0⟩
      · have := Int.emod_nonneg (i - md.queueIndex - 1) (ne_of_gt hn)
        omega
      · have h0 := Int.emod_nonneg (i - md.queueIndex - 1) (ne_of_gt hn)
        have hk : ((((i - md.queueIndex - 1) % n + 1).toNat : Nat) : Int)
            = (i - md.queueIndex - 1) % n + 1 := by omega
        rw [hk]
        have : (md.queueIndex + ((i - md.queueIndex - 1) % n + 1)) % n = i := by
          have e : md.queueIndex + ((i - md.queueIndex - 1) % n + 1)
              = (i - md.queueIndex - 1) % n + (md.queueIndex + 1) := by ring
          rw [e, Int.emod_add_emod]
          have e2 : i - md.queueIndex - 1 + (md.queueIndex + 1) = i := by ring
          rw [e2, Int.emod_eq_of_lt hi0 hi1]
        rw [this]
        exact hg
    have hk0 : ((((i - md.queueIndex - 1) % n + 1).toNat : Nat) : Int) ≤ n := by
      have h0 := Int.emod_nonneg (i - md.queueIndex - 1) (ne_of_gt hn)
      have h1 := Int.emod_lt_of_pos (i - md.queueIndex - 1) hn
      omega
    have hmin_le : ((Nat.find hex : Nat) : Int) ≤ n := by
      have h2 : Nat.find hex ≤ ((i - md.queueIndex - 1) % n + 1).toNat := by
        apply Nat.find_min' hex
        refine ⟨?_, g, ?_, hg0⟩
        · have := Int.emod_nonneg (i - md.queueIndex - 1) (ne_of_gt hn)
          omega
        · have h0 := Int.emod_nonneg (i - md.queueIndex - 1) (ne_of_gt hn)
          have hk : ((((i - md.queueIndex - 1) % n + 1).toNat : Nat) : Int)
              = (i - md.queueIndex - 1) % n + 1 := by omega
          rw [hk]
          have e : md.queueIndex + ((i - md.queueIndex - 1) % n + 1)
              = (i - md.queueIndex - 1) % n + (md.queueIndex + 1) := by ring
          rw [e, Int.emod_add_emod]
          have e2 : i - md.queueIndex - 1 + (md.queueIndex + 1) = i := by ring
          rw [e2, Int.emod_eq_of_lt hi0 hi1]
          exact hg
      omega
    obtain ⟨hk1, gk, hgk, hgk0⟩ := Nat.find_spec hex
    have hbelow : ∀ j : Nat, 1 ≤ j → j < Nat.find hex →
        ∀ g, frameAt md.pageFrames ((md.queueIndex + j) % n) = some g → g.fixCount ≠ 0 := by
      intro j hj1 hj2 g' hg' hz
      exact Nat.find_min hex hj2 ⟨hj1, g', hg', hz⟩
    refine ⟨Nat.find hex, hk1, hmin_le, ⟨gk, hgk, hgk0⟩, hbelow, ?_⟩
    obtain ⟨m, hm⟩ : ∃ m, Nat.find hex = m + 1 := ⟨Nat.find hex - 1, by omega⟩
    have hloop := fifoLoop_steps md.pageFrames n md.queueIndex hn hlen m fuel md.queueIndex
      (by omega) hc0 hc1
      (by
        intro t ht1 ht2 g' hg'
        exact ⟨hbelow t ht1 (by omega) g' hg', emod_add_ne_self hc0 hc1 ht1 (by omega)⟩)
      (by
        intro g' hg'
        rw [← hm] at hg'
        rw [hgk] at hg'
        cases hg'
        exact Or.inl hgk0)
    rw [← hm] at hloop
    rw [replacementFIFO_of_loop hloop hgk, if_pos hgk0]
    exact ⟨_, rfl, rfl⟩
  · intro hall
    obtain ⟨m, hm⟩ : ∃ m : Nat, n = ((m + 1 : Nat) : Int) := ⟨(n - 1).toNat, by omega⟩
    have hloop := fifoLoop_steps md.pageFrames n md.queueIndex hn hlen m fuel md.queueIndex
      (by omega) hc0 hc1
      (by
        intro t ht1 ht2 g' hg'
        exact ⟨hall _ g' hg', emod_add_ne_self hc0 hc1 ht1 (by omega)⟩)
      (by
        intro g' _
        right
        rw [← hm]
        exact emod_add_self_eq hc0 hc1)
    rw [← hm, emod_add_self_eq hc0 hc1] at hloop
    obtain ⟨g, hg⟩ := frameAt_isSome_of_lt md.pageFrames hc0 (by omega)
    rw [replacementFIFO_of_loop hloop hg, if_neg (hall _ g hg)]

/-- What `replacementLRU` does in every state whose unpinned frames carry time stamps below
`UINT_MAX`: it returns the unpinned frame with the least time stamp, the lowest index among
equals, and it returns no victim when no unpinned frame exists. -/
theorem replacementLRU_selects_oldest (n : Int) (md : BM_Metadata)
    (hlen : (md.pageFrames.length : Int) = n) :
    ((∃ (i : Nat) (f : BM_PageFrame),
          md.pageFrames[i]? = some f ∧ f.fixCount = 0 ∧ f.timeStamp < UINT_MAX) →
      ∃ (v : Nat) (f : BM_PageFrame),
        replacementLRU n md = some (some (v : Int), evicted md v f) ∧
        md.pageFrames[v]? = some f ∧ f.fixCount = 0 ∧
        (∀ (j : Nat) (g : BM_PageFrame), md.pageFrames[j]? = some g → g.fixCount = 0 →
          f.timeStamp ≤ g.timeStamp) ∧
        (∀ (j : Nat) (g : BM_PageFrame), j < v → md.pageFrames[j]? = some g → g.fixCount = 0 →
          f.timeStamp < g.timeStamp)) ∧
    ((∀ (i : Nat) (f : BM_PageFrame), md.pageFrames[i]? = some f → f.fixCount ≠ 0) →
      replacementLRU n md = some (none, md)) := by
  have hlen' : 0 + n.toNat ≤ md.pageFrames.length := by omega
  obtain ⟨⟨m', mi'⟩, hr⟩ := lruLoop_isSome md.pageFrames n.toNat 0 UINT_MAX (-1) hlen'
  have hspec := lruLoop_spec md.pageFrames _ _ _ _ _ _ hr
  have hin : ∀ (j : Nat) (g : BM_PageFrame), md.pageFrames[j]? = some g → j < 0 + n.toNat := by
    intro j g hg
    rcases List.getElem?_eq_some_iff.mp hg with ⟨hl, _⟩
    omega
  constructor
  · rintro ⟨i, f, hf, hf0, hft⟩
    rcases hspec with ⟨_, _, h3⟩ | ⟨v, g, h1, _, _, h4, h5, h6, _, h8, h9⟩
    · have := h3 i f (Nat.zero_le _) (hin i f hf) hf hf0
      omega
    · refine ⟨v, g, ?_, h4, h5, ?_, ?_⟩
      · unfold replacementLRU
        simp only [hr]
        have hne : ¬ mi' = -1 := by omega
        have hg : frameAt md.pageFrames mi' = some g := by
          rw [h1, frameAt_natCast]; exact h4
        simp only [if_neg hne, getAfterEviction_eq hg]
        simp [h1]
      · intro j g' hg' hg0
        rw [h6]
        exact h8 j g' (Nat.zero_le _) (hin j g' hg') hg' hg0
      · intro j g' hj hg' hg0
        rw [h6]
        exact h9 j g' (Nat.zero_le _) hj hg' hg0
  · intro hall
    rcases hspec with ⟨h1, _, _⟩ | ⟨v, g, _, _, _, h4, h5, _⟩
    · unfold replacementLRU
      simp only [hr]
      simp [h1]
    · exact absurd h5 (hall v g h4)

theorem pool_eta {bm : BM_BufferPool} {md : BM_Metadata} (hmd : bm.mgmtData = some md) :
    ({ bm with mgmtData := some md } : BM_BufferPool) = bm := by
  cases bm
  simp at hmd
  simp [hmd]

@[simp] theorem getValue_setValue (t : HT_TableHandle) (k v k' : Int) :
    getValue (setValue t k v) k' = if k' = k then some v else getValue t k' := rfl

@[simp] theorem getValue_removePair (t : HT_TableHandle) (k k' : Int) :
    getValue (removePair t k) k' = if k' = k then none else getValue t k' := rfl

@[simp] theorem getValue_initHashTable (size : Nat) (k : Int) :
    getValue (initHashTable size) k = none := rfl

theorem markDirty_inv {bm bm' : BM_BufferPool} {p : Int} {rc : RC} {md : BM_Metadata}
    (h : markDirty bm p = some (rc, bm')) (hmd : bm.mgmtData = some md) :
    (getValue md.pageTable p = none ∧ rc = RC_IM_KEY_NOT_FOUND ∧ bm' = bm) ∨
    (∃ i f, getValue md.pageTable p = some i ∧ frameAt md.pageFrames i = some f ∧
      rc = RC_OK ∧
      bm' = { bm with mgmtData := some (
        { md with
          timeStamp := (md.timeStamp + 1) % 2 ^ 32
          pageFrames := setFrame md.pageFrames i
            { f with timeStamp := md.timeStamp, dirty := true } }) }) := by
  unfold markDirty at h
  simp only [hmd] at h
  cases hget : getValue md.pageTable p with
  | none =>
    left
    simp [hget] at h
    exact ⟨rfl, h.1.symm, h.2.symm⟩
  | some i =>
    right
    simp only [hget] at h
    cases hf : frameAt md.pageFrames i with
    | none => simp [hf] at h
    | some f =>
      simp [hf, getTimeStamp] at h
      exact ⟨i, f, rfl, hf, h.1.symm, h.2.symm⟩

theorem unpinPage_inv {bm bm' : BM_BufferPool} {p : Int} {rc : RC} {md : BM_Metadata}
    (h : unpinPage bm p = some (rc, bm')) (hmd : bm.mgmtData = some md) :
    (getValue md.pageTable p = none ∧ rc = RC_IM_KEY_NOT_FOUND ∧ bm' = bm) ∨
    (∃ i f, getValue md.pageTable p = some i ∧ frameAt md.pageFrames i = some f ∧
      rc = RC_OK ∧
      bm' = { bm with mgmtData := some (
        { md with
          timeStamp := (md.timeStamp + 1) % 2 ^ 32
          pageFrames := setFrame md.pageFrames i
            { f with
              timeStamp := md.timeStamp
              fixCount := if f.fixCount > 0 then f.fixCount - 1 else f.fixCount } }) }) := by
  unfold unpinPage at h
  simp only [hmd] at h
  cases hget : getValue md.pageTable p with
  | none =>
    left
    simp [hget] at h
    exact ⟨rfl, h.1.symm, h.2.symm⟩
  | some i =>
    right
    simp only [hget] at h
    cases hf : frameAt md.pageFrames i with
    | none => simp [hf] at h
    | some f =>
      simp [hf, getTimeStamp] at h
      exact ⟨i, f, rfl, hf, h.1.symm, h.2.symm⟩

theorem forcePage_inv {bm bm' : BM_BufferPool} {p : Int} {rc : RC} {md : BM_Metadata}
    (h : forcePage bm p = some (rc, bm')) (hmd : bm.mgmtData = some md) :
    (getValue md.pageTable p = none ∧ rc = RC_IM_KEY_NOT_FOUND ∧ bm' = bm) ∨
    (∃ i f, getValue md.pageTable p = some i ∧ frameAt md.pageFrames i = some f ∧
      f.fixCount ≠ 0 ∧ rc = RC_WRITE_FAILED ∧
      bm' = { bm with mgmtData := some (
        { md with
          timeStamp := (md.timeStamp + 1) % 2 ^ 32
          pageFrames := setFrame md.pageFrames i { f with timeStamp := md.timeStamp } }) }) ∨
    (∃ i f, getValue md.pageTable p = some i ∧ frameAt md.pageFrames i = some f ∧
      f.fixCount = 0 ∧ rc = RC_OK ∧
      bm' = { bm with mgmtData := some (
        { md with
          timeStamp := (md.timeStamp + 1) % 2 ^ 32
          pageFile := (writeBlock p md.pageFile f.data).2
          numWrite := md.numWrite + 1
          pageFrames := setFrame md.pageFrames i
            { f with timeStamp := md.timeStamp, dirty := false } }) }) := by
  unfold forcePage at h
  simp only [hmd] at h
  cases hget : getValue md.pageTable p with
  | none =>
    left
    simp [hget] at h
    exact ⟨rfl, h.1.symm, h.2.symm⟩
  | some i =>
    right
    simp only [hget] at h
    cases hf : frameAt md.pageFrames i with
    | none => simp [hf] at h
    | some f =>
      simp only [hf] at h
      by_cases h0 : f.fixCount = 0
      · right
        rw [if_pos h0] at h
        simp [getTimeStamp] at h
        exact ⟨i, f, rfl, hf, h0, h.1.symm, h.2.symm⟩
      · left
        rw [if_neg h0] at h
        simp [getTimeStamp] at h
        exact ⟨i, f, rfl, hf, h0, h.1.symm, h.2.symm⟩

theorem DirAgree_update {md md' : BM_Metadata} {i : Int} {f f' : BM_PageFrame}
    (h : DirAgree md) (hi : frameAt md.pageFrames i = some f)
    (hpf : md'.pageFrames = setFrame md.pageFrames i f') (hpt : md'.pageTable = md.pageTable)
    (h1 : f'.pageNum = f.pageNum) (h2 : f'.occupied = f.occupied)
    (h3 : f'.frameIndex = f.frameIndex) : DirAgree md' := by
  obtain ⟨hA, hB, hC⟩ := h
  refine ⟨?_, ?_, ?_⟩
  · intro j g hg
    rw [hpf, frameAt_setFrame hi] at hg
    by_cases hj : j = i
    · simp [hj] at hg
      subst hg
      rw [h3, hj]
      exact hA i f hi
    · simp [hj] at hg
      exact hA j g hg
  · intro j g hg
    rw [hpf, frameAt_setFrame hi] at hg
    rw [hpt]
    by_cases hj : j = i
    · simp [hj] at hg
      subst hg
      rw [h1, h2, h3]
      exact hB i f hi
    · simp [hj] at hg
      exact hB j g hg
  · intro p j hp
    rw [hpt] at hp
    obtain ⟨g, hg, hg1, hg2⟩ := hC p j hp
    rw [hpf, frameAt_setFrame hi]
    by_cases hj : j = i
    · subst hj
      rw [hi] at hg
      cases hg
      exact ⟨f', by simp, by rw [h2]; exact hg1, by rw [h1]; exact hg2⟩
    · exact ⟨g, by simp [hj, hg], hg1, hg2⟩

theorem FrameInv_update {md md' : BM_Metadata} {i : Int} {f f' : BM_PageFrame}
    (h : FrameInv md) (hi : frameAt md.pageFrames i = some f)
    (hpf : md'.pageFrames = setFrame md.pageFrames i f')
    (hnew : 0 ≤ f'.fixCount ∧ (f'.occupied = false → f'.fixCount = 0 ∧ f'.dirty = false) ∧
      (f'.dirty = true → f'.occupied = true)) : FrameInv md' := by
  intro j g hg
  rw [hpf, frameAt_setFrame hi] at hg
  by_cases hj : j = i
  · simp [hj] at hg
    subst hg
    exact hnew
  · simp [hj] at hg
    exact h j g hg

theorem DirAgree_unique {md : BM_Metadata} (h : DirAgree md) {i j : Int} {f g : BM_PageFrame}
    (hf : frameAt md.pageFrames i = some f) (hg : frameAt md.pageFrames j = some g)
    (hfo : f.occupied = true) (hgo : g.occupied = true) (hpg : f.pageNum = g.pageNum) :
    i = j := by
  obtain ⟨hA, hB, _⟩ := h
  have e1 := (hB i f hf).mp hfo
  have e2 := (hB j g hg).mp hgo
  rw [hpg, e2] at e1
  have := Option.some.inj e1
  rw [hA i f hf, hA j g hg] at this
  exact this.symm

theorem DirAgree_miss {md : BM_Metadata} {v p : Int} {f : BM_PageFrame} (q : Int)
    (h : DirAgree md) (hv : frameAt md.pageFrames v = some f)
    (hmiss : getValue md.pageTable p = none) :
    DirAgree (missMetadata { md with queueIndex := q } v f p) := by
  have hAll := h
  obtain ⟨hA, hB, hC⟩ := h
  have hfi : f.frameIndex = v := hA v f hv
  have hpt : ∀ k, getValue (missMetadata { md with queueIndex := q } v f p).pageTable k =
      if k = p then some v
      else if f.occupied = true ∧ k = f.pageNum then none else getValue md.pageTable k := by
    intro k
    show getValue (setValue (if f.occupied = true then removePair md.pageTable f.pageNum
      else md.pageTable) p f.frameIndex) k = _
    rw [getValue_setValue, hfi]
    by_cases hk : k = p
    · simp [hk]
    · simp only [hk, if_false]
      by_cases ho : f.occupied = true
      · simp [ho]
      · simp [ho]
  have hpf : (missMetadata { md with queueIndex := q } v f p).pageFrames =
      setFrame md.pageFrames v
        { f with
          timeStamp := md.timeStamp
          data := (readBlock p (ensureCapacity (p + 1)
            (evicted { md with queueIndex := q } v f).pageFile).2 f.data).2
          dirty := false
          fixCount := 1
          occupied := true
          pageNum := p } := rfl
  refine ⟨?_, ?_, ?_⟩
  · intro j g hg
    rw [hpf, frameAt_setFrame hv] at hg
    by_cases hj : j = v
    · simp [hj] at hg
      subst hg
      simp [hfi, hj]
    · simp [hj] at hg
      exact hA j g hg
  · intro j g hg
    rw [hpf, frameAt_setFrame hv] at hg
    rw [hpt]
    by_cases hj : j = v
    · simp [hj] at hg
      subst hg
      simp [hfi]
    · simp only [hj, if_false] at hg
      have hgi : g.frameIndex = j := hA j g hg
      by_cases hgp : g.pageNum = p
      · simp only [hgp, if_true]
        constructor
        · intro hgo
          have := (hB j g hg).mp hgo
          rw [hgp, hmiss] at this
          cases this
        · intro he
          have := Option.some.inj he
          omega
      · simp only [hgp, if_false]
        by_cases hc : f.occupied = true ∧ g.pageNum = f.pageNum
        · simp only [hc, and_self, if_true]
          constructor
          · intro hgo
            exact absurd (DirAgree_unique hAll hg hv hgo hc.1 hc.2) hj
          · intro he
            cases he
        · simp only [hc, if_false]
          exact hB j g hg
  · intro k j hk
    rw [hpt] at hk
    rw [hpf, frameAt_setFrame hv]
    by_cases hkp : k = p
    · simp only [hkp, if_true] at hk
      have := Option.some.inj hk
      subst this
      exact ⟨_, if_pos rfl, rfl, hkp.symm⟩
    · simp only [hkp, if_false] at hk
      by_cases hc : f.occupied = true ∧ k = f.pageNum
      · simp [hc] at hk
      · simp only [hc, if_false] at hk
        obtain ⟨g, hg, hg1, hg2⟩ := hC k j hk
        have hjv : j ≠ v := by
          intro he
          subst he
          rw [hv] at hg
          cases hg
          exact hc ⟨hg1, hg2.symm⟩
        exact ⟨g, by simp [hjv, hg], hg1, hg2⟩

theorem FlushRel.refl (f : BM_PageFrame) : FlushRel f f :=
  ⟨rfl, rfl, rfl, rfl, rfl, fun h => h⟩

theorem forceFlushLoop_frames :
    ∀ (k i : Nat) (md md' : BM_Metadata), forceFlushLoop k i md = some md' →
      md'.pageTable = md.pageTable ∧ md'.queueIndex = md.queueIndex ∧
      md'.numRead = md.numRead ∧ md'.pageFrames.length = md.pageFrames.length ∧
      ∀ (j : Nat) (f' : BM_PageFrame), md'.pageFrames[j]? = some f' →
        ∃ f, md.pageFrames[j]? = some f ∧ FlushRel f f' := by
  intro k
  induction k with
  | zero =>
    intro i md md' h
    simp [forceFlushLoop] at h
    subst h
    exact ⟨rfl, rfl, rfl, rfl, fun j f' hf => ⟨f', hf, FlushRel.refl f'⟩⟩
  | succ k ih =>
    intro i md md' h
    unfold forceFlushLoop at h
    cases hfr : md.pageFrames[i]? with
    | none => simp [hfr] at h
    | some frame =>
      simp only [hfr] at h
      split at h
      · obtain ⟨h1, h2, h3, h4, h5⟩ := ih _ _ _ h
        refine ⟨h1, h2, h3, ?_, ?_⟩
        · rw [h4]; simp [getTimeStamp]
        · intro j f' hf'
          obtain ⟨g, hg, hrel⟩ := h5 j f' hf'
          simp only [getTimeStamp] at hg
          rw [List.getElem?_set] at hg
          by_cases hij : i = j
          · subst hij
            simp only [if_true] at hg
            split at hg
            · cases hg
              refine ⟨frame, hfr, ?_⟩
              obtain ⟨r1, r2, r3, r4, r5, r6⟩ := hrel
              exact ⟨r1, r2, r3, r4, r5, fun hd => by simpa using r6 hd⟩
            · cases hg
          · simp only [hij, if_false] at hg
            exact ⟨g, hg, hrel⟩
      · exact ih _ _ _ h

theorem forceFlushLoop_isSome :
    ∀ (k i : Nat) (md : BM_Metadata), i + k ≤ md.pageFrames.length →
      ∃ md', forceFlushLoop k i md = some md' := by
  intro k
  induction k with
  | zero => intro i md _; exact ⟨md, rfl⟩
  | succ k ih =>
    intro i md h
    have hlt : i < md.pageFrames.length := by omega
    unfold forceFlushLoop
    rw [List.getElem?_eq_getElem hlt]
    simp only
    split
    · exact ih _ _ (by simp [getTimeStamp]; omega)
    · exact ih _ _ (by omega)

theorem initFrames_spec (garbage : Nat → BM_PageFrame) (md0 : BM_Metadata)
    (h0 : md0.pageFrames = []) :
    ∀ k, (initFrames garbage k md0).pageTable = md0.pageTable ∧
      (initFrames garbage k md0).pageFile = md0.pageFile ∧
      (initFrames garbage k md0).queueIndex = md0.queueIndex ∧
      (initFrames garbage k md0).numRead = md0.numRead ∧
      (initFrames garbage k md0).numWrite = md0.numWrite ∧
      (initFrames garbage k md0).pageFrames.length = k ∧
      ∀ (i : Nat) (f : BM_PageFrame), (initFrames garbage k md0).pageFrames[i]? = some f →
        f.frameIndex = (i : Int) ∧ f.fixCount = 0 ∧ f.dirty = false ∧ f.occupied = false := by
  intro k
  induction k with
  | zero =>
    simp [initFrames, h0]
  | succ k ih =>
    obtain ⟨h1, h2, h3, h4, h5, h6, h7⟩ := ih
    unfold initFrames
    simp only [getTimeStamp]
    refine ⟨h1, h2, h3, h4, h5, by simp [h6], ?_⟩
    intro i f hf
    by_cases hi : i < k
    · rw [List.getElem?_append_left (by omega)] at hf
      exact h7 i f hf
    · rw [List.getElem?_append_right (by omega)] at hf
      rw [h6] at hf
      have hik : i - k = 0 := by
        by_contra hne
        have : (1 : Nat) ≤ i - k := by omega
        rw [List.getElem?_eq_none (by simpa using this)] at hf
        cases hf
      rw [hik] at hf
      simp at hf
      subst hf
      have : i = k := by omega
      subst this
      simp

theorem initBufferPool_OK (bm : BM_BufferPool) (fs : String → Option FILE) (name : String)
    (n : Int) (strategy : ReplacementStrategy) (garbage : Nat → BM_PageFrame)
    (h : (initBufferPool bm fs name n strategy garbage).1 = RC_OK) :
    ∃ md, (initBufferPool bm fs name n strategy garbage).2 =
        { numPages := n, strategy := strategy, mgmtData := some md } ∧
      md.pageTable = initHashTable PAGE_TABLE_SIZE ∧ md.queueIndex = bm.numPages - 1 ∧
      md.numRead = 0 ∧ md.numWrite = 0 ∧ md.pageFrames.length = n.toNat ∧
      ∀ (i : Nat) (f : BM_PageFrame), md.pageFrames[i]? = some f →
        f.frameIndex = (i : Int) ∧ f.fixCount = 0 ∧ f.dirty = false ∧ f.occupied = false := by
  unfold initBufferPool at h ⊢
  by_cases ho : (openPageFile fs name
      { fileName := "", totalNumPages := 0, curPagePos := 0, mgmtInfo := none }).1 = RC_OK
  · simp only [ho, if_true]
    obtain ⟨h1, h2, h3, h4, h5, h6, h7⟩ := initFrames_spec garbage
      { pageFrames := []
        pageTable := initHashTable PAGE_TABLE_SIZE
        pageFile := (openPageFile fs name
          { fileName := "", totalNumPages := 0, curPagePos := 0, mgmtInfo := none }).2
        timeStamp := 0
        queueIndex := bm.numPages - 1
        numRead := 0
        numWrite := 0 } rfl n.toNat
    exact ⟨_, rfl, h1, h3, h4, h5, h6, h7⟩
  · simp only [ho, if_false] at h

theorem replacementLRU_isSome {n : Int} {md : BM_Metadata}
    (hlen : (md.pageFrames.length : Int) = n) :
    replacementLRU n md = some (none, md) ∨
    ∃ (v : Nat) (f : BM_PageFrame), frameAt md.pageFrames v = some f ∧ f.fixCount = 0 ∧
      replacementLRU n md = some (some (v : Int), evicted md v f) := by
  have hlen' : 0 + n.toNat ≤ md.pageFrames.length := by omega
  obtain ⟨⟨m', mi'⟩, hr⟩ := lruLoop_isSome md.pageFrames n.toNat 0 UINT_MAX (-1) hlen'
  rcases lruLoop_spec md.pageFrames _ _ _ _ _ _ hr with ⟨h1, _, _⟩ | ⟨v, g, h1, _, _, h4, h5, _⟩
  · left
    unfold replacementLRU
    simp only [hr]
    simp [h1]
  · right
    have hg : frameAt md.pageFrames mi' = some g := by
      rw [h1, frameAt_natCast]; exact h4
    refine ⟨v, g, by rw [← h1]; exact hg, h5, ?_⟩
    unfold replacementLRU
    simp only [hr]
    have hne : ¬ mi' = -1 := by omega
    simp only [if_neg hne, getAfterEviction_eq hg]
    simp [h1]

theorem pinPageInstall_isSome (bm : BM_BufferPool) (page : BM_PageHandle) (p : Int)
    (md : BM_Metadata) {victim : Option Int × BM_Metadata}
    (h : victim.1 = none ∨ ∃ v f, frameAt md.pageFrames v = some f ∧
      victim = (some v, evicted md v f)) :
    (pinPageInstall bm page p victim).isSome = true := by
  rcases h with h | ⟨v, f, hf, hv⟩
  · unfold pinPageInstall
    simp [h]
  · subst hv
    rw [pinPageInstall_victim bm page p hf]
    rfl

theorem pinPage_isSome {fuel : Nat} {bm : BM_BufferPool} {md : BM_Metadata}
    (page : BM_PageHandle) (p : Int)
    (hmd : bm.mgmtData = some md) (hagree : DirAgree md)
    (hlen : (md.pageFrames.length : Int) = bm.numPages)
    (hq : bm.strategy = RS_FIFO → 0 ≤ md.queueIndex ∧ md.queueIndex < bm.numPages)
    (hfuel : bm.numPages ≤ (fuel : Int)) :
    (pinPage fuel bm page p).isSome = true := by
  by_cases hp : 0 ≤ p
  · cases hget : getValue md.pageTable p with
    | some i =>
      rw [pinPage_hit hmd hp hget]
      obtain ⟨f, hf, _⟩ := hagree.2.2 p i hget
      simp [hf]
    | none =>
      unfold pinPage
      simp only [hmd, hget, ge_iff_le, hp, if_true]
      have hcases : bm.strategy = RS_OTHER ∨ bm.strategy = RS_FIFO ∨ bm.strategy = RS_LRU := by
        cases bm.strategy <;> simp
      rcases hcases with hs | hs | hs
      · simp [hs]
      · simp only [hs]
        obtain ⟨hq0, hq1⟩ := hq hs
        have hsel := replacementFIFO_spec fuel bm.numPages md (by omega) hlen
          hq0 hq1 hfuel
        by_cases hex : ∃ i g, frameAt md.pageFrames i = some g ∧ g.fixCount = 0
        · obtain ⟨k, _, _, _, _, md', hrep, _⟩ := hsel.1 hex
          rcases replacementFIFO_inv hrep with ⟨r, f, _, hfr, ⟨_, hv, hm⟩ | ⟨_, hv, _⟩⟩
          · rw [hrep]
            simp only [Option.some_bind]
            have hfr' : frameAt ({ md with queueIndex := r } : BM_Metadata).pageFrames r
                = some f := hfr
            exact pinPageInstall_isSome bm page p _
              (Or.inr ⟨r, f, hfr', by rw [hm]; cases hv; rfl⟩)
          · cases hv
        · have hall : ∀ i g, frameAt md.pageFrames i = some g → g.fixCount ≠ 0 := by
            intro i g hg hz
            exact hex ⟨i, g, hg, hz⟩
          rw [hsel.2 hall]
          simp only [Option.some_bind]
          exact pinPageInstall_isSome bm page p md (Or.inl rfl)
      · simp only [hs]
        rcases replacementLRU_isSome hlen with hr | ⟨v, f, hf, _, hr⟩
        · rw [hr]
          simp only [Option.some_bind]
          exact pinPageInstall_isSome bm page p md (Or.inl rfl)
        · rw [hr]
          simp only [Option.some_bind]
          exact pinPageInstall_isSome bm page p md (Or.inr ⟨v, f, hf, rfl⟩)
  · unfold pinPage
    simp [hmd, hp]

theorem frame_ops_isSome {bm : BM_BufferPool} {md : BM_Metadata} (p : Int)
    (hmd : bm.mgmtData = some md) (hagree : DirAgree md) :
    (unpinPage bm p).isSome = true ∧ (markDirty bm p).isSome = true ∧
    (forcePage bm p).isSome = true := by
  unfold unpinPage markDirty forcePage
  simp only [hmd]
  cases hget : getValue md.pageTable p with
  | none => simp
  | some i =>
    obtain ⟨f, hf, _⟩ := hagree.2.2 p i hget
    simp only [hf]
    refine ⟨rfl, rfl, ?_⟩
    split <;> rfl

theorem forceFlushPool_isSome {bm : BM_BufferPool} {md : BM_Metadata}
    (hmd : bm.mgmtData = some md) (hlen : (md.pageFrames.length : Int) = bm.numPages) :
    (forceFlushPool bm).isSome = true := by
  unfold forceFlushPool
  simp only [hmd]
  obtain ⟨md', h⟩ := forceFlushLoop_isSome bm.numPages.toNat 0 md (by omega)
  simp [h]

theorem forceFlushPool_inv {bm bm' : BM_BufferPool} {rc : RC} {md : BM_Metadata}
    (h : forceFlushPool bm = some (rc, bm')) (hmd : bm.mgmtData = some md) :
    ∃ md', forceFlushLoop bm.numPages.toNat 0 md = some md' ∧ rc = RC_OK ∧
      bm' = { bm with mgmtData := some md' } := by
  unfold forceFlushPool at h
  simp only [hmd] at h
  rcases Option.map_eq_some'.mp h with ⟨md', hl, hres⟩
  simp only [Prod.mk.injEq] at hres
  exact ⟨md', hl, hres.1.symm, hres.2.symm⟩

theorem DirAgree_of_rel {md md' : BM_Metadata} (h : DirAgree md)
    (hpt : md'.pageTable = md.pageTable)
    (hlen : md'.pageFrames.length = md.pageFrames.length)
    (hrel : ∀ (j : Nat) (f' : BM_PageFrame), md'.pageFrames[j]? = some f' →
      ∃ f, md.pageFrames[j]? = some f ∧ FlushRel f f') : DirAgree md' := by
  obtain ⟨hA, hB, hC⟩ := h
  have hback : ∀ i f', frameAt md'.pageFrames i = some f' →
      ∃ f, frameAt md.pageFrames i = some f ∧ FlushRel f f' := by
    intro i f' hf'
    obtain ⟨hi, hf⟩ := frameAt_eq_some.mp hf'
    obtain ⟨f, hf1, hr⟩ := hrel _ f' hf
    exact ⟨f, frameAt_eq_some.mpr ⟨hi, hf1⟩, hr⟩
  refine ⟨?_, ?_, ?_⟩
  · intro i f' hf'
    obtain ⟨f, hf, hr⟩ := hback i f' hf'
    rw [hr.2.2.1]
    exact hA i f hf
  · intro i f' hf'
    obtain ⟨f, hf, hr⟩ := hback i f' hf'
    rw [hr.1, hr.2.1, hr.2.2.1, hpt]
    exact hB i f hf
  · intro p i hp
    rw [hpt] at hp
    obtain ⟨f, hf, hf1, hf2⟩ := hC p i hp
    obtain ⟨hi, hfe⟩ := frameAt_eq_some.mp hf
    have hlt : i.toNat < md'.pageFrames.length := by
      rw [hlen]
      rcases List.getElem?_eq_some_iff.mp hfe with ⟨hl, _⟩
      exact hl
    obtain ⟨f0, hf0, hr⟩ := hrel i.toNat _ (List.getElem?_eq_getElem hlt)
    rw [hfe] at hf0
    cases hf0
    exact ⟨_, frameAt_eq_some.mpr ⟨hi, List.getElem?_eq_getElem hlt⟩,
      by rw [hr.2.1]; exact hf1, by rw [hr.1]; exact hf2⟩

theorem FrameInv_of_rel {md md' : BM_Metadata} (h : FrameInv md)
    (hrel : ∀ (j : Nat) (f' : BM_PageFrame), md'.pageFrames[j]? = some f' →
      ∃ f, md.pageFrames[j]? = some f ∧ FlushRel f f') : FrameInv md' := by
  intro i f' hf'
  obtain ⟨hi, hf⟩ := frameAt_eq_some.mp hf'
  obtain ⟨f, hf1, r1, r2, r3, r4, r5, r6⟩ := hrel _ f' hf
  obtain ⟨a, b, c⟩ := h i f (frameAt_eq_some.mpr ⟨hi, hf1⟩)
  refine ⟨by rw [r4]; exact a, ?_, ?_⟩
  · intro ho
    rw [r2] at ho
    obtain ⟨b1, b2⟩ := b ho
    refine ⟨by rw [r4]; exact b1, ?_⟩
    cases hd : f'.dirty with
    | false => rfl
    | true => rw [r6 hd] at b2; cases b2
  · intro hd
    rw [r2]
    exact c (r6 hd)

theorem init_DirAgree_FrameInv {md : BM_Metadata}
    (hpt : md.pageTable = initHashTable PAGE_TABLE_SIZE)
    (hfr : ∀ (i : Nat) (f : BM_PageFrame), md.pageFrames[i]? = some f →
      f.frameIndex = (i : Int) ∧ f.fixCount = 0 ∧ f.dirty = false ∧ f.occupied = false) :
    DirAgree md ∧ FrameInv md := by
  have hfr' : ∀ i f, frameAt md.pageFrames i = some f →
      f.frameIndex = i ∧ f.fixCount = 0 ∧ f.dirty = false ∧ f.occupied = false := by
    intro i f hf
    obtain ⟨hi, hf1⟩ := frameAt_eq_some.mp hf
    obtain ⟨a, b, c, d⟩ := hfr _ f hf1
    refine ⟨?_, b, c, d⟩
    rw [a]
    omega
  refine ⟨⟨?_, ?_, ?_⟩, ?_⟩
  · intro i f hf
    exact (hfr' i f hf).1
  · intro i f hf
    rw [hpt]
    simp [(hfr' i f hf).2.2.2]
  · intro p i hp
    rw [hpt] at hp
    simp at hp
  · intro i f hf
    obtain ⟨_, b, c, d⟩ := hfr' i f hf
    refine ⟨by omega, fun _ => ⟨b, c⟩, ?_⟩
    intro hd
    rw [c] at hd
    cases hd

theorem ops_keep_DirAgree {bm : BM_BufferPool} {md : BM_Metadata}
    (hmd : bm.mgmtData = some md) (hagree : DirAgree md) :
    (∀ fuel page p rc bm' page', pinPage fuel bm page p = some (rc, bm', page') →
      ∃ md', bm'.mgmtData = some md' ∧ DirAgree md') ∧
    (∀ p rc bm', unpinPage bm p = some (rc, bm') →
      ∃ md', bm'.mgmtData = some md' ∧ DirAgree md') ∧
    (∀ p rc bm', markDirty bm p = some (rc, bm') →
      ∃ md', bm'.mgmtData = some md' ∧ DirAgree md') ∧
    (∀ p rc bm', forcePage bm p = some (rc, bm') →
      ∃ md', bm'.mgmtData = some md' ∧ DirAgree md') ∧
    (∀ rc bm', forceFlushPool bm = some (rc, bm') →
      ∃ md', bm'.mgmtData = some md' ∧ DirAgree md') := by
  refine ⟨?_, ?_, ?_, ?_, ?_⟩
  · intro fuel page p rc bm' page' h
    by_cases hp : 0 ≤ p
    · cases hget : getValue md.pageTable p with
      | some i =>
        rw [pinPage_hit hmd hp hget] at h
        rcases Option.map_eq_some'.mp h with ⟨f, hf, hres⟩
        simp only [Prod.mk.injEq] at hres
        rw [← hres.2.1]
        exact ⟨_, rfl, DirAgree_update hagree hf rfl rfl rfl rfl rfl⟩
      | none =>
        rcases pinPage_miss_inv h hmd hp hget with ⟨_, _, hb, _⟩ | ⟨q, _, _, hb, _⟩ |
          ⟨q, v, f, _, _, hf, _, hb, _⟩
        · rw [hb]; exact ⟨md, hmd, hagree⟩
        · rw [hb]; exact ⟨_, rfl, hagree⟩
        · rw [hb]; exact ⟨_, rfl, DirAgree_miss q hagree hf hget⟩
    · unfold pinPage at h
      simp only [hmd, ge_iff_le, hp, if_false] at h
      simp at h
      rw [← h.2.1]
      exact ⟨md, hmd, hagree⟩
  · intro p rc bm' h
    rcases unpinPage_inv h hmd with ⟨_, _, hb⟩ | ⟨i, f, _, hf, _, hb⟩
    · rw [hb]; exact ⟨md, hmd, hagree⟩
    · rw [hb]; exact ⟨_, rfl, DirAgree_update hagree hf rfl rfl rfl rfl rfl⟩
  · intro p rc bm' h
    rcases markDirty_inv h hmd with ⟨_, _, hb⟩ | ⟨i, f, _, hf, _, hb⟩
    · rw [hb]; exact ⟨md, hmd, hagree⟩
    · rw [hb]; exact ⟨_, rfl, DirAgree_update hagree hf rfl rfl rfl rfl rfl⟩
  · intro p rc bm' h
    rcases forcePage_inv h hmd with ⟨_, _, hb⟩ | ⟨i, f, _, hf, _, _, hb⟩ |
      ⟨i, f, _, hf, _, _, hb⟩
    · rw [hb]; exact ⟨md, hmd, hagree⟩
    · rw [hb]; exact ⟨_, rfl, DirAgree_update hagree hf rfl rfl rfl rfl rfl⟩
    · rw [hb]; exact ⟨_, rfl, DirAgree_update hagree hf rfl rfl rfl rfl rfl⟩
  · intro rc bm' h
    obtain ⟨md', hl, _, hb⟩ := forceFlushPool_inv h hmd
    obtain ⟨h1, _, _, h4, h5⟩ := forceFlushLoop_frames _ _ _ _ hl
    rw [hb]
    exact ⟨md', rfl, DirAgree_of_rel hagree h1 h4 h5⟩

theorem ops_keep_FrameInv {bm : BM_BufferPool} {md : BM_Metadata}
    (hmd : bm.mgmtData = some md) (hagree : DirAgree md) (hinv : FrameInv md) :
    (∀ fuel page p rc bm' page', pinPage fuel bm page p = some (rc, bm', page') →
      ∃ md', bm'.mgmtData = some md' ∧ FrameInv md') ∧
    (∀ p rc bm', unpinPage bm p = some (rc, bm') →
      ∃ md', bm'.mgmtData = some md' ∧ FrameInv md') ∧
    (∀ p rc bm', markDirty bm p = some (rc, bm') →
      ∃ md', bm'.mgmtData = some md' ∧ FrameInv md') ∧
    (∀ p rc bm', forcePage bm p = some (rc, bm') →
      ∃ md', bm'.mgmtData = some md' ∧ FrameInv md') ∧
    (∀ rc bm', forceFlushPool bm = some (rc, bm') →
      ∃ md', bm'.mgmtData = some md' ∧ FrameInv md') := by
  have hocc : ∀ p i f, getValue md.pageTable p = some i → frameAt md.pageFrames i = some f →
      f.occupied = true := by
    intro p i f hget hf
    obtain ⟨g, hg, hg1, _⟩ := hagree.2.2 p i hget
    rw [hf] at hg
    cases hg
    exact hg1
  refine ⟨?_, ?_, ?_, ?_, ?_⟩
  · intro fuel page p rc bm' page' h
    by_cases hp : 0 ≤ p
    · cases hget : getValue md.pageTable p with
      | some i =>
        rw [pinPage_hit hmd hp hget] at h
        rcases Option.map_eq_some'.mp h with ⟨f, hf, hres⟩
        simp only [Prod.mk.injEq] at hres
        rw [← hres.2.1]
        obtain ⟨a, b, c⟩ := hinv i f hf
        have ho := hocc p i f hget hf
        refine ⟨_, rfl, FrameInv_update hinv hf rfl ⟨?_, ?_, c⟩⟩
        · show 0 ≤ f.fixCount + 1
          omega
        · intro hno
          rw [ho] at hno
          cases hno
      | none =>
        rcases pinPage_miss_inv h hmd hp hget with ⟨_, _, hb, _⟩ | ⟨q, _, _, hb, _⟩ |
          ⟨q, v, f, _, _, hf, _, hb, _⟩
        · rw [hb]; exact ⟨md, hmd, hinv⟩
        · rw [hb]; exact ⟨_, rfl, hinv⟩
        · rw [hb]
          refine ⟨_, rfl, ?_⟩
          have hf' : frameAt ({ md with queueIndex := q } : BM_Metadata).pageFrames v
              = some f := hf
          refine @FrameInv_update { md with queueIndex := q } _ _ _ _ hinv hf' rfl
            ⟨Int.le_of_lt Int.zero_lt_one, ?_, ?_⟩
          · intro hno; cases hno
          · intro hd; cases hd
    · unfold pinPage at h
      simp only [hmd, ge_iff_le, hp, if_false] at h
      simp at h
      rw [← h.2.1]
      exact ⟨md, hmd, hinv⟩
  · intro p rc bm' h
    rcases unpinPage_inv h hmd with ⟨_, _, hb⟩ | ⟨i, f, hget, hf, _, hb⟩
    · rw [hb]; exact ⟨md, hmd, hinv⟩
    · rw [hb]
      obtain ⟨a, b, c⟩ := hinv i f hf
      have ho := hocc p i f hget hf
      refine ⟨_, rfl, FrameInv_update hinv hf rfl ⟨?_, ?_, c⟩⟩
      · show 0 ≤ (if f.fixCount > 0 then f.fixCount - 1 else f.fixCount)
        split <;> omega
      · intro hno
        rw [ho] at hno
        cases hno
  · intro p rc bm' h
    rcases markDirty_inv h hmd with ⟨_, _, hb⟩ | ⟨i, f, hget, hf, _, hb⟩
    · rw [hb]; exact ⟨md, hmd, hinv⟩
    · rw [hb]
      obtain ⟨a, b, c⟩ := hinv i f hf
      have ho := hocc p i f hget hf
      refine ⟨_, rfl, FrameInv_update hinv hf rfl ⟨a, ?_, fun _ => ho⟩⟩
      intro hno
      rw [ho] at hno
      cases hno
  · intro p rc bm' h
    rcases forcePage_inv h hmd with ⟨_, _, hb⟩ | ⟨i, f, _, hf, _, _, hb⟩ |
      ⟨i, f, _, hf, _, _, hb⟩
    · rw [hb]; exact ⟨md, hmd, hinv⟩
    · rw [hb]
      exact ⟨_, rfl, FrameInv_update hinv hf rfl (hinv i f hf)⟩
    · rw [hb]
      obtain ⟨a, b, c⟩ := hinv i f hf
      refine ⟨_, rfl, FrameInv_update hinv hf rfl ⟨a, ?_, ?_⟩⟩
      · intro hno
        exact ⟨(b hno).1, rfl⟩
      · intro hd
        cases hd
  · intro rc bm' h
    obtain ⟨md', hl, _, hb⟩ := forceFlushPool_inv h hmd
    obtain ⟨_, _, _, _, h5⟩ := forceFlushLoop_frames _ _ _ _ hl
    rw [hb]
    exact ⟨md', rfl, FrameInv_of_rel hinv h5⟩

theorem FileOK.total_nonneg {fh : SM_FileHandle} (h : FileOK fh) : 0 ≤ fh.totalNumPages := by
  obtain ⟨fp, _, h2⟩ := h
  omega

theorem filePages_length {fh : SM_FileHandle} (h : FileOK fh) :
    ((filePages fh).length : Int) = fh.totalNumPages := by
  obtain ⟨fp, h1, h2⟩ := h
  simp [filePages, h1, h2]

/-- The `int` product `pageNum * PAGE_SIZE` does not overflow for pages below `SEEK_PAGES`. -/
theorem seekOffset_of_lt {p : Int} (h0 : 0 ≤ p) (h1 : p < SEEK_PAGES) :
    seekOffset p = p * PAGE_SIZE ∧ 0 ≤ seekOffset p ∧
    (seekOffset p / PAGE_SIZE).toNat = p.toNat := by
  unfold seekOffset SEEK_PAGES PAGE_SIZE at *
  push_cast
  refine ⟨by omega, by omega, ?_⟩
  have : (p * 4096 + 2147483648) % 4294967296 - 2147483648 = p * 4096 := by omega
  rw [this]
  congr 1
  omega

/-- The page that a seek which does not fail addresses lies below `SEEK_PAGES`, and is not
beyond the page that was asked for. -/
theorem seekOffset_page {p : Int} (h0 : 0 ≤ p) (hs : 0 ≤ seekOffset p) :
    0 ≤ seekOffset p / PAGE_SIZE ∧ seekOffset p / PAGE_SIZE < SEEK_PAGES ∧
    seekOffset p / PAGE_SIZE ≤ p := by
  unfold seekOffset SEEK_PAGES PAGE_SIZE at *
  push_cast at *
  omega

/-- The function `writeBlock` on an open handle, whatever the page: the handle stays in order, and
the file changes at most at the page that the seek addresses. -/
theorem writeBlock_file {fh : SM_FileHandle} (h : FileOK fh) (pg : Int) (d : List Nat) :
    FileOK (writeBlock pg fh d).2 ∧
    (writeBlock pg fh d).2.totalNumPages = fh.totalNumPages ∧
    (writeBlock pg fh d).2.curPagePos = fh.curPagePos ∧
    fileRoom (writeBlock pg fh d).2 = fileRoom fh ∧
    (filePages (writeBlock pg fh d).2).length = (filePages fh).length ∧
    (writeBlock pg fh d).1 =
      (if pg < 0 ∨ pg ≥ fh.totalNumPages then RC_PAGE_OUT_OF_RANGE
       else if seekOffset pg < 0 then RC_FILE_NOT_FOUND else RC_OK) ∧
    filePages (writeBlock pg fh d).2 =
      if 0 ≤ pg ∧ pg < fh.totalNumPages ∧ 0 ≤ seekOffset pg then
        (filePages fh).set (seekOffset pg / PAGE_SIZE).toNat d
      else filePages fh := by
  obtain ⟨fp, h1, h2⟩ := h
  by_cases hr : pg < 0 ∨ pg ≥ fh.totalNumPages
  · have hn : ¬ (0 ≤ pg ∧ pg < fh.totalNumPages ∧ 0 ≤ seekOffset pg) := by omega
    have e : writeBlock pg fh d = (RC_PAGE_OUT_OF_RANGE, fh) := by
      unfold writeBlock
      simp only [h1, hr, if_true]
    rw [e, if_neg hn, if_pos hr]
    exact ⟨⟨fp, h1, h2⟩, rfl, rfl, rfl, rfl, rfl, rfl⟩
  · by_cases hsk : seekOffset pg < 0
    · have hn : ¬ (0 ≤ pg ∧ pg < fh.totalNumPages ∧ 0 ≤ seekOffset pg) := by omega
      have e : writeBlock pg fh d = (RC_FILE_NOT_FOUND, fh) := by
        unfold writeBlock
        simp only [h1, hr, if_false, hsk, if_true]
      rw [e, if_neg hn, if_neg hr, if_pos hsk]
      exact ⟨⟨fp, h1, h2⟩, rfl, rfl, rfl, rfl, rfl, rfl⟩
    · have hy : 0 ≤ pg ∧ pg < fh.totalNumPages ∧ 0 ≤ seekOffset pg := by omega
      obtain ⟨t0, _, t2⟩ := seekOffset_page hy.1 hy.2.2
      have hlt : (seekOffset pg / PAGE_SIZE).toNat < fp.pages.length := by omega
      have e : writeBlock pg fh d =
          (RC_OK, { fh with mgmtInfo := some (
            { fp with pages := fp.pages.set (seekOffset pg / PAGE_SIZE).toNat d }) }) := by
        unfold writeBlock
        simp only [h1, hr, if_false, hsk, fwritePage, hlt, if_true]
      rw [e, if_pos hy, if_neg hr, if_neg hsk]
      refine ⟨⟨_, rfl, ?_⟩, rfl, rfl, ?_, ?_, rfl, ?_⟩
      · simp [h2]
      · simp [fileRoom, h1]
      · simp [filePages, h1]
      · simp [filePages, h1]

theorem writeBlock_spec {fh : SM_FileHandle} (h : FileOK fh)
    (hs : fh.totalNumPages ≤ SEEK_PAGES) (pg : Int) (d : List Nat) :
    FileOK (writeBlock pg fh d).2 ∧
    (writeBlock pg fh d).2.totalNumPages = fh.totalNumPages ∧
    fileRoom (writeBlock pg fh d).2 = fileRoom fh ∧
    filePages (writeBlock pg fh d).2 =
      if 0 ≤ pg ∧ pg < fh.totalNumPages then (filePages fh).set pg.toNat d
      else filePages fh := by
  obtain ⟨w1, w2, _, w4, _, _, w7⟩ := writeBlock_file h pg d
  refine ⟨w1, w2, w4, ?_⟩
  rw [w7]
  by_cases hr : 0 ≤ pg ∧ pg < fh.totalNumPages
  · obtain ⟨_, s2, s3⟩ := seekOffset_of_lt hr.1 (by omega)
    rw [if_pos ⟨hr.1, hr.2, s2⟩, if_pos hr, s3]
  · rw [if_neg hr, if_neg (fun hc => hr ⟨hc.1, hc.2.1⟩)]

theorem appendEmptyBlock_spec {fh : SM_FileHandle} (h : FileOK fh) :
    (fh.totalNumPages + 1 ≤ (fileRoom fh : Int) →
      (appendEmptyBlock fh).1 = RC_OK ∧ FileOK (appendEmptyBlock fh).2 ∧
      (appendEmptyBlock fh).2.totalNumPages = fh.totalNumPages + 1 ∧
      fileRoom (appendEmptyBlock fh).2 = fileRoom fh ∧
      filePages (appendEmptyBlock fh).2 = filePages fh ++ [emptyPage]) ∧
    (¬ fh.totalNumPages + 1 ≤ (fileRoom fh : Int) →
      appendEmptyBlock fh = (RC_WRITE_FAILED, fh)) := by
  obtain ⟨fp, h1, h2⟩ := h
  have hroomeq : fileRoom fh = fp.capacity := by simp [fileRoom, h1]
  constructor
  · intro hroom
    have hc : fp.pages.length + 1 ≤ fp.capacity := by omega
    have e : appendEmptyBlock fh =
        (RC_OK, { fh with
          mgmtInfo := some { fp with pages := fp.pages ++ [emptyPage] }
          totalNumPages := fh.totalNumPages + 1 }) := by
      unfold appendEmptyBlock fwriteEnd fwritePage
      simp [h1, hc]
    rw [e]
    refine ⟨rfl, ⟨_, rfl, ?_⟩, rfl, ?_, ?_⟩
    · simp [h2]
    · simp [fileRoom, h1]
    · simp [filePages, h1]
  · intro hroom
    have hc : ¬ fp.pages.length + 1 ≤ fp.capacity := by omega
    unfold appendEmptyBlock fwriteEnd fwritePage
    simp [h1, hc]

theorem ensure_unchanged (n : Int) (fh : SM_FileHandle) (rc : RC) (hok : FileOK fh)
    (h1 : rc = RC_OK → n ≤ fh.totalNumPages) (h2 : n ≤ (fileRoom fh : Int) → rc = RC_OK) :
    ∃ m : Nat, FileOK (rc, fh).2 ∧
      (rc, fh).2.totalNumPages = fh.totalNumPages + m ∧
      fileRoom (rc, fh).2 = fileRoom fh ∧
      filePages (rc, fh).2 = filePages fh ++ List.replicate m emptyPage ∧
      (rc, fh).2.totalNumPages ≤ max n fh.totalNumPages ∧
      ((rc, fh).1 = RC_OK → n ≤ (rc, fh).2.totalNumPages) ∧
      (n ≤ (fileRoom fh : Int) → (rc, fh).1 = RC_OK) := by
  refine ⟨0, hok, ?_, rfl, ?_, ?_, h1, h2⟩
  · show fh.totalNumPages = fh.totalNumPages + ((0 : Nat) : Int)
    simp
  · show filePages fh = filePages fh ++ List.replicate 0 emptyPage
    simp
  · exact le_max_right _ _

theorem ensureCapacityLoop_spec (n : Int) :
    ∀ (k : Nat) (fh : SM_FileHandle), FileOK fh → (n - fh.totalNumPages).toNat ≤ k →
      ∃ m : Nat, FileOK (ensureCapacityLoop k n fh).2 ∧
        (ensureCapacityLoop k n fh).2.totalNumPages = fh.totalNumPages + m ∧
        fileRoom (ensureCapacityLoop k n fh).2 = fileRoom fh ∧
        filePages (ensureCapacityLoop k n fh).2 = filePages fh ++ List.replicate m emptyPage ∧
        (ensureCapacityLoop k n fh).2.totalNumPages ≤ max n fh.totalNumPages ∧
        ((ensureCapacityLoop k n fh).1 = RC_OK → n ≤ (ensureCapacityLoop k n fh).2.totalNumPages) ∧
        (n ≤ (fileRoom fh : Int) → (ensureCapacityLoop k n fh).1 = RC_OK) := by
  intro k
  induction k with
  | zero =>
    intro fh hok hk
    have e : ensureCapacityLoop 0 n fh = (RC_OK, fh) := rfl
    rw [e]
    exact ensure_unchanged n fh RC_OK hok (fun _ => by omega) (fun _ => rfl)
  | succ k ih =>
    intro fh hok hk
    by_cases hlt : fh.totalNumPages < n
    · obtain ⟨hroom, hfull⟩ := appendEmptyBlock_spec hok
      by_cases hr : fh.totalNumPages + 1 ≤ (fileRoom fh : Int)
      · obtain ⟨a1, a2, a3, a4, a5⟩ := hroom hr
        have e : ensureCapacityLoop (k + 1) n fh =
            ensureCapacityLoop k n (appendEmptyBlock fh).2 := by
          rw [ensureCapacityLoop]
          simp only [hlt, if_true, a1]
        rw [e]
        obtain ⟨m, b1, b2, b3, b4, b5, b6, b7⟩ := ih (appendEmptyBlock fh).2 a2 (by omega)
        refine ⟨m + 1, b1, ?_, ?_, ?_, ?_, b6, ?_⟩
        · rw [b2, a3]; push_cast; ring
        · rw [b3, a4]
        · rw [b4, a5, List.append_assoc]
          congr 1
        · rw [a3] at b5
          have h3 : max n (fh.totalNumPages + 1) = max n fh.totalNumPages := by
            rw [max_eq_left (by omega), max_eq_left (by omega)]
          rw [h3] at b5
          exact b5
        · intro hcap
          exact b7 (by rw [a4]; exact hcap)
      · have e : ensureCapacityLoop (k + 1) n fh = (RC_WRITE_FAILED, fh) := by
          rw [ensureCapacityLoop]
          simp [hlt, hfull hr]
        rw [e]
        exact ensure_unchanged n fh RC_WRITE_FAILED hok (fun hc => by cases hc)
          (fun hcap => by omega)
    · have e : ensureCapacityLoop (k + 1) n fh = (RC_OK, fh) := by
        rw [ensureCapacityLoop]
        simp only [hlt, if_false]
      rw [e]
      exact ensure_unchanged n fh RC_OK hok (fun _ => by omega) (fun _ => rfl)

theorem ensureCapacity_spec {fh : SM_FileHandle} (hok : FileOK fh) (n : Int) :
    ∃ m : Nat, FileOK (ensureCapacity n fh).2 ∧
      (ensureCapacity n fh).2.totalNumPages = fh.totalNumPages + m ∧
      fileRoom (ensureCapacity n fh).2 = fileRoom fh ∧
      filePages (ensureCapacity n fh).2 = filePages fh ++ List.replicate m emptyPage ∧
      (ensureCapacity n fh).2.totalNumPages ≤ max n fh.totalNumPages ∧
      ((ensureCapacity n fh).1 = RC_OK → n ≤ (ensureCapacity n fh).2.totalNumPages) ∧
      (n ≤ (fileRoom fh : Int) → (ensureCapacity n fh).1 = RC_OK) := by
  obtain ⟨fp, h1, h2⟩ := hok
  have e : ensureCapacity n fh =
      ensureCapacityLoop (n - fh.totalNumPages).toNat n fh := by
    unfold ensureCapacity
    simp only [h1]
  rw [e]
  exact ensureCapacityLoop_spec n _ fh ⟨fp, h1, h2⟩ (le_refl _)

theorem readBlock_spec {fh : SM_FileHandle} (hok : FileOK fh) {p : Int} (hp0 : 0 ≤ p)
    (hp1 : p < fh.totalNumPages) (hps : p < SEEK_PAGES) (d : List Nat) :
    ∃ pg, (filePages fh)[p.toNat]? = some pg ∧ readBlock p fh d = (RC_OK, pg) := by
  obtain ⟨fp, h1, h2⟩ := hok
  have hlt : p.toNat < fp.pages.length := by omega
  obtain ⟨_, s2, s3⟩ := seekOffset_of_lt hp0 hps
  refine ⟨fp.pages[p.toNat], ?_, ?_⟩
  · simp [filePages, h1, List.getElem?_eq_getElem hlt]
  · unfold readBlock freadPage
    have hr : ¬ (p < 0 ∨ p ≥ fh.totalNumPages) := by omega
    have hsk : ¬ seekOffset p < 0 := by omega
    simp only [h1, hr, if_false, hsk, s3, List.getElem?_eq_getElem hlt]

/-- The handle of the file after the eviction step of a miss. -/
theorem evicted_file_ok {md : BM_Metadata} (v : Int) (f : BM_PageFrame)
    (hok : FileOK md.pageFile) :
    FileOK (evicted md v f).pageFile ∧
    (evicted md v f).pageFile.totalNumPages = md.pageFile.totalNumPages ∧
    fileRoom (evicted md v f).pageFile = fileRoom md.pageFile := by
  by_cases hc : f.occupied = true ∧ f.dirty = true
  · have e : (evicted md v f).pageFile = (writeBlock f.pageNum md.pageFile f.data).2 := by
      simp [evicted, hc]
    rw [e]
    obtain ⟨w1, w2, _, w4, _⟩ := writeBlock_file hok f.pageNum f.data
    exact ⟨w1, w2, w4⟩
  · have e : (evicted md v f).pageFile = md.pageFile := by
      simp only [evicted]
      rw [if_neg hc]
    rw [e]
    exact ⟨hok, rfl, rfl⟩

/-- The file after the eviction step of a miss, in terms of the file before. -/
theorem evicted_file {md : BM_Metadata} (v : Int) (f : BM_PageFrame)
    (hok : FileOK md.pageFile) (hs : md.pageFile.totalNumPages ≤ SEEK_PAGES) :
    FileOK (evicted md v f).pageFile ∧
    (evicted md v f).pageFile.totalNumPages = md.pageFile.totalNumPages ∧
    fileRoom (evicted md v f).pageFile = fileRoom md.pageFile ∧
    filePages (evicted md v f).pageFile =
      if f.occupied = true ∧ f.dirty = true ∧ 0 ≤ f.pageNum ∧
          f.pageNum < md.pageFile.totalNumPages
      then (filePages md.pageFile).set f.pageNum.toNat f.data
      else filePages md.pageFile := by
  by_cases hc : f.occupied = true ∧ f.dirty = true
  · have e : (evicted md v f).pageFile = (writeBlock f.pageNum md.pageFile f.data).2 := by
      simp [evicted, hc]
    rw [e]
    obtain ⟨w1, w2, w3, w4⟩ := writeBlock_spec hok hs f.pageNum f.data
    refine ⟨w1, w2, w3, ?_⟩
    rw [w4]
    by_cases hr : 0 ≤ f.pageNum ∧ f.pageNum < md.pageFile.totalNumPages
    · simp [hc, hr]
    · rw [if_neg hr, if_neg]
      intro h
      exact hr ⟨h.2.2.1, h.2.2.2⟩
  · have e : (evicted md v f).pageFile = md.pageFile := by
      simp only [evicted]
      rw [if_neg hc]
    rw [e, if_neg]
    · exact ⟨hok, rfl, rfl, rfl⟩
    · intro h
      exact hc ⟨h.1, h.2.1⟩

theorem missMetadata_file {md : BM_Metadata} (v : Int) (f : BM_PageFrame) (p : Int)
    (hok : FileOK md.pageFile) :
    ∃ m : Nat, FileOK (missMetadata md v f p).pageFile ∧
      (missMetadata md v f p).pageFile.totalNumPages = md.pageFile.totalNumPages + m ∧
      filePages (missMetadata md v f p).pageFile =
        filePages (evicted md v f).pageFile ++ List.replicate m emptyPage ∧
      (missMetadata md v f p).pageFile.totalNumPages ≤ max (p + 1) md.pageFile.totalNumPages ∧
      (p + 1 ≤ (fileRoom md.pageFile : Int) →
        p + 1 ≤ (missMetadata md v f p).pageFile.totalNumPages) := by
  obtain ⟨e1, e2, e3⟩ := evicted_file_ok v f hok
  obtain ⟨m, c1, c2, _, c4, c5, c6, c7⟩ := ensureCapacity_spec e1 (p + 1)
  refine ⟨m, c1, ?_, c4, ?_, ?_⟩
  · show (ensureCapacity (p + 1) (evicted md v f).pageFile).2.totalNumPages = _
    rw [c2, e2]
  · show (ensureCapacity (p + 1) (evicted md v f).pageFile).2.totalNumPages ≤ _
    rw [← e2]
    exact c5
  · intro hroom
    exact c6 (c7 (by rw [e3]; exact hroom))

theorem missMetadata_frame {md : BM_Metadata} {v : Int} {f : BM_PageFrame} (p : Int)
    (hf : frameAt md.pageFrames v = some f) :
    frameAt (missMetadata md v f p).pageFrames v = some
      { f with
        timeStamp := md.timeStamp
        data := (readBlock p (missMetadata md v f p).pageFile f.data).2
        dirty := false
        fixCount := 1
        occupied := true
        pageNum := p } := by
  show frameAt (setFrame md.pageFrames v _) v = _
  rw [frameAt_setFrame hf]
  simp [missMetadata]

/-- The agreement `DirAgree` for a pool of one frame that holds a page. -/
theorem DirAgree_single (md : BM_Metadata) (f : BM_PageFrame)
    (hpf : md.pageFrames = [f]) (hfi : f.frameIndex = 0) (hocc : f.occupied = true)
    (hpt : ∀ k, getValue md.pageTable k = if k = f.pageNum then some 0 else none) :
    DirAgree md := by
  have hone : ∀ i g, frameAt md.pageFrames i = some g → i = 0 ∧ g = f := by
    intro i g hg
    obtain ⟨a, b⟩ := frameAt_lt hg
    rw [hpf] at b hg
    have hi : i = 0 := by simp at b; omega
    subst hi
    simp [frameAt] at hg
    exact ⟨rfl, hg.symm⟩
  refine ⟨?_, ?_, ?_⟩
  · intro i g hg
    obtain ⟨hi, hgf⟩ := hone i g hg
    rw [hgf, hi, hfi]
  · intro i g hg
    obtain ⟨hi, hgf⟩ := hone i g hg
    rw [hgf, hpt, hfi]
    simp [hocc]
  · intro p i hp
    rw [hpt] at hp
    split at hp
    · rename_i hk
      cases hp
      refine ⟨f, ?_, hocc, hk.symm⟩
      rw [hpf]
      simp [frameAt]
    · cases hp

theorem DirAgree_mdDirty : DirAgree mdDirty :=
  DirAgree_single mdDirty
    { data := payloadX, pageNum := 0, frameIndex := 0, fixCount := 0, dirty := true,
      occupied := true, timeStamp := 3 } rfl rfl rfl (fun _ => rfl)

theorem payloadX_ne_emptyPage : payloadX ≠ emptyPage := by
  intro h
  have := congrArg List.head? h
  simp [payloadX, emptyPage, PAGE_SIZE] at this

theorem forceFlushLoop_writes (p : Int) (v : Nat) (B : List Nat) :
    ∀ (k i : Nat) (md md' : BM_Metadata), forceFlushLoop k i md = some md' →
      FileOK md.pageFile → md.pageFile.totalNumPages ≤ SEEK_PAGES → 0 ≤ p →
      p < md.pageFile.totalNumPages →
      (∀ (j : Nat) (g : BM_PageFrame), md.pageFrames[j]? = some g → g.occupied = true →
        g.pageNum = p → j = v) →
      ((i ≤ v ∧ v < i + k ∧ ∃ g, md.pageFrames[v]? = some g ∧ g.occupied = true ∧
          g.dirty = true ∧ g.fixCount = 0 ∧ g.pageNum = p ∧ g.data = B) ∨
        (v < i ∧ (filePages md.pageFile)[p.toNat]? = some B)) →
      (filePages md'.pageFile)[p.toNat]? = some B := by
  intro k
  induction k with
  | zero =>
    intro i md md' h hok hs hp0 hp1 huniq hcase
    simp [forceFlushLoop] at h
    subst h
    rcases hcase with ⟨h1, h2, _⟩ | ⟨_, h2⟩
    · omega
    · exact h2
  | succ k ih =>
    intro i md md' h hok hs hp0 hp1 huniq hcase
    unfold forceFlushLoop at h
    cases hfr : md.pageFrames[i]? with
    | none => simp [hfr] at h
    | some fr =>
      simp only [hfr] at h
      by_cases hel : fr.occupied = true ∧ fr.dirty = true ∧ fr.fixCount = 0
      · rw [if_pos hel] at h
        simp only [getTimeStamp] at h
        obtain ⟨w1, w2, w3, w4⟩ := writeBlock_spec hok hs fr.pageNum fr.data
        have huniq' : ∀ (j : Nat) (g : BM_PageFrame),
            (md.pageFrames.set i { fr with timeStamp := md.timeStamp, dirty := false })[j]?
              = some g → g.occupied = true → g.pageNum = p → j = v := by
          intro j g hg hgo hgp
          rw [List.getElem?_set] at hg
          by_cases hij : i = j
          · subst hij
            simp only [if_true] at hg
            split at hg
            · cases hg
              exact huniq i fr hfr hgo hgp
            · cases hg
          · simp only [hij, if_false] at hg
            exact huniq j g hg hgo hgp
        refine ih (i + 1) _ md' h w1
          (by show (writeBlock fr.pageNum md.pageFile fr.data).2.totalNumPages ≤ SEEK_PAGES
              rw [w2]; exact hs) hp0
          (by show p < (writeBlock fr.pageNum md.pageFile fr.data).2.totalNumPages
              rw [w2]; exact hp1) huniq' ?_
        have hplen : p.toNat < (filePages md.pageFile).length := by
          have := filePages_length hok
          omega
        rcases hcase with ⟨h1, h2, g, hg, hgo, hgd, hg0, hgp, hgB⟩ | ⟨h1, h2⟩
        · by_cases hiv : i = v
          · subst hiv
            rw [hfr] at hg
            cases hg
            right
            refine ⟨by omega, ?_⟩
            show (filePages (writeBlock fr.pageNum md.pageFile fr.data).2)[p.toNat]? = some B
            rw [w4, hgp, if_pos ⟨hp0, hp1⟩, hgB]
            exact List.getElem?_set_self hplen
          · left
            refine ⟨by omega, by omega, g, ?_, hgo, hgd, hg0, hgp, hgB⟩
            show (md.pageFrames.set i _)[v]? = some g
            rw [List.getElem?_set_ne hiv]
            exact hg
        · right
          refine ⟨by omega, ?_⟩
          show (filePages (writeBlock fr.pageNum md.pageFile fr.data).2)[p.toNat]? = some B
          rw [w4]
          have hne : fr.pageNum ≠ p := by
            intro he
            have := huniq i fr hfr hel.1 he
            omega
          split
          · rename_i hr
            rw [List.getElem?_set_ne]
            · exact h2
            · intro he
              apply hne
              omega
          · exact h2
      · rw [if_neg hel] at h
        refine ih (i + 1) md md' h hok hs hp0 hp1 huniq ?_
        rcases hcase with ⟨h1, h2, g, hg, hgo, hgd, hg0, hgp, hgB⟩ | ⟨h1, h2⟩
        · have hiv : i ≠ v := by
            intro he
            subst he
            rw [hfr] at hg
            cases hg
            exact hel ⟨hgo, hgd, hg0⟩
          left
          exact ⟨by omega, by omega, g, hg, hgo, hgd, hg0, hgp, hgB⟩
        · right
          exact ⟨by omega, h2⟩

theorem Tracked_update {md md' : BM_Metadata} {v p : Int} {g g' : BM_PageFrame}
    (h : Tracked md v p g) (hpf : md'.pageFrames = setFrame md.pageFrames v g')
    (hpt : md'.pageTable = md.pageTable) (hfile : md'.pageFile = md.pageFile)
    (h1 : g'.pageNum = g.pageNum) (h2 : g'.occupied = g.occupied)
    (h3 : g'.frameIndex = g.frameIndex) :
    Tracked md' v p g' ∧ md'.pageFrames.length = md.pageFrames.length := by
  obtain ⟨a, b, c, d, e, f0, f1, f2⟩ := h
  refine ⟨⟨?_, by rw [h1]; exact b, by rw [h2]; exact c,
    DirAgree_update d a hpf hpt h1 h2 h3, by rw [hfile]; exact e, f0, by rw [hfile]; exact f1,
    by rw [hfile]; exact f2⟩,
    by rw [hpf, length_setFrame]⟩
  rw [hpf, frameAt_setFrame a]
  simp

theorem Tracked_getValue {md : BM_Metadata} {v p : Int} {g : BM_PageFrame}
    (h : Tracked md v p g) : getValue md.pageTable p = some v := by
  obtain ⟨a, b, c, d, _⟩ := h
  have := (d.2.1 v g a).mp c
  rw [b, d.1 v g a] at this
  exact this

theorem writeBuffer_step {bm : BM_BufferPool} {md : BM_Metadata} {v p : Int}
    {g : BM_PageFrame} (page : BM_PageHandle) (B : List Nat)
    (hmd : bm.mgmtData = some md) (hpage : page.data = some v) (h : Tracked md v p g) :
    ∃ md', writeBuffer bm page B = some { bm with mgmtData := some md' } ∧
      Tracked md' v p { g with data := B } ∧
      md'.pageFrames.length = md.pageFrames.length := by
  refine ⟨{ md with pageFrames := setFrame md.pageFrames v { g with data := B } }, ?_,
    Tracked_update h rfl rfl rfl rfl rfl rfl⟩
  unfold writeBuffer
  simp [hmd, hpage, h.1]

theorem markDirty_step {bm : BM_BufferPool} {md : BM_Metadata} {v p : Int}
    {g : BM_PageFrame} (hmd : bm.mgmtData = some md) (h : Tracked md v p g) :
    ∃ md', markDirty bm p = some (RC_OK, { bm with mgmtData := some md' }) ∧
      Tracked md' v p { g with timeStamp := md.timeStamp, dirty := true } ∧
      md'.pageFrames.length = md.pageFrames.length := by
  refine ⟨{ md with
      timeStamp := (md.timeStamp + 1) % 2 ^ 32
      pageFrames := setFrame md.pageFrames v
        { g with timeStamp := md.timeStamp, dirty := true } }, ?_,
    Tracked_update h rfl rfl rfl rfl rfl rfl⟩
  unfold markDirty
  simp [hmd, Tracked_getValue h, h.1, getTimeStamp]

theorem unpinPage_step {bm : BM_BufferPool} {md : BM_Metadata} {v p : Int}
    {g : BM_PageFrame} (hmd : bm.mgmtData = some md) (h : Tracked md v p g) :
    ∃ md', unpinPage bm p = some (RC_OK, { bm with mgmtData := some md' }) ∧
      Tracked md' v p { g with
        timeStamp := md.timeStamp
        fixCount := if g.fixCount > 0 then g.fixCount - 1 else g.fixCount } ∧
      md'.pageFrames.length = md.pageFrames.length := by
  refine ⟨{ md with
      timeStamp := (md.timeStamp + 1) % 2 ^ 32
      pageFrames := setFrame md.pageFrames v
        { g with
          timeStamp := md.timeStamp
          fixCount := if g.fixCount > 0 then g.fixCount - 1 else g.fixCount } }, ?_,
    Tracked_update h rfl rfl rfl rfl rfl rfl⟩
  unfold unpinPage
  simp [hmd, Tracked_getValue h, h.1, getTimeStamp]

theorem forceFlushPool_step {bm : BM_BufferPool} {md : BM_Metadata} {v p : Int}
    {g : BM_PageFrame} (hmd : bm.mgmtData = some md) (h : Tracked md v p g)
    (hlen : (md.pageFrames.length : Int) = bm.numPages)
    (hd : g.dirty = true) (h0 : g.fixCount = 0) :
    ∃ md', forceFlushPool bm = some (RC_OK, { bm with mgmtData := some md' }) ∧
      (filePages md'.pageFile)[p.toNat]? = some g.data := by
  obtain ⟨md', hl⟩ := forceFlushLoop_isSome bm.numPages.toNat 0 md (by omega)
  refine ⟨md', ?_, ?_⟩
  · unfold forceFlushPool
    simp [hmd, hl]
  · obtain ⟨a, b, c, d, e, f0, f1, hs⟩ := h
    obtain ⟨hv0, hv1⟩ := frameAt_lt a
    obtain ⟨_, hge⟩ := frameAt_eq_some.mp a
    refine forceFlushLoop_writes p v.toNat g.data _ 0 md md' hl e hs f0 f1 ?_ ?_
    · intro j g' hg' hgo hgp
      have hj : frameAt md.pageFrames (j : Int) = some g' := by
        rw [frameAt_natCast]; exact hg'
      have := DirAgree_unique d hj a hgo c (by rw [hgp, b])
      omega
    · left
      exact ⟨Nat.zero_le _, by omega, g, hge, c, hd, h0, b, rfl⟩

theorem pinPage_OK_post {fuel : Nat} {bm bm1 : BM_BufferPool} {page page1 : BM_PageHandle}
    {p : Int} {md md1 : BM_Metadata}
    (hmd : bm.mgmtData = some md) (hagree : DirAgree md) (hfile : FileOK md.pageFile)
    (hp : 0 ≤ p)
    (hfree : ∀ i f, getValue md.pageTable p = some i → frameAt md.pageFrames i = some f →
      f.fixCount = 0)
    (hpin : pinPage fuel bm page p = some (RC_OK, bm1, page1))
    (hmd1 : bm1.mgmtData = some md1) (hin : p < md1.pageFile.totalNumPages)
    (hseek : md1.pageFile.totalNumPages ≤ SEEK_PAGES) :
    ∃ v g, page1 = { pageNum := p, data := some v } ∧ Tracked md1 v p g ∧ g.fixCount = 1 ∧
      md1.pageFrames.length = md.pageFrames.length ∧ bm1.numPages = bm.numPages := by
  cases hget : getValue md.pageTable p with
  | some i =>
    rw [pinPage_hit hmd hp hget] at hpin
    rcases Option.map_eq_some'.mp hpin with ⟨f, hf, hres⟩
    simp only [Prod.mk.injEq, true_and] at hres
    obtain ⟨hb, hpg⟩ := hres
    subst hb
    simp only [Option.some.injEq] at hmd1
    subst hmd1
    obtain ⟨f0, hf0, hocc, hpn⟩ := hagree.2.2 p i hget
    rw [hf] at hf0
    cases hf0
    have hz := hfree i f hget hf
    refine ⟨i, { f with timeStamp := md.timeStamp, fixCount := f.fixCount + 1 }, hpg.symm,
      ⟨?_, hpn, hocc, DirAgree_update hagree hf rfl rfl rfl rfl rfl, hfile, hp, hin, hseek⟩,
      ?_, ?_,
      rfl⟩
    · show frameAt (setFrame md.pageFrames i _) i = _
      rw [frameAt_setFrame hf]
      simp
    · show f.fixCount + 1 = 1
      omega
    · show (setFrame md.pageFrames i _).length = _
      rw [length_setFrame]
  | none =>
    rcases pinPage_miss_inv hpin hmd hp hget with ⟨_, hrc, _⟩ | ⟨q, hrc, _⟩ |
      ⟨q, v, f, _, hpg, hf, hf0, hb, _⟩
    · cases hrc
    · cases hrc
    · subst hb
      simp only [Option.some.injEq] at hmd1
      subst hmd1
      have hfileq : FileOK ({ md with queueIndex := q } : BM_Metadata).pageFile := hfile
      have hfq : frameAt ({ md with queueIndex := q } : BM_Metadata).pageFrames v = some f := hf
      obtain ⟨m, c1, _⟩ := missMetadata_file v f p hfileq
      refine ⟨v, _, hpg, ⟨missMetadata_frame p hfq, rfl, rfl, DirAgree_miss q hagree hf hget,
        c1, hp, hin, hseek⟩, rfl, ?_, rfl⟩
      show (setFrame md.pageFrames v _).length = _
      rw [length_setFrame]

theorem poolDirty_pin_isSome :
    (pinPage 1 poolDirty { pageNum := NO_PAGE, data := none } 1).isSome = true := rfl

theorem poolDirty_pin_metadata_isSome :
    (((pinPage 1 poolDirty { pageNum := NO_PAGE, data := none } 1).get
      poolDirty_pin_isSome).2.1.mgmtData).isSome = true := rfl

theorem flushable_iff (f : BM_PageFrame) :
    flushable f = true ↔ (f.occupied = true ∧ f.dirty = true ∧ f.fixCount = 0) := by
  simp [flushable, and_assoc]

theorem forceFlushLoop_forward :
    ∀ (k i : Nat) (md md' : BM_Metadata), forceFlushLoop k i md = some md' →
      md'.numWrite = md.numWrite + (((md.pageFrames.drop i).take k).countP flushable : Nat) ∧
      md'.pageFrames.length = md.pageFrames.length ∧
      ∀ (j : Nat) (f : BM_PageFrame), md.pageFrames[j]? = some f →
        ∃ f', md'.pageFrames[j]? = some f' ∧ FlushRel f f' ∧
          ((i ≤ j ∧ j < i + k ∧ flushable f = true) → f'.dirty = false) ∧
          (¬ (i ≤ j ∧ j < i + k ∧ flushable f = true) → f' = f) := by
  intro k
  induction k with
  | zero =>
    intro i md md' h
    simp [forceFlushLoop] at h
    subst h
    refine ⟨by simp, rfl, ?_⟩
    intro j f hf
    exact ⟨f, hf, FlushRel.refl f, fun hc => by omega, fun _ => rfl⟩
  | succ k ih =>
    intro i md md' h
    unfold forceFlushLoop at h
    cases hfr : md.pageFrames[i]? with
    | none => simp [hfr] at h
    | some fr =>
      simp only [hfr] at h
      have hilt : i < md.pageFrames.length := by
        rcases List.getElem?_eq_some_iff.mp hfr with ⟨hl, _⟩
        exact hl
      have hfri : md.pageFrames[i] = fr := by
        rcases List.getElem?_eq_some_iff.mp hfr with ⟨_, he⟩
        exact he
      have hdrop : md.pageFrames.drop i = fr :: md.pageFrames.drop (i + 1) := by
        rw [List.drop_eq_getElem_cons hilt, hfri]
      by_cases hel : fr.occupied = true ∧ fr.dirty = true ∧ fr.fixCount = 0
      · rw [if_pos hel] at h
        simp only [getTimeStamp] at h
        obtain ⟨h1, h2, h3⟩ := ih _ _ _ h
        have hfl : flushable fr = true := (flushable_iff fr).mpr hel
        refine ⟨?_, ?_, ?_⟩
        · have hc : ((md.pageFrames.drop i).take (k + 1)).countP flushable
              = ((md.pageFrames.drop (i + 1)).take k).countP flushable + 1 := by
            rw [hdrop, List.take_succ_cons, List.countP_cons]
            simp [hfl]
          have hset : (md.pageFrames.set i
              { fr with timeStamp := md.timeStamp, dirty := false }).drop (i + 1)
              = md.pageFrames.drop (i + 1) :=
            List.drop_set_of_lt _ _ (Nat.lt_succ_self i)
          rw [h1, hc]
          show md.numWrite + 1 + ((((md.pageFrames.set i
            { fr with timeStamp := md.timeStamp, dirty := false }).drop (i + 1)).take k).countP
            flushable : Nat) = _
          rw [hset]
          push_cast
          ring
        · rw [h2]
          show (md.pageFrames.set i _).length = _
          rw [List.length_set]
        · intro j f hf
          by_cases hij : i = j
          · subst hij
            rw [hfr] at hf
            cases hf
            obtain ⟨f', hf', hrel, _, hsame⟩ := h3 i
              { fr with timeStamp := md.timeStamp, dirty := false }
              (by
                show (md.pageFrames.set i _)[i]? = _
                rw [List.getElem?_set_self hilt])
            have := hsame (by omega)
            subst this
            refine ⟨_, hf', ⟨rfl, rfl, rfl, rfl, rfl, fun hc => by cases hc⟩, fun _ => rfl, ?_⟩
            intro hn
            exact absurd ⟨le_refl _, by omega, hfl⟩ hn
          · obtain ⟨f', hf', hrel, hcl, hsame⟩ := h3 j f
              (by
                show (md.pageFrames.set i _)[j]? = _
                rw [List.getElem?_set_ne hij]
                exact hf)
            refine ⟨f', hf', hrel, ?_, ?_⟩
            · intro hc
              exact hcl ⟨by omega, by omega, hc.2.2⟩
            · intro hn
              apply hsame
              intro hc
              exact hn ⟨by omega, by omega, hc.2.2⟩
      · rw [if_neg hel] at h
        obtain ⟨h1, h2, h3⟩ := ih _ _ _ h
        have hfl : ¬ flushable fr = true := fun hc => hel ((flushable_iff fr).mp hc)
        refine ⟨?_, h2, ?_⟩
        · have hc : ((md.pageFrames.drop i).take (k + 1)).countP flushable
              = ((md.pageFrames.drop (i + 1)).take k).countP flushable := by
            rw [hdrop, List.take_succ_cons, List.countP_cons]
            simp [hfl]
          rw [h1, hc]
        · intro j f hf
          obtain ⟨f', hf', hrel, hcl, hsame⟩ := h3 j f hf
          refine ⟨f', hf', hrel, ?_, ?_⟩
          · intro hc
            have hij : i ≠ j := by
              intro he
              subst he
              rw [hfr] at hf
              cases hf
              exact hfl hc.2.2
            exact hcl ⟨by omega, by omega, hc.2.2⟩
          · intro hn
            apply hsame
            intro hc
            exact hn ⟨by omega, by omega, hc.2.2⟩

theorem forceFlushLoop_file :
    ∀ (k i : Nat) (md md' : BM_Metadata), forceFlushLoop k i md = some md' →
      FileOK md.pageFile → md.pageFile.totalNumPages ≤ SEEK_PAGES →
      FileOK md'.pageFile ∧ md'.pageFile.totalNumPages = md.pageFile.totalNumPages ∧
      fileRoom md'.pageFile = fileRoom md.pageFile ∧
      (filePages md'.pageFile).length = (filePages md.pageFile).length ∧
      md'.pageFile.curPagePos = md.pageFile.curPagePos ∧
      ∀ (pg : Nat),
        (∀ (j : Nat) (f : BM_PageFrame), i ≤ j → j < i + k → md.pageFrames[j]? = some f →
          flushable f = true → f.pageNum ≠ (pg : Int)) →
        (filePages md'.pageFile)[pg]? = (filePages md.pageFile)[pg]? := by
  intro k
  induction k with
  | zero =>
    intro i md md' h hok hs
    simp [forceFlushLoop] at h
    subst h
    exact ⟨hok, rfl, rfl, rfl, rfl, fun _ _ => rfl⟩
  | succ k ih =>
    intro i md md' h hok hs
    unfold forceFlushLoop at h
    cases hfr : md.pageFrames[i]? with
    | none => simp [hfr] at h
    | some fr =>
      simp only [hfr] at h
      by_cases hel : fr.occupied = true ∧ fr.dirty = true ∧ fr.fixCount = 0
      · rw [if_pos hel] at h
        simp only [getTimeStamp] at h
        obtain ⟨w1, w2, w3, w4⟩ := writeBlock_spec hok hs fr.pageNum fr.data
        obtain ⟨a1, a2, a3, a4, a5, a6⟩ := ih _ _ _ h w1
          (by show (writeBlock fr.pageNum md.pageFile fr.data).2.totalNumPages ≤ SEEK_PAGES
              rw [w2]; exact hs)
        have hcur : (writeBlock fr.pageNum md.pageFile fr.data).2.curPagePos
            = md.pageFile.curPagePos := (writeBlock_file hok fr.pageNum fr.data).2.2.1
        have hlen : (filePages (writeBlock fr.pageNum md.pageFile fr.data).2).length
            = (filePages md.pageFile).length :=
          (writeBlock_file hok fr.pageNum fr.data).2.2.2.2.1
        refine ⟨a1, a2.trans w2, a3.trans w3, a4.trans hlen, a5.trans hcur, ?_⟩
        intro pg hpg
        rw [a6 pg]
        · show (filePages (writeBlock fr.pageNum md.pageFile fr.data).2)[pg]? = _
          rw [w4]
          split
          · rename_i hr
            have hne := hpg i fr (le_refl _) (by omega) hfr ((flushable_iff fr).mpr hel)
            rw [List.getElem?_set_ne]
            intro he
            apply hne
            omega
          · rfl
        · intro j f hj1 hj2 hf hfl
          have hij : i ≠ j := by omega
          have hf0 : md.pageFrames[j]? = some f := by
            have : (md.pageFrames.set i
                { fr with timeStamp := md.timeStamp, dirty := false })[j]? = some f := hf
            rw [List.getElem?_set_ne hij] at this
            exact this
          exact hpg j f (by omega) (by omega) hf0 hfl
      · rw [if_neg hel] at h
        obtain ⟨a1, a2, a3, a4, a5, a6⟩ := ih _ _ _ h hok hs
        refine ⟨a1, a2, a3, a4, a5, ?_⟩
        intro pg hpg
        exact a6 pg (fun j f hj1 hj2 hf hfl => hpg j f (by omega) (by omega) hf hfl)

theorem statLoop_eq {α : Type} (g : BM_PageFrame → α) (pf : List BM_PageFrame) :
    ∀ (k i : Nat), i + k ≤ pf.length →
      statLoop g pf k i = some (((pf.drop i).take k).map g) := by
  intro k
  induction k with
  | zero => intro i _; simp [statLoop]
  | succ k ih =>
    intro i h
    have hilt : i < pf.length := by omega
    unfold statLoop
    rw [List.getElem?_eq_getElem hilt]
    simp only
    rw [ih (i + 1) (by omega), List.drop_eq_getElem_cons hilt, List.take_succ_cons]
    simp

theorem statLoop_all {α : Type} (g : BM_PageFrame → α) (pf : List BM_PageFrame) (n : Int)
    (hlen : (pf.length : Int) = n) : statLoop g pf n.toNat 0 = some (pf.map g) := by
  have h : 0 + n.toNat ≤ pf.length := by omega
  rw [statLoop_eq g pf n.toNat 0 h]
  have : n.toNat = pf.length := by omega
  simp [this]

theorem forcePage_resident {bm : BM_BufferPool} {md : BM_Metadata} {p i : Int}
    {f : BM_PageFrame} (hmd : bm.mgmtData = some md)
    (hget : getValue md.pageTable p = some i) (hf : frameAt md.pageFrames i = some f) :
    forcePage bm p =
      if f.fixCount = 0 then
        some (RC_OK, { bm with mgmtData := some (
          { md with
            timeStamp := (md.timeStamp + 1) % 2 ^ 32
            pageFile := (writeBlock p md.pageFile f.data).2
            numWrite := md.numWrite + 1
            pageFrames := setFrame md.pageFrames i
              { f with timeStamp := md.timeStamp, dirty := false } }) })
      else
        some (RC_WRITE_FAILED, { bm with mgmtData := some (
          { md with
            timeStamp := (md.timeStamp + 1) % 2 ^ 32
            pageFrames := setFrame md.pageFrames i { f with timeStamp := md.timeStamp } }) }) := by
  unfold forcePage
  simp only [hmd, hget, hf]
  by_cases h0 : f.fixCount = 0
  · rw [if_pos h0, if_pos h0]
    simp [getTimeStamp]
  · rw [if_neg h0, if_neg h0]
    simp [getTimeStamp]

theorem unpinPage_resident {bm : BM_BufferPool} {md : BM_Metadata} {p i : Int}
    {f : BM_PageFrame} (hmd : bm.mgmtData = some md)
    (hget : getValue md.pageTable p = some i) (hf : frameAt md.pageFrames i = some f) :
    unpinPage bm p =
      some (RC_OK, { bm with mgmtData := some (
        { md with
          timeStamp := (md.timeStamp + 1) % 2 ^ 32
          pageFrames := setFrame md.pageFrames i
            { f with
              timeStamp := md.timeStamp
              fixCount := if f.fixCount > 0 then f.fixCount - 1 else f.fixCount } }) }) := by
  unfold unpinPage
  simp [hmd, hget, hf, getTimeStamp]

theorem markDirty_resident {bm : BM_BufferPool} {md : BM_Metadata} {p i : Int}
    {f : BM_PageFrame} (hmd : bm.mgmtData = some md)
    (hget : getValue md.pageTable p = some i) (hf : frameAt md.pageFrames i = some f) :
    markDirty bm p =
      some (RC_OK, { bm with mgmtData := some (
        { md with
          timeStamp := (md.timeStamp + 1) % 2 ^ 32
          pageFrames := setFrame md.pageFrames i
            { f with timeStamp := md.timeStamp, dirty := true } }) }) := by
  unfold markDirty
  simp [hmd, hget, hf, getTimeStamp]

theorem not_resident_ops {bm : BM_BufferPool} {md : BM_Metadata} {p : Int}
    (hmd : bm.mgmtData = some md) (hget : getValue md.pageTable p = none) :
    unpinPage bm p = some (RC_IM_KEY_NOT_FOUND, bm) ∧
    markDirty bm p = some (RC_IM_KEY_NOT_FOUND, bm) ∧
    forcePage bm p = some (RC_IM_KEY_NOT_FOUND, bm) := by
  unfold unpinPage markDirty forcePage
  simp [hmd, hget]

/-- The list of frames after an assignment to frame `i`, seen through a function that does
not tell the old record from the new one. -/
theorem map_setFrame_same {α : Type} (g : BM_PageFrame → α) {pf : List BM_PageFrame}
    {i : Int} {f f' : BM_PageFrame} (hf : frameAt pf i = some f) (hg : g f' = g f) :
    (setFrame pf i f').map g = pf.map g := by
  obtain ⟨hi, hfe⟩ := frameAt_eq_some.mp hf
  apply List.ext_getElem?
  intro j
  unfold setFrame
  rw [List.getElem?_map, List.getElem?_map, List.getElem?_set]
  by_cases hij : i.toNat = j
  · subst hij
    rw [if_pos rfl, hfe]
    have hlt : i.toNat < pf.length := by
      rcases List.getElem?_eq_some_iff.mp hfe with ⟨hl, _⟩
      exact hl
    simp [hlt, hg]
  · rw [if_neg hij]

theorem map_setFrame_getElem {α : Type} (g : BM_PageFrame → α) {pf : List BM_PageFrame}
    {i : Int} {f : BM_PageFrame} (f' : BM_PageFrame) (hf : frameAt pf i = some f) :
    ((setFrame pf i f').map g)[i.toNat]? = some (g f') := by
  obtain ⟨hi, hfe⟩ := frameAt_eq_some.mp hf
  have hlt : i.toNat < pf.length := by
    rcases List.getElem?_eq_some_iff.mp hfe with ⟨hl, _⟩
    exact hl
  unfold setFrame
  rw [List.getElem?_map, List.getElem?_set_self hlt]
  rfl

/-- What the loop of `forceFlushPool` over all frames leaves, in a pool with `DirAgree` over
an open page file. -/
theorem forceFlushLoop_all {md md' : BM_Metadata} {n : Nat}
    (h : forceFlushLoop n 0 md = some md') (hn : n = md.pageFrames.length)
    (hagree : DirAgree md) (hfile : FileOK md.pageFile)
    (hseek : md.pageFile.totalNumPages ≤ SEEK_PAGES) :
    md'.numWrite = md.numWrite + (md.pageFrames.countP flushable : Nat) ∧
    md'.numRead = md.numRead ∧ md'.pageTable = md.pageTable ∧
    md'.queueIndex = md.queueIndex ∧
    md'.pageFrames.length = md.pageFrames.length ∧
    FileOK md'.pageFile ∧ md'.pageFile.totalNumPages = md.pageFile.totalNumPages ∧
    (filePages md'.pageFile).length = (filePages md.pageFile).length ∧
    (∀ (j : Nat) (f : BM_PageFrame), md.pageFrames[j]? = some f → flushable f = true →
      ∃ f', md'.pageFrames[j]? = some f' ∧ f'.dirty = false ∧ FlushRel f f' ∧
        (0 ≤ f.pageNum → f.pageNum < md.pageFile.totalNumPages →
          (filePages md'.pageFile)[f.pageNum.toNat]? = some f.data)) ∧
    (∀ (j : Nat) (f : BM_PageFrame), md.pageFrames[j]? = some f → flushable f = false →
      md'.pageFrames[j]? = some f ∧
      (f.occupied = true → 0 ≤ f.pageNum →
        (filePages md'.pageFile)[f.pageNum.toNat]? =
          (filePages md.pageFile)[f.pageNum.toNat]?)) ∧
    (∀ (pg : Nat), (∀ (j : Nat) (f : BM_PageFrame), md.pageFrames[j]? = some f →
        flushable f = true → f.pageNum ≠ (pg : Int)) →
      (filePages md'.pageFile)[pg]? = (filePages md.pageFile)[pg]?) := by
  obtain ⟨a1, a2, a3⟩ := forceFlushLoop_forward _ _ _ _ h
  obtain ⟨b1, b2, b3, _, _⟩ := forceFlushLoop_frames _ _ _ _ h
  obtain ⟨c1, c2, _, c4, _, c6⟩ := forceFlushLoop_file _ _ _ _ h hfile hseek
  have hin : ∀ (j : Nat) (f : BM_PageFrame), md.pageFrames[j]? = some f → j < 0 + n := by
    intro j f hf
    rcases List.getElem?_eq_some_iff.mp hf with ⟨hl, _⟩
    omega
  have huniq : ∀ (j j' : Nat) (f g : BM_PageFrame), md.pageFrames[j]? = some f →
      md.pageFrames[j']? = some g → f.occupied = true → g.occupied = true →
      g.pageNum = f.pageNum → j' = j := by
    intro j j' f g hf hg hfo hgo hpg
    have h1 : frameAt md.pageFrames (j : Int) = some f := by rw [frameAt_natCast]; exact hf
    have h2 : frameAt md.pageFrames (j' : Int) = some g := by rw [frameAt_natCast]; exact hg
    have := DirAgree_unique hagree h2 h1 hgo hfo hpg
    omega
  refine ⟨?_, b3, b1, b2, a2, c1, c2, c4, ?_, ?_, ?_⟩
  · rw [a1, List.drop_zero, hn, List.take_length]
  · intro j f hf hfl
    obtain ⟨f', hf', hrel, hcl, _⟩ := a3 j f hf
    have hel := (flushable_iff f).mp hfl
    refine ⟨f', hf', hcl ⟨Nat.zero_le _, hin j f hf, hfl⟩, hrel, ?_⟩
    intro hq0 hq1
    refine forceFlushLoop_writes f.pageNum j f.data n 0 md md' h hfile hseek hq0 hq1 ?_ ?_
    · intro j' g hg hgo hgp
      exact huniq j j' f g hf hg hel.1 hgo hgp
    · left
      exact ⟨Nat.zero_le _, hin j f hf, f, hf, hel.1, hel.2.1, hel.2.2, rfl, rfl⟩
  · intro j f hf hfl
    obtain ⟨f', hf', _, _, hsame⟩ := a3 j f hf
    have hnf : ¬ (0 ≤ j ∧ j < 0 + n ∧ flushable f = true) := by
      intro hc
      rw [hfl] at hc
      cases hc.2.2
    rw [hsame hnf] at hf'
    refine ⟨hf', ?_⟩
    intro hocc hq0
    apply c6
    intro j' g _ _ hg hgfl hpg
    have hgel := (flushable_iff g).mp hgfl
    have : j' = j := huniq j j' f g hf hg hocc hgel.1 (by omega)
    subst this
    rw [hf] at hg
    cases hg
    rw [hfl] at hgfl
    cases hgfl
  · intro pg hpg
    exact c6 pg (fun j f _ _ hf hfl => hpg j f hf hfl)

theorem getFixCounts_eq {bm : BM_BufferPool} {md : BM_Metadata}
    (hmd : bm.mgmtData = some md) (hlen : (md.pageFrames.length : Int) = bm.numPages) :
    getFixCounts bm =
      some (some (md.pageFrames.map fun f => if f.occupied then f.fixCount else 0)) := by
  unfold getFixCounts
  simp only [hmd, statLoop_all _ _ _ hlen]
  rfl

theorem getDirtyFlags_eq {bm : BM_BufferPool} {md : BM_Metadata}
    (hmd : bm.mgmtData = some md) (hlen : (md.pageFrames.length : Int) = bm.numPages) :
    getDirtyFlags bm =
      some (some (md.pageFrames.map fun f => if f.occupied then f.dirty else false)) := by
  unfold getDirtyFlags
  simp only [hmd, statLoop_all _ _ _ hlen]
  rfl

theorem getFrameContents_eq {bm : BM_BufferPool} {md : BM_Metadata}
    (hmd : bm.mgmtData = some md) (hlen : (md.pageFrames.length : Int) = bm.numPages) :
    getFrameContents bm =
      some (some (md.pageFrames.map fun f => if f.occupied then f.pageNum else NO_PAGE)) := by
  unfold getFrameContents
  simp only [hmd, statLoop_all _ _ _ hlen]
  rfl

theorem forceFlushPool_flushes (bm : BM_BufferPool) (md : BM_Metadata)
    (hmd : bm.mgmtData = some md) (hagree : DirAgree md) (hfile : FileOK md.pageFile)
    (hseek : md.pageFile.totalNumPages ≤ SEEK_PAGES)
    (hlen : (md.pageFrames.length : Int) = bm.numPages) :
    ∃ md', forceFlushPool bm = some (RC_OK, { bm with mgmtData := some md' }) ∧
      md'.numWrite = md.numWrite + (md.pageFrames.countP flushable : Nat) ∧
      (∀ (j : Nat) (f : BM_PageFrame), md.pageFrames[j]? = some f →
        f.occupied = true → f.dirty = true → f.fixCount = 0 →
        ∃ f', md'.pageFrames[j]? = some f' ∧ f'.dirty = false ∧ f'.pageNum = f.pageNum ∧
          f'.occupied = true ∧ f'.fixCount = 0 ∧ f'.data = f.data ∧
          (0 ≤ f.pageNum → f.pageNum < md.pageFile.totalNumPages →
            (filePages md'.pageFile)[f.pageNum.toNat]? = some f.data)) ∧
      (∀ (j : Nat) (f : BM_PageFrame), md.pageFrames[j]? = some f → 0 < f.fixCount →
        md'.pageFrames[j]? = some f ∧
        (f.occupied = true → 0 ≤ f.pageNum →
          (filePages md'.pageFile)[f.pageNum.toNat]? =
            (filePages md.pageFile)[f.pageNum.toNat]?)) ∧
      (∀ (j : Nat) (f : BM_PageFrame), md.pageFrames[j]? = some f → flushable f = false →
        md'.pageFrames[j]? = some f) ∧
      (∀ (pg : Nat), (∀ (j : Nat) (f : BM_PageFrame), md.pageFrames[j]? = some f →
          flushable f = true → f.pageNum ≠ (pg : Int)) →
        (filePages md'.pageFile)[pg]? = (filePages md.pageFile)[pg]?) ∧
      ∃ flags counts,
        getDirtyFlags { bm with mgmtData := some md' } = some (some flags) ∧
        getFixCounts { bm with mgmtData := some md' } = some (some counts) ∧
        ∀ (j : Nat), counts[j]? = some 0 → flags[j]? = some false := by
  obtain ⟨md', hl⟩ := forceFlushLoop_isSome bm.numPages.toNat 0 md (by omega)
  obtain ⟨a1, _, _, _, a5, _, _, _, a9, a10, a11⟩ :=
    forceFlushLoop_all hl (by omega) hagree hfile hseek
  obtain ⟨_, _, a3⟩ := forceFlushLoop_forward _ _ _ _ hl
  have hlen' : ((md'.pageFrames.length : Nat) : Int)
      = ({ bm with mgmtData := some md' } : BM_BufferPool).numPages := by
    rw [a5]; exact hlen
  refine ⟨md', ?_, a1, ?_, ?_, fun j f hf hfl => (a10 j f hf hfl).1, a11, _, _,
    getDirtyFlags_eq rfl hlen', getFixCounts_eq rfl hlen', ?_⟩
  · unfold forceFlushPool
    simp [hmd, hl]
  · intro j f hf ho hd h0
    obtain ⟨f', hf', hcl, hrel, hw⟩ := a9 j f hf ((flushable_iff f).mpr ⟨ho, hd, h0⟩)
    obtain ⟨r1, r2, _, r4, r5, _⟩ := hrel
    exact ⟨f', hf', hcl, r1, by rw [r2]; exact ho, by rw [r4]; exact h0, r5, hw⟩
  · intro j f hf hpin
    have hfl : flushable f = false := by
      cases hc : flushable f with
      | false => rfl
      | true =>
        have := ((flushable_iff f).mp hc).2.2
        omega
    exact a10 j f hf hfl
  · intro j hc
    rw [List.getElem?_map] at hc ⊢
    cases hf' : md'.pageFrames[j]? with
    | none => rw [hf'] at hc; cases hc
    | some f' =>
      rw [hf'] at hc
      simp only [Option.map_some', Option.some.injEq] at hc ⊢
      have hj : j < md.pageFrames.length := by
        rcases List.getElem?_eq_some_iff.mp hf' with ⟨hl', _⟩
        omega
      obtain ⟨f'', hf'', _, hcl, hsame⟩ := a3 j _ (List.getElem?_eq_getElem hj)
      rw [hf'] at hf''
      cases hf''
      by_cases hfl : flushable md.pageFrames[j] = true
      · have := hcl ⟨Nat.zero_le _, by omega, hfl⟩
        simp [this]
      · have hs := hsame (fun hcc => hfl hcc.2.2)
        cases ho : f'.occupied with
        | false => simp
        | true =>
          rw [ho] at hc
          simp only [if_true] at hc ⊢
          cases hd : f'.dirty with
          | false => rfl
          | true =>
            exfalso
            apply hfl
            rw [← hs]
            exact (flushable_iff f').mpr ⟨ho, hd, hc⟩

theorem anyFixed_spec (pf : List BM_PageFrame) : ∀ (k i : Nat), i + k ≤ pf.length →
    ((∃ (j : Nat) (f : BM_PageFrame), i ≤ j ∧ j < i + k ∧ pf[j]? = some f ∧ 0 < f.fixCount) →
      anyFixed pf k i = some true) ∧
    ((∀ (j : Nat) (f : BM_PageFrame), i ≤ j → j < i + k → pf[j]? = some f →
        ¬ 0 < f.fixCount) → anyFixed pf k i = some false) := by
  intro k
  induction k with
  | zero =>
    intro i _
    refine ⟨?_, fun _ => rfl⟩
    rintro ⟨j, f, h1, h2, _⟩
    omega
  | succ k ih =>
    intro i hik
    have hlt : i < pf.length := by omega
    obtain ⟨ih1, ih2⟩ := ih (i + 1) (by omega)
    unfold anyFixed
    rw [List.getElem?_eq_getElem hlt]
    simp only
    by_cases hfix : pf[i].fixCount > 0
    · rw [if_pos hfix]
      refine ⟨fun _ => rfl, ?_⟩
      intro hall
      exact absurd hfix (hall i _ (Nat.le_refl _) (by omega) (List.getElem?_eq_getElem hlt))
    · rw [if_neg hfix]
      refine ⟨?_, ?_⟩
      · rintro ⟨j, f, h1, h2, h3, h4⟩
        apply ih1
        by_cases hji : j = i
        · subst hji
          rw [List.getElem?_eq_getElem hlt] at h3
          cases h3
          exact absurd h4 hfix
        · exact ⟨j, f, by omega, by omega, h3, h4⟩
      · intro hall
        apply ih2
        intro j f h1 h2 h3
        exact hall j f (by omega) (by omega) h3

theorem shutdownBufferPool_cases (bm : BM_BufferPool) (md : BM_Metadata)
    (hmd : bm.mgmtData = some md) (hagree : DirAgree md) (hinv : FrameInv md)
    (hfile : FileOK md.pageFile) (hseek : md.pageFile.totalNumPages ≤ SEEK_PAGES)
    (hlen : (md.pageFrames.length : Int) = bm.numPages) :
    ((∃ (j : Nat) (f : BM_PageFrame), md.pageFrames[j]? = some f ∧ 0 < f.fixCount) →
      shutdownBufferPool bm = some (RC_WRITE_FAILED, bm, none)) ∧
    ((¬ ∃ (j : Nat) (f : BM_PageFrame), md.pageFrames[j]? = some f ∧ 0 < f.fixCount) →
      ∃ fp, shutdownBufferPool bm = some (RC_OK, { bm with mgmtData := none }, some fp) ∧
        fp.pages.length = (filePages md.pageFile).length ∧
        (∀ (j : Nat) (f : BM_PageFrame), md.pageFrames[j]? = some f →
          f.occupied = true → f.dirty = true → 0 ≤ f.pageNum →
          f.pageNum < md.pageFile.totalNumPages →
          fp.pages[f.pageNum.toNat]? = some f.data) ∧
        (∀ (pg : Nat), (∀ (j : Nat) (f : BM_PageFrame), md.pageFrames[j]? = some f →
            f.occupied = true → f.dirty = true → f.pageNum ≠ (pg : Int)) →
          fp.pages[pg]? = (filePages md.pageFile)[pg]?)) := by
  have hn : 0 + bm.numPages.toNat ≤ md.pageFrames.length := by omega
  obtain ⟨a1, a2⟩ := anyFixed_spec md.pageFrames bm.numPages.toNat 0 hn
  refine ⟨?_, ?_⟩
  · rintro ⟨j, f, hf, hpos⟩
    have hj : j < md.pageFrames.length := by
      rcases List.getElem?_eq_some_iff.mp hf with ⟨hl, _⟩
      exact hl
    unfold shutdownBufferPool
    simp only [hmd, a1 ⟨j, f, Nat.zero_le _, by omega, hf, hpos⟩]
  · intro hnone
    have hall : ∀ (j : Nat) (f : BM_PageFrame), md.pageFrames[j]? = some f →
        f.fixCount = 0 := by
      intro j f hf
      have h1 : ¬ 0 < f.fixCount := fun hc => hnone ⟨j, f, hf, hc⟩
      have h2 := (hinv (j : Int) f (by rw [frameAt_natCast]; exact hf)).1
      omega
    obtain ⟨md', hl⟩ := forceFlushLoop_isSome bm.numPages.toNat 0 md (by omega)
    obtain ⟨_, _, _, _, _, c1, _, c3, c4, _, c6⟩ :=
      forceFlushLoop_all hl (by omega) hagree hfile hseek
    obtain ⟨fp, hfp, _⟩ := c1
    have hpages : filePages md'.pageFile = fp.pages := by simp [filePages, hfp]
    refine ⟨fp, ?_, ?_, ?_, ?_⟩
    · unfold shutdownBufferPool
      simp only [hmd, a2 (fun j f _ _ hf hc => by have := hall j f hf; omega), hl,
        Option.map_some', hfp]
    · rw [← hpages]; exact c3
    · intro j f hf ho hd hq0 hq1
      obtain ⟨f', _, _, _, hw⟩ := c4 j f hf ((flushable_iff f).mpr ⟨ho, hd, hall j f hf⟩)
      rw [← hpages]
      exact hw hq0 hq1
    · intro pg hpg
      rw [← hpages]
      apply c6
      intro j f hf hfl
      have := (flushable_iff f).mp hfl
      exact hpg j f hf this.1 this.2.1

/-- The invariants `FrameInv` for a pool of one frame. -/
theorem FrameInv_single (md : BM_Metadata) (f : BM_PageFrame) (hpf : md.pageFrames = [f])
    (h : 0 ≤ f.fixCount ∧ (f.occupied = false → f.fixCount = 0 ∧ f.dirty = false) ∧
      (f.dirty = true → f.occupied = true)) : FrameInv md := by
  intro i g hg
  obtain ⟨a, b⟩ := frameAt_lt hg
  rw [hpf] at b hg
  have hi : i = 0 := by simp at b; omega
  subst hi
  simp [frameAt] at hg
  rw [← hg]
  exact h

theorem DirAgree_mdHeld : DirAgree mdHeld :=
  DirAgree_single mdHeld
    { data := emptyPage, pageNum := 0, frameIndex := 0, fixCount := 1, dirty := false,
      occupied := true, timeStamp := 1 } rfl rfl rfl (fun _ => rfl)

theorem FrameInv_mdHeld : FrameInv mdHeld :=
  FrameInv_single mdHeld
    { data := emptyPage, pageNum := 0, frameIndex := 0, fixCount := 1, dirty := false,
      occupied := true, timeStamp := 1 } rfl
    ⟨by decide, (fun h => by cases h), (fun h => by cases h)⟩

theorem FrameInv_mdDirty : FrameInv mdDirty :=
  FrameInv_single mdDirty
    { data := payloadX, pageNum := 0, frameIndex := 0, fixCount := 0, dirty := true,
      occupied := true, timeStamp := 3 } rfl
    ⟨by decide, (fun h => by cases h), (fun _ => rfl)⟩

/-- The frame that a successful `pinPage` leaves the page in: its fix count is one more than
the fix count `c` the page's frame had before, `c` being 0 for a page that was not
resident. -/
theorem pinPage_OK_frame {fuel : Nat} {bm bm1 : BM_BufferPool} {page page1 : BM_PageHandle}
    {p : Int} {md : BM_Metadata}
    (hmd : bm.mgmtData = some md) (hagree : DirAgree md)
    (hpin : pinPage fuel bm page p = some (RC_OK, bm1, page1)) :
    ∃ v g md1 c, page1 = { pageNum := p, data := some v } ∧
      bm1 = { bm with mgmtData := some md1 } ∧
      frameAt md1.pageFrames v = some g ∧ g.pageNum = p ∧ g.occupied = true ∧ DirAgree md1 ∧
      md1.pageFrames.length = md.pageFrames.length ∧ g.fixCount = c + 1 ∧
      ((∃ f, getValue md.pageTable p = some v ∧ frameAt md.pageFrames v = some f ∧
          c = f.fixCount) ∨
        (getValue md.pageTable p = none ∧ c = 0)) := by
  by_cases hp : 0 ≤ p
  · cases hget : getValue md.pageTable p with
    | some i =>
      rw [pinPage_hit hmd hp hget] at hpin
      rcases Option.map_eq_some'.mp hpin with ⟨f, hf, hres⟩
      simp only [Prod.mk.injEq, true_and] at hres
      obtain ⟨hb, hpg⟩ := hres
      obtain ⟨f0, hf0, hocc, hpn⟩ := hagree.2.2 p i hget
      rw [hf] at hf0
      cases hf0
      refine ⟨i, { f with timeStamp := md.timeStamp, fixCount := f.fixCount + 1 }, _,
        f.fixCount, hpg.symm, hb.symm, ?_, hpn, hocc,
        DirAgree_update hagree hf rfl rfl rfl rfl rfl, ?_, rfl, Or.inl ⟨f, rfl, hf, rfl⟩⟩
      · show frameAt (setFrame md.pageFrames i _) i = _
        rw [frameAt_setFrame hf, if_pos rfl]
      · show (setFrame md.pageFrames i _).length = _
        rw [length_setFrame]
    | none =>
      rcases pinPage_miss_inv hpin hmd hp hget with ⟨_, hrc, _⟩ | ⟨q, hrc, _⟩ |
        ⟨q, v, f, _, hpg, hf, _, hb, _⟩
      · cases hrc
      · cases hrc
      · have hf' : frameAt ({ md with queueIndex := q } : BM_Metadata).pageFrames v = some f := hf
        refine ⟨v, _, _, 0, hpg, hb, missMetadata_frame p hf', rfl, rfl,
          DirAgree_miss q hagree hf hget, ?_, rfl, Or.inr ⟨rfl, rfl⟩⟩
        show (setFrame md.pageFrames v _).length = _
        rw [length_setFrame]
  · unfold pinPage at hpin
    simp only [hmd, ge_iff_le, hp, if_false] at hpin
    simp at hpin

/-- The fix count that `getFixCounts` reports for the frame of `p` after `pinPage` and
`unpinPage` is the fix count `p` had before, 0 for a page that was not resident. -/
theorem pin_unpin_fixCount {fuel : Nat} {bm bm1 : BM_BufferPool} {page page1 : BM_PageHandle}
    {p : Int} {md : BM_Metadata}
    (hmd : bm.mgmtData = some md) (hagree : DirAgree md) (hinv : FrameInv md)
    (hlen : (md.pageFrames.length : Int) = bm.numPages)
    (hpin : pinPage fuel bm page p = some (RC_OK, bm1, page1)) :
    ∃ bm2 v counts, page1 = { pageNum := p, data := some v } ∧
      unpinPage bm1 page1.pageNum = some (RC_OK, bm2) ∧
      (∃ md2 g, bm2.mgmtData = some md2 ∧ frameAt md2.pageFrames v = some g ∧
        g.occupied = true ∧ g.pageNum = p) ∧
      getFixCounts bm2 = some (some counts) ∧
      (∀ i f, getValue md.pageTable p = some i → frameAt md.pageFrames i = some f →
        v = i ∧ counts[v.toNat]? = some f.fixCount) ∧
      (getValue md.pageTable p = none → counts[v.toNat]? = some 0) := by
  obtain ⟨v, g, md1, c, hpg, hb, hg, hgp, hgo, hagree1, hlen1, hgc, hc⟩ :=
    pinPage_OK_frame hmd hagree hpin
  have hget1 : getValue md1.pageTable p = some v := by
    have := (hagree1.2.1 v g hg).mp hgo
    rw [hgp, hagree1.1 v g hg] at this
    exact this
  have hmd1 : bm1.mgmtData = some md1 := by rw [hb]
  have hc0 : 0 ≤ c := by
    rcases hc with ⟨f, _, hf, hcf⟩ | ⟨_, hc0⟩
    · rw [hcf]; exact (hinv v f hf).1
    · omega
  have hun := unpinPage_resident hmd1 hget1 hg
  have hpos : g.fixCount > 0 := by omega
  rw [if_pos hpos] at hun
  have hnum : bm1.numPages = bm.numPages := by rw [hb]
  have hcount := @getFixCounts_eq
    ({ bm1 with mgmtData := some (
      { md1 with
        timeStamp := (md1.timeStamp + 1) % 2 ^ 32
        pageFrames := setFrame md1.pageFrames v
          { g with timeStamp := md1.timeStamp, fixCount := g.fixCount - 1 } }) })
    _ rfl (by
      show (((setFrame md1.pageFrames v _).length : Nat) : Int) = bm1.numPages
      rw [length_setFrame, hlen1, hnum]
      exact hlen)
  have hval : ((setFrame md1.pageFrames v
      { g with timeStamp := md1.timeStamp, fixCount := g.fixCount - 1 }).map
        fun f => if f.occupied then f.fixCount else 0)[v.toNat]? = some c := by
    rw [map_setFrame_getElem _ _ hg]
    show some (if g.occupied = true then g.fixCount - 1 else 0) = some c
    rw [if_pos hgo, hgc]
    simp
  refine ⟨{ bm1 with mgmtData := some (
      { md1 with
        timeStamp := (md1.timeStamp + 1) % 2 ^ 32
        pageFrames := setFrame md1.pageFrames v
          { g with timeStamp := md1.timeStamp, fixCount := g.fixCount - 1 } }) }, v,
    (setFrame md1.pageFrames v
      { g with timeStamp := md1.timeStamp, fixCount := g.fixCount - 1 }).map
        (fun f => if f.occupied then f.fixCount else 0), hpg, ?_,
    ⟨{ md1 with
        timeStamp := (md1.timeStamp + 1) % 2 ^ 32
        pageFrames := setFrame md1.pageFrames v
          { g with timeStamp := md1.timeStamp, fixCount := g.fixCount - 1 } },
      { g with timeStamp := md1.timeStamp, fixCount := g.fixCount - 1 }, rfl, ?_, hgo, hgp⟩,
    hcount, ?_, ?_⟩
  · rw [hpg]
    exact hun
  · show frameAt (setFrame md1.pageFrames v _) v = _
    rw [frameAt_setFrame hg, if_pos rfl]
  · intro i f hgi hfi
    rcases hc with ⟨f0, hgv, hf0, hcf⟩ | ⟨hnone, _⟩
    · rw [hgv] at hgi
      cases hgi
      rw [hf0] at hfi
      cases hfi
      exact ⟨rfl, by rw [← hcf]; exact hval⟩
    · rw [hnone] at hgi
      cases hgi
  · intro hnone
    rcases hc with ⟨f0, hgv, _, _⟩ | ⟨_, hc0'⟩
    · rw [hgv] at hnone
      cases hnone
    · rw [hc0'] at hval
      exact hval

/-- One call of `markDirty` for a page resident in frame `i`. -/
theorem markDirty_once {bm : BM_BufferPool} {md : BM_Metadata} {p i : Int} {f : BM_PageFrame}
    (hmd : bm.mgmtData = some md) (hget : getValue md.pageTable p = some i)
    (hf : frameAt md.pageFrames i = some f) :
    ∃ md1, markDirty bm p = some (RC_OK, { bm with mgmtData := some md1 }) ∧
      md1.pageFrames =
        setFrame md.pageFrames i { f with timeStamp := md.timeStamp, dirty := true } ∧
      md1.pageTable = md.pageTable ∧ md1.pageFile = md.pageFile ∧
      md1.numRead = md.numRead ∧ md1.numWrite = md.numWrite :=
  ⟨_, markDirty_resident hmd hget hf, rfl, rfl, rfl, rfl, rfl⟩

/-- Two calls of `markDirty` for a resident page against one. -/
theorem markDirty_twice {bm : BM_BufferPool} {md : BM_Metadata} {p i : Int}
    (hmd : bm.mgmtData = some md) (hagree : DirAgree md)
    (hlen : (md.pageFrames.length : Int) = bm.numPages)
    (hget : getValue md.pageTable p = some i) :
    ∃ bm1 bm2 md1 md2 flags, markDirty bm p = some (RC_OK, bm1) ∧
      markDirty bm1 p = some (RC_OK, bm2) ∧
      bm1.mgmtData = some md1 ∧ bm2.mgmtData = some md2 ∧
      getFrameContents bm2 = getFrameContents bm1 ∧
      getDirtyFlags bm2 = getDirtyFlags bm1 ∧
      getFixCounts bm2 = getFixCounts bm1 ∧
      getNumReadIO bm2 = getNumReadIO bm1 ∧
      getNumWriteIO bm2 = getNumWriteIO bm1 ∧
      md2.pageFile = md1.pageFile ∧ md1.pageFile = md.pageFile ∧
      md2.pageTable = md1.pageTable ∧
      (md2.pageFrames.map fun f => f.data) = (md1.pageFrames.map fun f => f.data) ∧
      getDirtyFlags bm1 = some (some flags) ∧ flags[i.toNat]? = some true := by
  obtain ⟨f, hf, hocc, hpn⟩ := hagree.2.2 p i hget
  obtain ⟨md1, h1, e1, t1, f1, r1, w1⟩ := markDirty_once hmd hget hf
  have hf1 : frameAt md1.pageFrames i
      = some { f with timeStamp := md.timeStamp, dirty := true } := by
    rw [e1, frameAt_setFrame hf, if_pos rfl]
  have hget1 : getValue md1.pageTable p = some i := by rw [t1]; exact hget
  obtain ⟨md2, h2, e2, t2, f2, r2, w2⟩ :=
    @markDirty_once ({ bm with mgmtData := some md1 }) md1 p i _ rfl hget1 hf1
  have hl1 : ((md1.pageFrames.length : Nat) : Int)
      = ({ bm with mgmtData := some md1 } : BM_BufferPool).numPages := by
    rw [e1, length_setFrame]; exact hlen
  have hl2 : ((md2.pageFrames.length : Nat) : Int)
      = ({ bm with mgmtData := some md2 } : BM_BufferPool).numPages := by
    rw [e2, length_setFrame]; exact hl1
  refine ⟨{ bm with mgmtData := some md1 }, { bm with mgmtData := some md2 }, md1, md2,
    md1.pageFrames.map (fun f => if f.occupied then f.dirty else false),
    h1, h2, rfl, rfl, ?_, ?_, ?_, r2, w2, f2, f1, t2, ?_, getDirtyFlags_eq rfl hl1, ?_⟩
  · rw [getFrameContents_eq rfl hl2, getFrameContents_eq rfl hl1, e2]
    exact congrArg (fun l => some (some l)) (map_setFrame_same _ hf1 rfl)
  · rw [getDirtyFlags_eq rfl hl2, getDirtyFlags_eq rfl hl1, e2]
    exact congrArg (fun l => some (some l)) (map_setFrame_same _ hf1 rfl)
  · rw [getFixCounts_eq rfl hl2, getFixCounts_eq rfl hl1, e2]
    exact congrArg (fun l => some (some l)) (map_setFrame_same _ hf1 rfl)
  · rw [e2]
    exact map_setFrame_same _ hf1 rfl
  · rw [e1, map_setFrame_getElem _ _ hf]
    show some (if f.occupied = true then true else false) = some true
    rw [if_pos hocc]

/-- The round trip through `writeBlock` and `readBlock` in a file all of whose byte offsets fit
an `int`, and the two range errors. -/
theorem writeBlock_readBlock (fh : SM_FileHandle) (hok : FileOK fh) (p : Int)
    (src mem : List Nat) :
    (0 ≤ p → p < fh.totalNumPages → fh.totalNumPages ≤ SEEK_PAGES →
      (writeBlock p fh src).1 = RC_OK ∧
      readBlock p (writeBlock p fh src).2 mem = (RC_OK, src) ∧
      (writeBlock p fh src).2.totalNumPages = fh.totalNumPages ∧
      (filePages (writeBlock p fh src).2).length = (filePages fh).length ∧
      filePages (writeBlock p fh src).2 = (filePages fh).set p.toNat src ∧
      (∀ (q : Nat), q ≠ p.toNat →
        (filePages (writeBlock p fh src).2)[q]? = (filePages fh)[q]?) ∧
      (∀ q, q ≠ p → readBlock q (writeBlock p fh src).2 mem = readBlock q fh mem)) ∧
    (¬ (0 ≤ p ∧ p < fh.totalNumPages) →
      writeBlock p fh src = (RC_PAGE_OUT_OF_RANGE, fh) ∧
      readBlock p fh mem = (RC_READ_NON_EXISTING_PAGE, mem)) := by
  obtain ⟨fp, e1, e2⟩ := hok
  have hok : FileOK fh := ⟨fp, e1, e2⟩
  refine ⟨?_, ?_⟩
  · intro hp0 hp1 hs
    obtain ⟨w1, w2, _, w4⟩ := writeBlock_spec hok hs p src
    have hr : ¬ (p < 0 ∨ p ≥ fh.totalNumPages) := by omega
    have hlt : p.toNat < fp.pages.length := by omega
    obtain ⟨_, s2, s3⟩ := seekOffset_of_lt hp0 (by omega)
    have hsk : ¬ seekOffset p < 0 := by omega
    have e : writeBlock p fh src =
        (RC_OK, { fh with mgmtInfo := some ({ fp with pages := fp.pages.set p.toNat src }) }) := by
      unfold writeBlock
      simp only [e1, hr, if_false, hsk, s3, fwritePage, hlt, if_true]
    rw [if_pos ⟨hp0, hp1⟩] at w4
    have hpages : filePages fh = fp.pages := by simp [filePages, e1]
    refine ⟨by rw [e], ?_, w2, ?_, w4, ?_, ?_⟩
    · obtain ⟨pg, hpg, hrd⟩ := readBlock_spec w1 hp0 (by rw [w2]; exact hp1) (by omega) mem
      rw [hrd]
      rw [w4, hpages, List.getElem?_set_self hlt] at hpg
      cases hpg
      rfl
    · rw [w4, List.length_set]
    · intro q hq
      rw [w4, List.getElem?_set_ne (Ne.symm hq)]
    · intro q hq
      rw [e]
      unfold readBlock freadPage
      simp only
      by_cases hqr : q < 0 ∨ q ≥ fh.totalNumPages
      · simp only [e1, hqr, if_true]
      · obtain ⟨_, t2, t3⟩ := @seekOffset_of_lt q (by omega) (by omega)
        have htk : ¬ seekOffset q < 0 := by omega
        have : p.toNat ≠ q.toNat := by omega
        simp only [e1, hqr, if_false, htk, t3, List.getElem?_set_ne this]
  · intro hn
    have hr : p < 0 ∨ p ≥ fh.totalNumPages := by omega
    refine ⟨?_, ?_⟩
    · unfold writeBlock
      simp only [e1, hr, if_true]
    · unfold readBlock
      simp only [e1, hr, if_true]

/-- A page inside the file whose byte offset does not fit an `int`: when the reduced offset is
negative, `fseek` fails and both functions return `RC_FILE_NOT_FOUND` without touching the
file or the buffer; otherwise both work on the page that the reduced offset addresses. -/
theorem writeBlock_readBlock_wrapped (fh : SM_FileHandle) (hok : FileOK fh) (p : Int)
    (src mem : List Nat) (hp0 : 0 ≤ p) (hp1 : p < fh.totalNumPages) :
    (seekOffset p < 0 →
      writeBlock p fh src = (RC_FILE_NOT_FOUND, fh) ∧
      readBlock p fh mem = (RC_FILE_NOT_FOUND, mem)) ∧
    (0 ≤ seekOffset p →
      (writeBlock p fh src).1 = RC_OK ∧
      filePages (writeBlock p fh src).2 =
        (filePages fh).set (seekOffset p / PAGE_SIZE).toNat src ∧
      readBlock p fh mem =
        match (filePages fh)[(seekOffset p / PAGE_SIZE).toNat]? with
        | none => (RC_READ_NON_EXISTING_PAGE, mem)
        | some bytes => (RC_OK, bytes)) := by
  obtain ⟨_, _, _, _, _, w6, w7⟩ := writeBlock_file hok p src
  obtain ⟨fp, e1, e2⟩ := hok
  have hr : ¬ (p < 0 ∨ p ≥ fh.totalNumPages) := by omega
  refine ⟨?_, ?_⟩
  · intro hsk
    refine ⟨?_, ?_⟩
    · unfold writeBlock
      simp only [e1, hr, if_false, hsk, if_true]
    · unfold readBlock
      simp only [e1, hr, if_false, hsk, if_true]
  · intro hsk
    have hsk' : ¬ seekOffset p < 0 := by omega
    refine ⟨?_, ?_, ?_⟩
    · rw [w6, if_neg hr, if_neg hsk']
    · rw [w7, if_pos ⟨hp0, hp1, hsk⟩]
    · unfold readBlock freadPage
      simp only [e1, hr, if_false, hsk', filePages]

/-- An append that returns `RC_OK` has added one to `totalNumPages`. -/
theorem appendEmptyBlock_total {fh : SM_FileHandle} (h : (appendEmptyBlock fh).1 = RC_OK) :
    (appendEmptyBlock fh).2.totalNumPages = fh.totalNumPages + 1 := by
  unfold appendEmptyBlock at h ⊢
  cases hm : fh.mgmtInfo with
  | none => rw [hm] at h; cases h
  | some fp =>
    rw [hm] at h
    simp only at h ⊢
    cases hw : fwriteEnd fp emptyPage with
    | none => rw [hw] at h; cases h
    | some fp' => rfl

/-- The loop of `ensureCapacity` does not depend on the number of passes it is given, once
that number is at least `numberOfPages - totalNumPages`. -/
theorem ensureCapacityLoop_fuel (n : Int) :
    ∀ (k : Nat) (fh : SM_FileHandle), (n - fh.totalNumPages).toNat ≤ k →
      ensureCapacityLoop k n fh = ensureCapacityLoop (n - fh.totalNumPages).toNat n fh := by
  intro k
  induction k with
  | zero =>
    intro fh hk
    have : (n - fh.totalNumPages).toNat = 0 := by omega
    rw [this]
  | succ k ih =>
    intro fh hk
    by_cases hlt : fh.totalNumPages < n
    · obtain ⟨j, hj⟩ : ∃ j, (n - fh.totalNumPages).toNat = j + 1 :=
        ⟨(n - fh.totalNumPages).toNat - 1, by omega⟩
      rw [hj]
      by_cases hok : (appendEmptyBlock fh).1 = RC_OK
      · have ht := appendEmptyBlock_total hok
        have hj' : j = (n - (appendEmptyBlock fh).2.totalNumPages).toNat := by omega
        have e1 : ensureCapacityLoop (k + 1) n fh =
            ensureCapacityLoop k n (appendEmptyBlock fh).2 := by
          rw [ensureCapacityLoop]
          simp only [hlt, if_true, hok]
        have e2 : ensureCapacityLoop (j + 1) n fh =
            ensureCapacityLoop j n (appendEmptyBlock fh).2 := by
          rw [ensureCapacityLoop]
          simp only [hlt, if_true, hok]
        rw [e1, e2, ih _ (by omega), ← hj']
      · have e1 : ensureCapacityLoop (k + 1) n fh = appendEmptyBlock fh := by
          rw [ensureCapacityLoop]
          simp only [hlt, if_true, hok, if_false]
        have e2 : ensureCapacityLoop (j + 1) n fh = appendEmptyBlock fh := by
          rw [ensureCapacityLoop]
          simp only [hlt, if_true, hok, if_false]
        rw [e1, e2]
    · have h0 : (n - fh.totalNumPages).toNat = 0 := by omega
      have e1 : ensureCapacityLoop (k + 1) n fh = (RC_OK, fh) := by
        rw [ensureCapacityLoop]
        simp only [hlt, if_false]
      rw [h0, e1]
      rfl

theorem ensureCapacity_grows (fh : SM_FileHandle) (hok : FileOK fh) (n : Int) :
    (n ≤ (fileRoom fh : Int) → (ensureCapacity n fh).1 = RC_OK) ∧
    ((ensureCapacity n fh).1 = RC_OK →
      (ensureCapacity n fh).2.totalNumPages = max fh.totalNumPages n ∧
      FileOK (ensureCapacity n fh).2 ∧
      filePages (ensureCapacity n fh).2 =
        filePages fh ++ List.replicate (n - fh.totalNumPages).toNat emptyPage ∧
      (∀ (q : Nat), q < (filePages fh).length →
        (filePages (ensureCapacity n fh).2)[q]? = (filePages fh)[q]?) ∧
      (∀ (q : Nat), (filePages fh).length ≤ q →
        q < (filePages (ensureCapacity n fh).2).length →
        (filePages (ensureCapacity n fh).2)[q]? = some emptyPage)) ∧
    (n ≤ fh.totalNumPages → ensureCapacity n fh = (RC_OK, fh)) ∧
    (∀ (k : Nat), (n - fh.totalNumPages).toNat ≤ k →
      ensureCapacityLoop k n fh = ensureCapacity n fh) := by
  obtain ⟨m, a1, a2, _, a4, a5, a6, a7⟩ := ensureCapacity_spec hok n
  obtain ⟨fp, h1, h2⟩ := hok
  have e : ensureCapacity n fh =
      ensureCapacityLoop (n - fh.totalNumPages).toNat n fh := by
    unfold ensureCapacity
    simp only [h1]
  refine ⟨a7, ?_, ?_, ?_⟩
  · intro hrc
    have hge := a6 hrc
    have hm : m = (n - fh.totalNumPages).toNat := by
      rcases le_total n fh.totalNumPages with hle | hle
      · rw [max_eq_right hle] at a5
        omega
      · rw [max_eq_left hle] at a5
        omega
    subst hm
    refine ⟨?_, a1, a4, ?_, ?_⟩
    · rcases le_total n fh.totalNumPages with hle | hle
      · rw [max_eq_left hle]; omega
      · rw [max_eq_right hle]; omega
    · intro q hq
      rw [a4, List.getElem?_append_left hq]
    · intro q hq1 hq2
      rw [a4] at hq2 ⊢
      rw [List.getElem?_append_right hq1]
      simp only [List.length_append, List.length_replicate] at hq2
      rw [List.getElem?_replicate]
      simp only [ite_eq_left_iff]
      intro hc
      omega
  · intro hle
    have h0 : (n - fh.totalNumPages).toNat = 0 := by omega
    rw [e, h0]
    rfl
  · intro k hk
    rw [e]
    exact ensureCapacityLoop_fuel n k fh hk

/-- The positional reads that move: a `readPreviousBlock` or `readNextBlock` that returns
`RC_OK` leaves `curPagePos` one less, or one more, and changes nothing else in the handle. -/
theorem readPrevious_readNext_move (fh : SM_FileHandle) (mem : List Nat) :
    ((readPreviousBlock fh mem).1 = RC_OK →
      (readPreviousBlock fh mem).2.1 = { fh with curPagePos := fh.curPagePos - 1 }) ∧
    ((readNextBlock fh mem).1 = RC_OK →
      (readNextBlock fh mem).2.1 = { fh with curPagePos := fh.curPagePos + 1 }) := by
  refine ⟨?_, ?_⟩
  · intro h
    unfold readPreviousBlock at h ⊢
    by_cases h0 : fh.curPagePos - 1 < 0
    · rw [if_pos h0] at h
      cases h
    · rw [if_neg h0] at h ⊢
      by_cases h1 : (readBlock (fh.curPagePos - 1) fh mem).1 = RC_OK
      · rw [if_pos h1]
      · rw [if_neg h1] at h
        exact absurd h h1
  · intro h
    unfold readNextBlock at h ⊢
    by_cases h1 : (readBlock (fh.curPagePos + 1) fh mem).1 = RC_OK
    · rw [if_pos h1]
    · rw [if_neg h1] at h
      exact absurd h h1

/-- The function `writeBlock` assigns neither `curPagePos` nor `totalNumPages`, and returns the
handle as it was unless it returns `RC_OK`. -/
theorem writeBlock_handle (pg : Int) (fh : SM_FileHandle) (d : List Nat) :
    (writeBlock pg fh d).2.curPagePos = fh.curPagePos ∧
    (writeBlock pg fh d).2.totalNumPages = fh.totalNumPages ∧
    ((writeBlock pg fh d).1 ≠ RC_OK → (writeBlock pg fh d).2 = fh) := by
  unfold writeBlock
  cases hm : fh.mgmtInfo with
  | none => exact ⟨rfl, rfl, fun _ => rfl⟩
  | some fp =>
    simp only
    by_cases hr : pg < 0 ∨ pg ≥ fh.totalNumPages
    · rw [if_pos hr]
      exact ⟨rfl, rfl, fun _ => rfl⟩
    · rw [if_neg hr]
      by_cases hs : seekOffset pg < 0
      · rw [if_pos hs]
        exact ⟨rfl, rfl, fun _ => rfl⟩
      · rw [if_neg hs]
        cases hw : fwritePage fp (seekOffset pg / PAGE_SIZE).toNat d with
        | none => exact ⟨rfl, rfl, fun _ => rfl⟩
        | some fp' => exact ⟨rfl, rfl, fun h => absurd rfl h⟩

/-- What the positional operations leave of the handle when they do not return `RC_OK`. -/
theorem positional_failure (fh : SM_FileHandle) (mem : List Nat) :
    (readFirstBlock fh mem).2.1 = fh ∧ (readCurrentBlock fh mem).2.1 = fh ∧
    (readLastBlock fh mem).2.1 = fh ∧
    ((readPreviousBlock fh mem).1 ≠ RC_OK → (readPreviousBlock fh mem).2.1 = fh) ∧
    ((readNextBlock fh mem).1 ≠ RC_OK → (readNextBlock fh mem).2.1 = fh) ∧
    (writeCurrentBlock fh mem).2.curPagePos = fh.curPagePos ∧
    (writeCurrentBlock fh mem).2.totalNumPages = fh.totalNumPages ∧
    ((writeCurrentBlock fh mem).1 ≠ RC_OK → (writeCurrentBlock fh mem).2 = fh) := by
  refine ⟨rfl, ?_, ?_, ?_, ?_, ?_, ?_, ?_⟩
  · unfold readCurrentBlock
    cases fh.mgmtInfo with
    | none => rfl
    | some fp =>
      simp only
      split <;> rfl
  · unfold readLastBlock
    split <;> rfl
  · intro h
    unfold readPreviousBlock at h ⊢
    by_cases h0 : fh.curPagePos - 1 < 0
    · rw [if_pos h0]
    · rw [if_neg h0] at h ⊢
      by_cases h1 : (readBlock (fh.curPagePos - 1) fh mem).1 = RC_OK
      · rw [if_pos h1] at h
        exact absurd rfl h
      · rw [if_neg h1]
  · intro h
    unfold readNextBlock at h ⊢
    by_cases h1 : (readBlock (fh.curPagePos + 1) fh mem).1 = RC_OK
    · rw [if_pos h1] at h
      exact absurd rfl h
    · rw [if_neg h1]
  · exact (writeBlock_handle fh.curPagePos fh mem).1
  · exact (writeBlock_handle fh.curPagePos fh mem).2.1
  · exact (writeBlock_handle fh.curPagePos fh mem).2.2

/-- The two failures the specification names. -/
theorem positional_edge_failures (fh : SM_FileHandle) (mem : List Nat) :
    (fh.curPagePos ≤ 0 → readPreviousBlock fh mem = (RC_READ_NON_EXISTING_PAGE, fh, mem)) ∧
    (fh.mgmtInfo ≠ none → fh.totalNumPages ≤ fh.curPagePos + 1 →
      readNextBlock fh mem = (RC_READ_NON_EXISTING_PAGE, fh, mem)) := by
  refine ⟨?_, ?_⟩
  · intro h
    unfold readPreviousBlock
    rw [if_pos (by omega)]
  · intro hm h
    have e : readBlock (fh.curPagePos + 1) fh mem = (RC_READ_NON_EXISTING_PAGE, mem) := by
      unfold readBlock
      cases hmi : fh.mgmtInfo with
      | none => exact absurd hmi hm
      | some fp =>
        simp only
        rw [if_pos (Or.inr (by omega))]
    unfold readNextBlock
    rw [e]
    simp

/-- A loop of `replacementFIFO` that has been left within `fuel` passes is left at the same
index when it is given more. -/
theorem fifoLoop_mono (pf : List BM_PageFrame) (n first : Int) :
    ∀ (fuel : Nat) (cur r : Int), fifoLoop pf n first fuel cur = some r →
      ∀ (more : Nat), fifoLoop pf n first (fuel + more) cur = some r := by
  intro fuel
  induction fuel with
  | zero => intro cur r h; simp [fifoLoop] at h
  | succ k ih =>
    intro cur r h more
    have e : k + 1 + more = (k + more) + 1 := by omega
    rw [e]
    unfold fifoLoop at h ⊢
    by_cases hn : n = 0
    · rw [if_pos hn] at h
      cases h
    · rw [if_neg hn] at h ⊢
      cases hf : frameAt pf (Int.tmod (cur + 1) n) with
      | none => rw [hf] at h; cases h
      | some frame =>
        rw [hf] at h
        simp only at h ⊢
        by_cases h0 : frame.fixCount = 0
        · rw [if_pos h0] at h ⊢
          exact h
        · rw [if_neg h0] at h ⊢
          by_cases h1 : Int.tmod (cur + 1) n = first
          · rw [if_pos h1] at h ⊢
            exact h
          · rw [if_neg h1] at h ⊢
            exact ih _ _ h more

theorem replacementFIFO_mono {fuel : Nat} {n : Int} {md : BM_Metadata}
    {x : Option Int × BM_Metadata} (h : replacementFIFO fuel n md = some x) (more : Nat) :
    replacementFIFO (fuel + more) n md = some x := by
  obtain ⟨r, f, hloop, hf, _⟩ := @replacementFIFO_inv fuel n md x.2 x.1 h
  rw [replacementFIFO_of_loop hloop hf] at h
  rw [replacementFIFO_of_loop (fifoLoop_mono _ _ _ _ _ _ hloop more) hf]
  exact h

/-- Under its precondition `replacementFIFO` returns within `numPages` passes of its loop. -/
theorem replacementFIFO_returns (n : Int) (md : BM_Metadata) (hn : 0 < n)
    (hlen : (md.pageFrames.length : Int) = n)
    (hc0 : 0 ≤ md.queueIndex) (hc1 : md.queueIndex < n) :
    ∃ victim md' r,
      fifoLoop md.pageFrames n md.queueIndex n.toNat md.queueIndex = some r ∧
      replacementFIFO n.toNat n md = some (victim, md') ∧
      md'.queueIndex = r ∧ 0 ≤ r ∧ r < n ∧
      (∀ fuel : Nat, n ≤ (fuel : Int) → replacementFIFO fuel n md = some (victim, md')) := by
  have hfuel : n ≤ ((n.toNat : Nat) : Int) := by omega
  obtain ⟨s1, s2⟩ := replacementFIFO_spec n.toNat n md hn hlen hc0 hc1 hfuel
  have hres : ∃ x, replacementFIFO n.toNat n md = some x := by
    by_cases hex : ∃ i g, frameAt md.pageFrames i = some g ∧ g.fixCount = 0
    · obtain ⟨k, _, _, _, _, md', h, _⟩ := s1 hex
      exact ⟨_, h⟩
    · refine ⟨_, s2 ?_⟩
      intro i g hg h0
      exact hex ⟨i, g, hg, h0⟩
  obtain ⟨⟨victim, md'⟩, hx⟩ := hres
  obtain ⟨r, f, hloop, hf, hcase⟩ := replacementFIFO_inv hx
  obtain ⟨hr0, hr1⟩ := frameAt_lt hf
  refine ⟨victim, md', r, hloop, hx, ?_, hr0, by omega, ?_⟩
  · rcases hcase with ⟨_, _, hm⟩ | ⟨_, _, hm⟩
    · rw [hm]; rfl
    · rw [hm]
  · intro fuel hfl
    have e : fuel = n.toNat + (fuel - n.toNat) := by omega
    rw [e]
    exact replacementFIFO_mono hx _

/-- In `mdCursorOut` every pass of the loop of `replacementFIFO` is followed by another. -/
theorem fifoLoop_cursor_out_step (fuel : Nat) (cur : Int)
    (hcur : cur = -1 ∨ cur = 0 ∨ cur = 1) :
    fifoLoop mdCursorOut.pageFrames 2 mdCursorOut.queueIndex (fuel + 1) cur =
      fifoLoop mdCursorOut.pageFrames 2 mdCursorOut.queueIndex fuel (Int.tmod (cur + 1) 2) ∧
    (Int.tmod (cur + 1) 2 = 0 ∨ Int.tmod (cur + 1) 2 = 1) := by
  rcases hcur with h | h | h <;> subst h <;> exact ⟨rfl, by decide⟩

theorem fifoLoop_cursor_out :
    ∀ (fuel : Nat) (cur : Int), cur = -1 ∨ cur = 0 ∨ cur = 1 →
      fifoLoop mdCursorOut.pageFrames 2 mdCursorOut.queueIndex fuel cur = none := by
  intro fuel
  induction fuel with
  | zero => intro cur _; rfl
  | succ k ih =>
    intro cur hcur
    obtain ⟨e, hnext⟩ := fifoLoop_cursor_out_step k cur hcur
    rw [e]
    rcases hnext with h | h
    · exact ih _ (Or.inr (Or.inl h))
    · exact ih _ (Or.inr (Or.inr h))

theorem replacementFIFO_cursor_out (fuel : Nat) : replacementFIFO fuel 2 mdCursorOut = none := by
  have h : fifoLoop mdCursorOut.pageFrames 2 mdCursorOut.queueIndex fuel mdCursorOut.queueIndex
      = none := fifoLoop_cursor_out fuel _ (Or.inl rfl)
  unfold replacementFIFO
  rw [h]

/-- The queue index that `initBufferPool` stores is read from the pool record as it was before
the call. -/
theorem initBufferPool_queueIndex (bm : BM_BufferPool) (fs : String → Option FILE)
    (name : String) (n : Int) (strategy : ReplacementStrategy) (garbage : Nat → BM_PageFrame) :
    ((initBufferPool bm fs name n strategy garbage).2.mgmtData.map fun md => md.queueIndex) =
      if (initBufferPool bm fs name n strategy garbage).1 = RC_OK then some (bm.numPages - 1)
      else none := by
  by_cases h : (initBufferPool bm fs name n strategy garbage).1 = RC_OK
  · obtain ⟨md, e, _, hq, _⟩ := initBufferPool_OK bm fs name n strategy garbage h
    rw [if_pos h, e]
    simp [hq]
  · rw [if_neg h]
    unfold initBufferPool at h ⊢
    by_cases ho : (openPageFile fs name
        { fileName := "", totalNumPages := 0, curPagePos := 0, mgmtInfo := none }).1 = RC_OK
    · simp only [ho, if_true] at h
      exact absurd trivial h
    · simp only [ho, if_false]
      rfl

/-- What `forcePage` does to the file for a resident page that is not pinned: the file is what
`writeBlock` leaves, whose return code is not looked at. When the page lies within an open
file of at most `SEEK_PAGES` pages, that is the file before with page `p` replaced by the
frame's buffer. -/
theorem forcePage_within_file {bm : BM_BufferPool} {md : BM_Metadata} {p i : Int}
    {f : BM_PageFrame} (hmd : bm.mgmtData = some md)
    (hget : getValue md.pageTable p = some i) (hf : frameAt md.pageFrames i = some f)
    (h0 : f.fixCount = 0) :
    ∃ md', forcePage bm p = some (RC_OK, { bm with mgmtData := some md' }) ∧
      md'.pageFile = (writeBlock p md.pageFile f.data).2 ∧
      md'.numWrite = md.numWrite + 1 ∧ md'.numRead = md.numRead ∧
      frameAt md'.pageFrames i = some { f with timeStamp := md.timeStamp, dirty := false } ∧
      (FileOK md.pageFile → 0 ≤ p → p < md.pageFile.totalNumPages →
        md.pageFile.totalNumPages ≤ SEEK_PAGES →
        filePages md'.pageFile = (filePages md.pageFile).set p.toNat f.data ∧
        (filePages md'.pageFile)[p.toNat]? = some f.data) := by
  refine ⟨{ md with
      timeStamp := (md.timeStamp + 1) % 2 ^ 32
      pageFile := (writeBlock p md.pageFile f.data).2
      numWrite := md.numWrite + 1
      pageFrames := setFrame md.pageFrames i
        { f with timeStamp := md.timeStamp, dirty := false } }, ?_, rfl, rfl, rfl, ?_, ?_⟩
  · rw [forcePage_resident hmd hget hf, if_pos h0]
  · show frameAt (setFrame md.pageFrames i _) i = _
    rw [frameAt_setFrame hf, if_pos rfl]
  · intro hfile hp0 hp1 hs
    have hw := (writeBlock_spec hfile hs p f.data).2.2.2
    rw [if_pos ⟨hp0, hp1⟩] at hw
    refine ⟨hw, ?_⟩
    show (filePages (writeBlock p md.pageFile f.data).2)[p.toNat]? = _
    rw [hw]
    have hl : p.toNat < (filePages md.pageFile).length := by
      obtain ⟨fp, e1, e2⟩ := hfile
      simp only [filePages, e1]
      omega
    rw [List.getElem?_set_self hl]

/-- The handle `zeroFile n` is in order, and its file is `n` zero pages. -/
theorem FileOK_zeroFile (n : Nat) :
    FileOK (zeroFile n) ∧ (zeroFile n).totalNumPages = (n : Int) ∧
    filePages (zeroFile n) = List.replicate n emptyPage :=
  ⟨⟨_, rfl, by simp [zeroFile]⟩, rfl, rfl⟩

theorem seekOffset_overflow : seekOffset 524288 = -2147483648 ∧ seekOffset 1048576 = 0 := by
  unfold seekOffset PAGE_SIZE
  norm_num

/-! ## The properties of the specification -/

/-- C1. `pinPage` never evicts a pinned frame. Whenever `replacementFIFO` or `replacementLRU`
returns a frame, that frame's fix count was zero; and every frame whose fix count was not zero
before a call of `pinPage` (in particular every frame with a positive fix count) has the same
`occupied` flag, the same page number and the same buffer contents after the call. -/
theorem pinPage_never_evicts_pinned (fuel : Nat) (bm bm' : BM_BufferPool)
    (page page' : BM_PageHandle) (p : Int) (rc : RC) (md : BM_Metadata)
    (hmd : bm.mgmtData = some md)
    (h : pinPage fuel bm page p = some (rc, bm', page')) :
    (∀ v mdF, replacementFIFO fuel bm.numPages md = some (some v, mdF) →
        ∃ f, frameAt md.pageFrames v = some f ∧ f.fixCount = 0) ∧
    (∀ v mdL, replacementLRU bm.numPages md = some (some v, mdL) →
        ∃ f, frameAt md.pageFrames v = some f ∧ f.fixCount = 0) ∧
    (∀ i f, frameAt md.pageFrames i = some f → f.fixCount ≠ 0 →
        ∃ md' f', bm'.mgmtData = some md' ∧ frameAt md'.pageFrames i = some f' ∧
          f'.occupied = f.occupied ∧ f'.pageNum = f.pageNum ∧ f'.data = f.data) := by
  refine ⟨?_, ?_, ?_⟩
  · intro v mdF hrep
    rcases replacementFIFO_inv hrep with ⟨r, f, _, hfr, ⟨h0, hv, _⟩ | ⟨_, hv, _⟩⟩
    · cases hv; exact ⟨f, hfr, h0⟩
    · cases hv
  · intro v mdL hrep
    rcases replacementLRU_inv hrep with ⟨hv, _⟩ | ⟨w, f, hv, hfr, h0, _⟩
    · cases hv
    · cases hv; exact ⟨f, hfr, h0⟩
  · intro i f hfi hpin
    by_cases hp : 0 ≤ p
    · cases hget : getValue md.pageTable p with
      | some j =>
        rw [pinPage_hit hmd hp hget] at h
        rcases Option.map_eq_some'.mp h with ⟨g, hg, hres⟩
        simp only [Prod.mk.injEq] at hres
        rw [← hres.2.1]
        by_cases hij : i = j
        · subst hij
          rw [hfi] at hg
          cases hg
          exact ⟨_, { f with timeStamp := md.timeStamp, fixCount := f.fixCount + 1 }, rfl,
            by rw [frameAt_setFrame hfi]; simp, rfl, rfl, rfl⟩
        · exact ⟨_, f, rfl, by rw [frameAt_setFrame hg]; simp [hij, hfi], rfl, rfl, rfl⟩
      | none =>
        rcases pinPage_miss_inv h hmd hp hget with ⟨_, _, hb, _⟩ | ⟨q, _, _, hb, _⟩ |
          ⟨q, v, g, _, _, hg, hg0, hb, _⟩
        · rw [hb]; exact ⟨md, f, hmd, hfi, rfl, rfl, rfl⟩
        · rw [hb]; exact ⟨_, f, rfl, hfi, rfl, rfl, rfl⟩
        · rw [hb]
          have hiv : i ≠ v := by
            intro hc
            subst hc
            rw [hfi] at hg
            cases hg
            exact hpin hg0
          refine ⟨_, f, rfl, ?_, rfl, rfl, rfl⟩
          show frameAt (setFrame md.pageFrames v _) i = some f
          rw [frameAt_setFrame hg]
          simp [hiv, hfi]
    · unfold pinPage at h
      simp only [hmd, ge_iff_le, hp, if_false] at h
      simp at h
      rw [← h.2.1]
      exact ⟨md, f, hmd, hfi, rfl, rfl, rfl⟩

/-- Witness for C1: in `poolW` page 0 is held in frame 0; pinning the absent page 2 leaves
frame 0 occupied by page 0 with its buffer. -/
theorem pinPage_never_evicts_pinned_witness :
    ∃ r, pinPage 2 poolW ⟨0, none⟩ 2 = some r ∧
      ∃ md' f', r.2.1.mgmtData = some md' ∧ frameAt md'.pageFrames 0 = some f' ∧
        f'.occupied = true ∧ f'.pageNum = 0 ∧ f'.data = emptyPage := by
  have hs : (pinPage 2 poolW ⟨0, none⟩ 2).isSome = true := rfl
  obtain ⟨⟨rc, bm', page'⟩, hr⟩ := Option.isSome_iff_exists.mp hs
  exact ⟨_, hr, (pinPage_never_evicts_pinned 2 poolW bm' ⟨0, none⟩ page' 2 rc _ rfl hr).2.2 0
    { data := emptyPage, pageNum := 0, frameIndex := 0, fixCount := 1, dirty := false,
      occupied := true, timeStamp := 2 } rfl (by decide)⟩

/-- C2. The directory and the frame table agree after every public operation. `DirAgree`
holds in the pool that a successful `initBufferPool` leaves; if it holds in an initialized
pool, it holds in the pool that `pinPage`, `unpinPage`, `markDirty`, `forcePage` or
`forceFlushPool` leaves; these operations do return in such a pool (the frame operations
always, the flush when the frame array has `numPages` frames, `pinPage` when moreover the
FIFO queue index lies in `[0, numPages)` and the loop is given `numPages` passes); and under
`DirAgree` no page is resident in two frames. -/
theorem directory_agrees_with_frame_table :
    (∀ bm fs name n strategy garbage,
      (initBufferPool bm fs name n strategy garbage).1 = RC_OK →
      ∃ md, (initBufferPool bm fs name n strategy garbage).2.mgmtData = some md ∧
        DirAgree md) ∧
    (∀ bm md, bm.mgmtData = some md → DirAgree md →
      (∀ fuel page p rc bm' page', pinPage fuel bm page p = some (rc, bm', page') →
        ∃ md', bm'.mgmtData = some md' ∧ DirAgree md') ∧
      (∀ p rc bm', unpinPage bm p = some (rc, bm') →
        ∃ md', bm'.mgmtData = some md' ∧ DirAgree md') ∧
      (∀ p rc bm', markDirty bm p = some (rc, bm') →
        ∃ md', bm'.mgmtData = some md' ∧ DirAgree md') ∧
      (∀ p rc bm', forcePage bm p = some (rc, bm') →
        ∃ md', bm'.mgmtData = some md' ∧ DirAgree md') ∧
      (∀ rc bm', forceFlushPool bm = some (rc, bm') →
        ∃ md', bm'.mgmtData = some md' ∧ DirAgree md')) ∧
    (∀ bm md, bm.mgmtData = some md → DirAgree md →
      (∀ p, (unpinPage bm p).isSome = true ∧ (markDirty bm p).isSome = true ∧
        (forcePage bm p).isSome = true) ∧
      ((md.pageFrames.length : Int) = bm.numPages →
        (forceFlushPool bm).isSome = true ∧
        ∀ (fuel : Nat) page p,
          (bm.strategy = RS_FIFO → 0 ≤ md.queueIndex ∧ md.queueIndex < bm.numPages) →
          bm.numPages ≤ (fuel : Int) → (pinPage fuel bm page p).isSome = true)) ∧
    (∀ md, DirAgree md → ∀ i j f g,
      frameAt md.pageFrames i = some f → frameAt md.pageFrames j = some g →
      f.occupied = true → g.occupied = true → f.pageNum = g.pageNum → i = j) := by
  refine ⟨?_, ?_, ?_, ?_⟩
  · intro bm fs name n strategy garbage h
    obtain ⟨md, hb, hpt, _, _, _, _, hfr⟩ := initBufferPool_OK bm fs name n strategy garbage h
    exact ⟨md, by rw [hb], (init_DirAgree_FrameInv hpt hfr).1⟩
  · intro bm md hmd hagree
    exact ops_keep_DirAgree hmd hagree
  · intro bm md hmd hagree
    refine ⟨fun p => frame_ops_isSome p hmd hagree, ?_⟩
    intro hlen
    exact ⟨forceFlushPool_isSome hmd hlen,
      fun fuel page p hq hfuel => pinPage_isSome page p hmd hagree hlen hq hfuel⟩
  · intro md hagree i j f g hf hg hfo hgo hpg
    exact DirAgree_unique hagree hf hg hfo hgo hpg

/-- Witness for C2: the fresh FIFO pool of three frames of the scenarios satisfies
`DirAgree`, and so does the pool after a pin of page 1. -/
theorem directory_agrees_with_frame_table_witness :
    ∃ md r md', (scenarioClient 3 3 RS_FIFO).pool.mgmtData = some md ∧ DirAgree md ∧
      pinPage 3 (scenarioClient 3 3 RS_FIFO).pool { pageNum := NO_PAGE, data := none } 1 =
        some r ∧
      r.2.1.mgmtData = some md' ∧ DirAgree md' := by
  obtain ⟨md, hmd, hagree⟩ := directory_agrees_with_frame_table.1
    { numPages := 3, strategy := RS_OTHER, mgmtData := none } scenarioFS "testbuffer.bin" 3
    RS_FIFO scenarioMalloc rfl
  have hs : (pinPage 3 (scenarioClient 3 3 RS_FIFO).pool
      { pageNum := NO_PAGE, data := none } 1).isSome = true := rfl
  obtain ⟨⟨rc, bm', page'⟩, hr⟩ := Option.isSome_iff_exists.mp hs
  obtain ⟨md', hmd', hagree'⟩ :=
    (directory_agrees_with_frame_table.2.1 _ md hmd hagree).1 3 _ 1 rc bm' page' hr
  exact ⟨md, _, md', hmd, hagree, hr, hmd', hagree'⟩

/-- C3. The frame invariants hold after `initBufferPool` and after every public operation.
`FrameInv` says that every frame has a fix count that is not negative, that a frame that is
not occupied has fix count 0 and is not dirty, and that a dirty frame is occupied. Together
with `DirAgree` it holds in the pool that a successful `initBufferPool` leaves, and if both
hold in an initialized pool, both hold in the pool that `pinPage`, `unpinPage`, `markDirty`,
`forcePage` or `forceFlushPool` leaves. -/
theorem frame_invariants_hold :
    (∀ bm fs name n strategy garbage,
      (initBufferPool bm fs name n strategy garbage).1 = RC_OK →
      ∃ md, (initBufferPool bm fs name n strategy garbage).2.mgmtData = some md ∧
        DirAgree md ∧ FrameInv md) ∧
    (∀ bm md, bm.mgmtData = some md → DirAgree md → FrameInv md →
      (∀ fuel page p rc bm' page', pinPage fuel bm page p = some (rc, bm', page') →
        ∃ md', bm'.mgmtData = some md' ∧ DirAgree md' ∧ FrameInv md') ∧
      (∀ p rc bm', unpinPage bm p = some (rc, bm') →
        ∃ md', bm'.mgmtData = some md' ∧ DirAgree md' ∧ FrameInv md') ∧
      (∀ p rc bm', markDirty bm p = some (rc, bm') →
        ∃ md', bm'.mgmtData = some md' ∧ DirAgree md' ∧ FrameInv md') ∧
      (∀ p rc bm', forcePage bm p = some (rc, bm') →
        ∃ md', bm'.mgmtData = some md' ∧ DirAgree md' ∧ FrameInv md') ∧
      (∀ rc bm', forceFlushPool bm = some (rc, bm') →
        ∃ md', bm'.mgmtData = some md' ∧ DirAgree md' ∧ FrameInv md')) := by
  have both : ∀ {bm' : BM_BufferPool} {P Q : BM_Metadata → Prop},
      (∃ md', bm'.mgmtData = some md' ∧ P md') → (∃ md', bm'.mgmtData = some md' ∧ Q md') →
      ∃ md', bm'.mgmtData = some md' ∧ P md' ∧ Q md' := by
    rintro bm' P Q ⟨m1, h1, hP⟩ ⟨m2, h2, hQ⟩
    rw [h1] at h2
    cases h2
    exact ⟨m1, h1, hP, hQ⟩
  refine ⟨?_, ?_⟩
  · intro bm fs name n strategy garbage h
    obtain ⟨md, hb, hpt, _, _, _, _, hfr⟩ := initBufferPool_OK bm fs name n strategy garbage h
    exact ⟨md, by rw [hb], init_DirAgree_FrameInv hpt hfr⟩
  · intro bm md hmd hagree hinv
    obtain ⟨d1, d2, d3, d4, d5⟩ := ops_keep_DirAgree hmd hagree
    obtain ⟨f1, f2, f3, f4, f5⟩ := ops_keep_FrameInv hmd hagree hinv
    exact ⟨fun fuel page p rc bm' page' h =>
        both (d1 fuel page p rc bm' page' h) (f1 fuel page p rc bm' page' h),
      fun p rc bm' h => both (d2 p rc bm' h) (f2 p rc bm' h),
      fun p rc bm' h => both (d3 p rc bm' h) (f3 p rc bm' h),
      fun p rc bm' h => both (d4 p rc bm' h) (f4 p rc bm' h),
      fun rc bm' h => both (d5 rc bm' h) (f5 rc bm' h)⟩

/-- Witness for C3: the fresh LRU pool of three frames of the scenarios satisfies both
invariants, and so does the pool after a pin of page 2. -/
theorem frame_invariants_hold_witness :
    ∃ md r md', (scenarioClient 3 3 RS_LRU).pool.mgmtData = some md ∧ FrameInv md ∧
      pinPage 0 (scenarioClient 3 3 RS_LRU).pool { pageNum := NO_PAGE, data := none } 2 =
        some r ∧
      r.2.1.mgmtData = some md' ∧ FrameInv md' := by
  obtain ⟨md, hmd, hagree, hinv⟩ := frame_invariants_hold.1
    { numPages := 3, strategy := RS_OTHER, mgmtData := none } scenarioFS "testbuffer.bin" 3
    RS_LRU scenarioMalloc rfl
  have hs : (pinPage 0 (scenarioClient 3 3 RS_LRU).pool
      { pageNum := NO_PAGE, data := none } 2).isSome = true := rfl
  obtain ⟨⟨rc, bm', page'⟩, hr⟩ := Option.isSome_iff_exists.mp hs
  obtain ⟨md', hmd', _, hinv'⟩ :=
    (frame_invariants_hold.2 _ md hmd hagree hinv).1 0 _ 2 rc bm' page' hr
  exact ⟨md, _, md', hmd, hinv, hr, hmd', hinv'⟩

/-- C4. FIFO victim selection. In a pool of `n > 0` frames whose queue index `c` lies in
`[0, n)`: if some frame has fix count 0, there is a least `k` in `1..n` such that frame
`(c + k) mod n` has fix count 0, and `replacementFIFO` returns that frame and stores its index
as the queue index; if no frame has fix count 0 (so in particular if every frame is pinned)
it returns no victim and leaves the metadata as it was. Scenario: a FIFO pool of 3 whose queue
index starts at 2 (the record handed to `initBufferPool` held `numPages = 3`), after pin and
unpin of pages 1, 2, 3 and a pin of page 4, has frame contents `[4, 2, 3]`, every call
returning `RC_OK`. -/
theorem replacementFIFO_selects_next_unpinned (fuel : Nat) (n : Int) (md : BM_Metadata)
    (hn : 0 < n) (hlen : (md.pageFrames.length : Int) = n)
    (hc0 : 0 ≤ md.queueIndex) (hc1 : md.queueIndex < n) (hfuel : n ≤ (fuel : Int)) :
    ((∃ i g, frameAt md.pageFrames i = some g ∧ g.fixCount = 0) →
      ∃ k : Nat, 1 ≤ k ∧ (k : Int) ≤ n ∧
        (∃ g, frameAt md.pageFrames ((md.queueIndex + k) % n) = some g ∧ g.fixCount = 0) ∧
        (∀ j : Nat, 1 ≤ j → j < k →
          ∀ g, frameAt md.pageFrames ((md.queueIndex + j) % n) = some g → g.fixCount ≠ 0) ∧
        ∃ md', replacementFIFO fuel n md = some (some ((md.queueIndex + k) % n), md') ∧
          md'.queueIndex = (md.queueIndex + k) % n) ∧
    ((∀ i g, frameAt md.pageFrames i = some g → g.fixCount ≠ 0) →
      replacementFIFO fuel n md = some (none, md)) ∧
    ((runClient 3 [pin 1, unpin, pin 2, unpin, pin 3, unpin, pin 4]
        (scenarioClient 3 3 RS_FIFO)).map fun c => (c.codes, getFrameContents c.pool)) =
      some ([RC_OK, RC_OK, RC_OK, RC_OK, RC_OK, RC_OK, RC_OK], some (some [4, 2, 3])) :=
  ⟨(replacementFIFO_spec fuel n md hn hlen hc0 hc1 hfuel).1,
    (replacementFIFO_spec fuel n md hn hlen hc0 hc1 hfuel).2, by decide⟩

/-- Witness for C4: in `mdW` the queue index is 1, frame 0 is pinned and frame 1 is not, so a
least `k` exists and the frame `(1 + k) mod 2` is returned. -/
theorem replacementFIFO_selects_next_unpinned_witness :
    ∃ k : Nat, 1 ≤ k ∧ (k : Int) ≤ 2 ∧
      (∃ g, frameAt mdW.pageFrames ((mdW.queueIndex + k) % 2) = some g ∧ g.fixCount = 0) ∧
      (∀ j : Nat, 1 ≤ j → j < k →
        ∀ g, frameAt mdW.pageFrames ((mdW.queueIndex + j) % 2) = some g → g.fixCount ≠ 0) ∧
      ∃ md', replacementFIFO 2 2 mdW = some (some ((mdW.queueIndex + k) % 2), md') ∧
        md'.queueIndex = (mdW.queueIndex + k) % 2 :=
  (replacementFIFO_selects_next_unpinned 2 2 mdW (by decide) (by decide) (by decide)
    (by decide) (by decide)).1 ⟨1, _, rfl, rfl⟩

/-- C5 at its failing input. `poolStampMax` is an LRU pool whose only frame is not pinned and
carries the time stamp `UINT_MAX`. `replacementLRU` returns no victim there, and `pinPage` of
the absent page 1 returns `RC_WRITE_FAILED` with the pool unchanged, although the frame with
the least time stamp among the unpinned frames is frame 0. -/
theorem replacementLRU_skips_stamp_UINT_MAX :
    (∃ f, frameAt mdStampMax.pageFrames 0 = some f ∧ f.fixCount = 0 ∧
      f.timeStamp = UINT_MAX) ∧
    replacementLRU 1 mdStampMax = some (none, mdStampMax) ∧
    pinPage 1 poolStampMax { pageNum := NO_PAGE, data := none } 1 =
      some (RC_WRITE_FAILED, poolStampMax, { pageNum := NO_PAGE, data := none }) :=
  ⟨⟨_, rfl, rfl, rfl⟩, rfl, rfl⟩

/-- The LRU scenario of the specification: an LRU pool of 3, after pin and unpin of pages
1, 2, 3, 1, 4 in this order, has frame contents `[1, 4, 3]`, every call returning `RC_OK`. -/
theorem replacementLRU_scenario :
    ((runClient 0 [pin 1, unpin, pin 2, unpin, pin 3, unpin, pin 1, unpin, pin 4, unpin]
        (scenarioClient 3 3 RS_LRU)).map fun c => (c.codes, getFrameContents c.pool)) =
      some ([RC_OK, RC_OK, RC_OK, RC_OK, RC_OK, RC_OK, RC_OK, RC_OK, RC_OK, RC_OK],
        some (some [1, 4, 3])) := by
  decide

/-- C6. In an initialized pool in which every frame has a positive fix count, `pinPage` of a
page `p >= 0` that is not resident returns `RC_WRITE_FAILED` and leaves the pool and the
handle as they were: under LRU always, and under FIFO when the queue index lies in
`[0, numPages)` (given `numPages` passes of the loop). The queue index after the failed call
is therefore its value before the call, and any number of repeated calls return
`RC_WRITE_FAILED` and leave the pool unchanged. -/
theorem pinPage_all_pinned_fails (fuel : Nat) (bm : BM_BufferPool) (page : BM_PageHandle)
    (p : Int) (md : BM_Metadata) (hmd : bm.mgmtData = some md)
    (hlen : (md.pageFrames.length : Int) = bm.numPages)
    (hall : ∀ i f, frameAt md.pageFrames i = some f → 0 < f.fixCount)
    (hp : 0 ≤ p) (hmiss : getValue md.pageTable p = none) :
    (bm.strategy = RS_LRU →
      pinPage fuel bm page p = some (RC_WRITE_FAILED, bm, page) ∧
      ∀ k, pinRepeatedly fuel page p k bm = some (List.replicate k RC_WRITE_FAILED, bm)) ∧
    (bm.strategy = RS_FIFO → 0 ≤ md.queueIndex → md.queueIndex < bm.numPages →
      bm.numPages ≤ (fuel : Int) →
      pinPage fuel bm page p = some (RC_WRITE_FAILED, bm, page) ∧
      ∀ k, pinRepeatedly fuel page p k bm = some (List.replicate k RC_WRITE_FAILED, bm)) := by
  have hrep : ∀ k, pinPage fuel bm page p = some (RC_WRITE_FAILED, bm, page) →
      pinRepeatedly fuel page p k bm = some (List.replicate k RC_WRITE_FAILED, bm) := by
    intro k hpin
    induction k with
    | zero => rfl
    | succ k ih =>
      unfold pinRepeatedly
      simp [hpin, ih, List.replicate_succ]
  constructor
  · intro hs
    have hpin : pinPage fuel bm page p = some (RC_WRITE_FAILED, bm, page) := by
      have hnone := (replacementLRU_selects_oldest bm.numPages md hlen).2 (by
        intro i f hf
        have := hall (i : Int) f (by rw [frameAt_natCast]; exact hf)
        omega)
      unfold pinPage
      simp only [hmd, hmiss, ge_iff_le, hp, if_true, hs, hnone]
      simp [pinPageInstall, pool_eta hmd]
    exact ⟨hpin, fun k => hrep k hpin⟩
  · intro hs hq0 hq1 hfuel
    have hpin : pinPage fuel bm page p = some (RC_WRITE_FAILED, bm, page) := by
      have hnone := (replacementFIFO_spec fuel bm.numPages md (by omega) hlen
        hq0 hq1 hfuel).2 (by
          intro i f hf
          have := hall i f hf
          omega)
      unfold pinPage
      simp only [hmd, hmiss, ge_iff_le, hp, if_true, hs, hnone]
      simp [pinPageInstall, pool_eta hmd]
    exact ⟨hpin, fun k => hrep k hpin⟩

/-- Witness for C6: a FIFO pool of two frames, both held, queue index 1; page 7 is absent. -/
theorem pinPage_all_pinned_fails_witness :
    pinPage 2 { numPages := 2, strategy := RS_FIFO, mgmtData := some mdAllPinned }
        { pageNum := NO_PAGE, data := none } 7 =
      some (RC_WRITE_FAILED, { numPages := 2, strategy := RS_FIFO, mgmtData := some mdAllPinned },
        { pageNum := NO_PAGE, data := none }) ∧
    ∀ k, pinRepeatedly 2 { pageNum := NO_PAGE, data := none } 7 k
        { numPages := 2, strategy := RS_FIFO, mgmtData := some mdAllPinned } =
      some (List.replicate k RC_WRITE_FAILED,
        { numPages := 2, strategy := RS_FIFO, mgmtData := some mdAllPinned }) :=
  (pinPage_all_pinned_fails 2 { numPages := 2, strategy := RS_FIFO, mgmtData := some mdAllPinned }
    { pageNum := NO_PAGE, data := none } 7 mdAllPinned rfl (by decide)
    (by
      intro i f hf
      obtain ⟨h0, h1⟩ := frameAt_lt hf
      have hi : i = 0 ∨ i = 1 := by
        have : (mdAllPinned.pageFrames.length : Int) = 2 := by decide
        omega
      rcases hi with rfl | rfl
      · have : f = _ := (Option.some.inj hf).symm
        subst this
        decide
      · have : f = _ := (Option.some.inj hf).symm
        subst this
        decide)
    (by decide) rfl).2 rfl (by decide) (by decide) (by decide)

/-- C7 at its failing input. `poolFull` is a fresh FIFO pool of one frame over a page file of
one page on a device without room for another. A pin of page 1 finds the empty frame 0;
`ensureCapacity(2)` returns `RC_WRITE_FAILED`, `readBlock(1)` returns
`RC_READ_NON_EXISTING_PAGE`, and `pinPage` returns `RC_OK`: it reports page 1 in frame 0,
counts one read, and hands out the buffer as `malloc` left it, over a file that still has one
page. -/
theorem pinPage_ignores_failed_growth_and_read :
    (ensureCapacity 2 fileFull).1 = RC_WRITE_FAILED ∧
    (readBlock 1 (ensureCapacity 2 fileFull).2 (List.replicate PAGE_SIZE 170)).1 =
      RC_READ_NON_EXISTING_PAGE ∧
    ((pinPage 1 poolFull { pageNum := NO_PAGE, data := none } 1).map fun r =>
        (r.1, getFrameContents r.2.1, r.2.2.data,
          r.2.1.mgmtData.map fun md => (md.pageFile.totalNumPages, md.numRead))) =
      some (RC_OK, some (some [1]), some 0, some (1, 1)) ∧
    ((pinPage 1 poolFull { pageNum := NO_PAGE, data := none } 1).bind fun r =>
        r.2.1.mgmtData.bind fun md => (frameAt md.pageFrames 0).map fun f => f.data) =
      some (List.replicate PAGE_SIZE 170) := by
  exact ⟨by decide, by decide, rfl, rfl⟩

/-- C8, as amended. Round trip. Take an initialized pool with `DirAgree`, over an open page
file, whose frame array has `numPages` frames, and a page `p >= 0` that no client holds (it
is not resident, or its frame has fix count 0). If `pinPage` returns `RC_OK` and page `p`
lies within the file afterwards, a file of at most `SEEK_PAGES` pages (every byte offset
`pageNum * PAGE_SIZE` fits an `int`), then for every content `B` the sequence: write `B`
through the handle, `markDirty`, `unpinPage`, `forceFlushPool` runs with every call
returning `RC_OK`, and leaves page `p` of the backing file equal to `B`. -/
theorem round_trip_through_pool (fuel : Nat) (bm bm1 : BM_BufferPool)
    (page page1 : BM_PageHandle) (p : Int) (B : List Nat) (md md1 : BM_Metadata)
    (hmd : bm.mgmtData = some md) (hagree : DirAgree md) (hfile : FileOK md.pageFile)
    (hlen : (md.pageFrames.length : Int) = bm.numPages) (hp : 0 ≤ p)
    (hfree : ∀ i f, getValue md.pageTable p = some i → frameAt md.pageFrames i = some f →
      f.fixCount = 0)
    (hpin : pinPage fuel bm page p = some (RC_OK, bm1, page1))
    (hmd1 : bm1.mgmtData = some md1) (hin : p < md1.pageFile.totalNumPages)
    (hseek : md1.pageFile.totalNumPages ≤ SEEK_PAGES) :
    ∃ bm2 bm3 bm4 bm5 md5,
      writeBuffer bm1 page1 B = some bm2 ∧
      markDirty bm2 page1.pageNum = some (RC_OK, bm3) ∧
      unpinPage bm3 page1.pageNum = some (RC_OK, bm4) ∧
      forceFlushPool bm4 = some (RC_OK, bm5) ∧
      bm5.mgmtData = some md5 ∧ (filePages md5.pageFile)[p.toNat]? = some B := by
  obtain ⟨v, g, hpg, htr, hfix, hlen1, hnp⟩ :=
    pinPage_OK_post hmd hagree hfile hp hfree hpin hmd1 hin hseek
  have hdata : page1.data = some v := by rw [hpg]
  have hnum : page1.pageNum = p := by rw [hpg]
  obtain ⟨md2, hw, htr2, hl2⟩ := writeBuffer_step page1 B hmd1 hdata htr
  obtain ⟨md3, hm, htr3, hl3⟩ :=
    @markDirty_step { bm1 with mgmtData := some md2 } md2 v p _ rfl htr2
  obtain ⟨md4, hu, htr4, hl4⟩ :=
    @unpinPage_step { bm1 with mgmtData := some md3 } md3 v p _ rfl htr3
  obtain ⟨md5, hfl, hres⟩ :=
    @forceFlushPool_step { bm1 with mgmtData := some md4 } md4 v p _ rfl htr4
      (by
        show (md4.pageFrames.length : Int) = bm1.numPages
        rw [hl4, hl3, hl2, hlen1, hnp]
        exact hlen)
      rfl
      (by
        show (if g.fixCount > 0 then g.fixCount - 1 else g.fixCount) = 0
        rw [hfix]
        decide)
  refine ⟨{ bm1 with mgmtData := some md2 }, { bm1 with mgmtData := some md3 },
    { bm1 with mgmtData := some md4 }, { bm1 with mgmtData := some md5 }, md5, hw, ?_, ?_,
    hfl, rfl, hres⟩
  · rw [hnum]; exact hm
  · rw [hnum]; exact hu

/-- Counterexample to C8 as stated. In `poolHeld` page 0 is resident and held by another
client. The sequence pin 0, write the `'X'` payload of `PAGE_SIZE` bytes, mark dirty, unpin,
flush returns `RC_OK`
at every call, and page 0 of the file still holds zero bytes: the frame is still pinned when
the pool is flushed, and the flush skips it. In `poolFull`, whose device has no room, the same
sequence on page 1 returns `RC_OK` at every call and the file has no page 1. -/
theorem round_trip_fails_for_held_page :
    ((runClient 1 [pin 0, fill payloadX, dirty, unpin, flush]
        { pool := poolHeld, handle := { pageNum := NO_PAGE, data := none }, codes := [] }).map
      fun c => (c.codes, c.pool.mgmtData.map fun md => (filePages md.pageFile)[0]?)) =
      some ([RC_OK, RC_OK, RC_OK, RC_OK], some (some emptyPage)) ∧
    emptyPage ≠ payloadX ∧ payloadX.length = PAGE_SIZE ∧
    ((runClient 1 [pin 1, fill payloadX, dirty, unpin, flush]
        { pool := poolFull, handle := { pageNum := NO_PAGE, data := none }, codes := [] }).map
      fun c => (c.codes, c.pool.mgmtData.map fun md => (filePages md.pageFile)[1]?)) =
      some ([RC_OK, RC_OK, RC_OK, RC_OK], some none) :=
  ⟨rfl, fun h => payloadX_ne_emptyPage h.symm, List.length_replicate _ _, rfl⟩

/-- Witness for C8: the round trip of the `'X'` payload through page 1 in `poolDirty`. -/
theorem round_trip_through_pool_witness :
    ∃ bm1 page1, pinPage 1 poolDirty { pageNum := NO_PAGE, data := none } 1 =
        some (RC_OK, bm1, page1) ∧
      ∃ bm2 bm3 bm4 bm5 md5,
        writeBuffer bm1 page1 payloadX = some bm2 ∧
        markDirty bm2 page1.pageNum = some (RC_OK, bm3) ∧
        unpinPage bm3 page1.pageNum = some (RC_OK, bm4) ∧
        forceFlushPool bm4 = some (RC_OK, bm5) ∧
        bm5.mgmtData = some md5 ∧ (filePages md5.pageFile)[(1 : Int).toNat]? = some payloadX := by
  have hr : pinPage 1 poolDirty { pageNum := NO_PAGE, data := none } 1
      = some (RC_OK,
          ((pinPage 1 poolDirty { pageNum := NO_PAGE, data := none } 1).get
            poolDirty_pin_isSome).2.1,
          ((pinPage 1 poolDirty { pageNum := NO_PAGE, data := none } 1).get
            poolDirty_pin_isSome).2.2) := rfl
  exact ⟨_, _, hr, round_trip_through_pool 1 poolDirty _ { pageNum := NO_PAGE, data := none } _
    1 payloadX mdDirty
    ((((pinPage 1 poolDirty { pageNum := NO_PAGE, data := none } 1).get
      poolDirty_pin_isSome).2.1.mgmtData).get poolDirty_pin_metadata_isSome)
    rfl DirAgree_mdDirty ⟨_, rfl, rfl⟩ (by decide) (by decide)
    (fun i f h _ => by cases h) hr (Option.some_get poolDirty_pin_metadata_isSome).symm
    (by decide) (by decide)⟩

/-- Eviction write-back for a victim whose page lies within the file. Let a miss of `pinPage`
in a pool with `DirAgree`, over an open page file of at most `SEEK_PAGES` pages, return
`RC_OK` with the handle pointing at frame `v`, and let frame `v` have been
occupied by a page `q = f.pageNum` that lies within the file. Then the replacement returned
frame `v` and left metadata `md_e` in which the directory has no entry for `q`; if the frame
was dirty, the file in `md_e` is the file before with page `q` replaced by the frame's buffer
and `numWrite` is one more than before; if it was clean, the file and `numWrite` in `md_e`
are those before. After the pin the directory still has no entry for `q`, `numWrite` is what
the eviction left, the pages that the eviction left are still in the file (page `q` holds the
buffer in the dirty case), and frame `v` is clean and holds `p`. Scenario: FIFO pool of 2,
pin 0, fill with `'X'`, mark dirty, unpin, pin and unpin 1, pin 2: every call returns
`RC_OK`, page 0 of the file holds the `'X'` payload, and `getNumWriteIO` is at least 1. -/
theorem eviction_within_file (fuel : Nat) (bm bm' : BM_BufferPool)
    (page page' : BM_PageHandle) (p v : Int) (md : BM_Metadata) (f : BM_PageFrame)
    (hmd : bm.mgmtData = some md) (hagree : DirAgree md) (hfile : FileOK md.pageFile)
    (hseek : md.pageFile.totalNumPages ≤ SEEK_PAGES) (hp : 0 ≤ p) (hmiss : getValue md.pageTable p = none)
    (h : pinPage fuel bm page p = some (RC_OK, bm', page')) (hv : page'.data = some v)
    (hf : frameAt md.pageFrames v = some f) (hocc : f.occupied = true)
    (hq0 : 0 ≤ f.pageNum) (hq1 : f.pageNum < md.pageFile.totalNumPages) :
    (∃ md_e md',
      (bm.strategy = RS_FIFO → replacementFIFO fuel bm.numPages md = some (some v, md_e)) ∧
      (bm.strategy = RS_LRU → replacementLRU bm.numPages md = some (some v, md_e)) ∧
      bm'.mgmtData = some md' ∧
      getValue md.pageTable f.pageNum = some v ∧
      getValue md_e.pageTable f.pageNum = none ∧
      getValue md'.pageTable f.pageNum = none ∧
      (f.dirty = true →
        filePages md_e.pageFile = (filePages md.pageFile).set f.pageNum.toNat f.data ∧
        md_e.numWrite = md.numWrite + 1 ∧ md'.numWrite = md.numWrite + 1 ∧
        (filePages md'.pageFile)[f.pageNum.toNat]? = some f.data) ∧
      (f.dirty = false →
        md_e.pageFile = md.pageFile ∧ md_e.numWrite = md.numWrite ∧
        md'.numWrite = md.numWrite ∧
        ∀ (k : Nat) (pg : List Nat), (filePages md.pageFile)[k]? = some pg →
          (filePages md'.pageFile)[k]? = some pg) ∧
      ∃ f', frameAt md'.pageFrames v = some f' ∧ f'.dirty = false ∧ f'.occupied = true ∧
        f'.pageNum = p) ∧
    ((runClient 2 [pin 0, fill payloadX, dirty, unpin, pin 1, unpin, pin 2]
        (scenarioClient 2 2 RS_FIFO)).map fun c =>
      (c.codes, getFrameContents c.pool,
        c.pool.mgmtData.map fun md => (filePages md.pageFile)[0]?,
        decide (1 ≤ getNumWriteIO c.pool))) =
      some ([RC_OK, RC_OK, RC_OK, RC_OK, RC_OK, RC_OK], some (some [2, 1]),
        some (some payloadX), true) := by
  refine ⟨?_, rfl⟩
  rcases pinPage_miss_inv h hmd hp hmiss with ⟨_, hrc, _⟩ | ⟨q, hrc, _⟩ |
    ⟨q, v', f', _, hpg, hf', hf0, hb, hlru, hfifo⟩
  · cases hrc
  · cases hrc
  · have hvv : v' = v := by
      rw [hpg] at hv
      exact Option.some.inj hv
    subst hvv
    rw [hf] at hf'
    cases hf'
    have hfi : f.frameIndex = v' := hagree.1 v' f hf
    have hold : getValue md.pageTable f.pageNum = some v' := by
      rw [← hfi]
      exact (hagree.2.1 v' f hf).mp hocc
    have hqp : f.pageNum ≠ p := by
      intro he
      rw [he, hmiss] at hold
      cases hold
    have hfileq : FileOK ({ md with queueIndex := q } : BM_Metadata).pageFile := hfile
    have hfq : frameAt ({ md with queueIndex := q } : BM_Metadata).pageFrames v' = some f := hf
    obtain ⟨m, c1, c2, c3, c4, c5⟩ := missMetadata_file v' f p hfileq
    obtain ⟨e1, e2, e3, e4⟩ := evicted_file v' f hfileq hseek
    have hlen0 := filePages_length hfile
    have hql : f.pageNum.toNat < (filePages md.pageFile).length := by omega
    refine ⟨evicted { md with queueIndex := q } v' f, _, ?_, ?_, by rw [hb], hold, ?_, ?_,
      ?_, ?_, _, missMetadata_frame p hfq, rfl, rfl, rfl⟩
    · intro hs
      obtain ⟨hq, hloop⟩ := hfifo hs
      subst hq
      rw [replacementFIFO_of_loop hloop hf, if_pos hf0]
    · intro hs
      obtain ⟨hq, hrep⟩ := hlru hs
      subst hq
      exact hrep
    · show getValue (if f.occupied = true then removePair md.pageTable f.pageNum
        else md.pageTable) f.pageNum = none
      rw [if_pos hocc]
      simp
    · show getValue (setValue (if f.occupied = true then removePair md.pageTable f.pageNum
        else md.pageTable) p f.frameIndex) f.pageNum = none
      rw [if_pos hocc]
      simp [hqp]
    · intro hd
      have hcond : f.occupied = true ∧ f.dirty = true ∧ 0 ≤ f.pageNum ∧
          f.pageNum < md.pageFile.totalNumPages := ⟨hocc, hd, hq0, hq1⟩
      have hnw : (evicted { md with queueIndex := q } v' f).numWrite = md.numWrite + 1 := by
        show (if f.occupied = true ∧ f.dirty = true then md.numWrite + 1 else md.numWrite) = _
        rw [if_pos ⟨hocc, hd⟩]
      refine ⟨?_, hnw, hnw, ?_⟩
      · rw [e4]
        exact if_pos hcond
      · rw [c3, List.getElem?_append_left, e4]
        · show (if f.occupied = true ∧ f.dirty = true ∧ 0 ≤ f.pageNum ∧
              f.pageNum < md.pageFile.totalNumPages
            then (filePages md.pageFile).set f.pageNum.toNat f.data
            else filePages md.pageFile)[f.pageNum.toNat]? = some f.data
          rw [if_pos hcond]
          exact List.getElem?_set_self hql
        · rw [e4]
          show f.pageNum.toNat < (if f.occupied = true ∧ f.dirty = true ∧ 0 ≤ f.pageNum ∧
              f.pageNum < md.pageFile.totalNumPages
            then (filePages md.pageFile).set f.pageNum.toNat f.data
            else filePages md.pageFile).length
          rw [if_pos hcond, List.length_set]
          exact hql
    · intro hd
      have hnd : ¬ (f.occupied = true ∧ f.dirty = true) := by
        intro hc
        rw [hd] at hc
        cases hc.2
      have hnw : (evicted { md with queueIndex := q } v' f).numWrite = md.numWrite := by
        show (if f.occupied = true ∧ f.dirty = true then md.numWrite + 1 else md.numWrite) = _
        rw [if_neg hnd]
      have hpf : (evicted { md with queueIndex := q } v' f).pageFile = md.pageFile := by
        show (if f.occupied = true ∧ f.dirty = true then
          (writeBlock f.pageNum md.pageFile f.data).2 else md.pageFile) = _
        rw [if_neg hnd]
      refine ⟨hpf, hnw, hnw, ?_⟩
      intro k pg hk
      have hkl : k < (filePages md.pageFile).length := by
        rcases List.getElem?_eq_some_iff.mp hk with ⟨hl, _⟩
        exact hl
      rw [c3, hpf, List.getElem?_append_left hkl]
      exact hk

/-- C9 at its failing input. In `poolFull`, a fresh pool of one frame over a file of one page
on a device without room, the calls pin 1, fill with the `'X'` payload, mark dirty, unpin
return `RC_OK` and leave frame 0 holding page 1, dirty and not pinned, over a file that
still has one page. The pin of page 0 that follows selects that frame as its victim: it
returns `RC_OK`, the directory entry for page 1 is gone, `getNumWriteIO` is 1 and the frame is
clean, but the file is still the single zero page and the buffer is nowhere in it. -/
theorem eviction_counts_write_outside_file :
    ((runClient 1 [pin 1, fill payloadX, dirty, unpin] clientFull).map fun c =>
        (c.codes, getFrameContents c.pool, getDirtyFlags c.pool, getFixCounts c.pool,
          getNumWriteIO c.pool,
          c.pool.mgmtData.map fun md =>
            (md.pageFile.totalNumPages, filePages md.pageFile,
              (frameAt md.pageFrames 0).map fun f => f.data))) =
      some ([RC_OK, RC_OK, RC_OK], some (some [1]), some (some [true]), some (some [0]), 0,
        some (1, [emptyPage], some payloadX)) ∧
    ((runClient 1 [pin 1, fill payloadX, dirty, unpin, pin 0] clientFull).map fun c =>
        (c.codes, getFrameContents c.pool, getDirtyFlags c.pool, getNumWriteIO c.pool,
          c.pool.mgmtData.map fun md =>
            (getValue md.pageTable 1, md.pageFile.totalNumPages, filePages md.pageFile))) =
      some ([RC_OK, RC_OK, RC_OK, RC_OK], some (some [0]), some (some [false]), 1,
        some (none, 1, [emptyPage])) ∧
    payloadX ≠ emptyPage :=
  ⟨rfl, rfl, payloadX_ne_emptyPage⟩

/-- C10, as amended. Growth. Let `p` be a page below `SEEK_PAGES` (its byte offset
`p * PAGE_SIZE` fits an `int`) that is not resident and not below the page
count of an open page file whose device has room for `p + 1` pages, and let `pinPage` return
`RC_OK`. Then the handle points at a frame `v` that was not pinned; after the call the file
has `p + 1` pages; the buffer of frame `v`, which the handle returns, is `PAGE_SIZE` zero
bytes; every page that was in the file before is unchanged, except the page of frame `v` when
that frame was occupied and dirty, which (if it lies within the file) now holds the buffer
the frame had. -/
theorem pinPage_grows_file (fuel : Nat) (bm bm' : BM_BufferPool)
    (page page' : BM_PageHandle) (p : Int) (md : BM_Metadata)
    (hmd : bm.mgmtData = some md) (hfile : FileOK md.pageFile)
    (hmiss : getValue md.pageTable p = none) (hge : md.pageFile.totalNumPages ≤ p)
    (hps : p < SEEK_PAGES) (hroom : p + 1 ≤ (fileRoom md.pageFile : Int))
    (h : pinPage fuel bm page p = some (RC_OK, bm', page')) :
    ∃ md' v f f', bm'.mgmtData = some md' ∧ page' = { pageNum := p, data := some v } ∧
      frameAt md.pageFrames v = some f ∧ f.fixCount = 0 ∧
      md'.pageFile.totalNumPages = p + 1 ∧
      ((filePages md'.pageFile).length : Int) = p + 1 ∧
      frameAt md'.pageFrames v = some f' ∧ f'.data = List.replicate PAGE_SIZE 0 ∧
      (∀ (k : Nat) (pg : List Nat), (filePages md.pageFile)[k]? = some pg →
        ¬ (f.occupied = true ∧ f.dirty = true ∧ f.pageNum = (k : Int)) →
        (filePages md'.pageFile)[k]? = some pg) ∧
      (f.occupied = true → f.dirty = true → 0 ≤ f.pageNum →
        f.pageNum < md.pageFile.totalNumPages →
        (filePages md'.pageFile)[f.pageNum.toNat]? = some f.data) := by
  have hp : 0 ≤ p := le_trans hfile.total_nonneg hge
  rcases pinPage_miss_inv h hmd hp hmiss with ⟨_, hrc, _⟩ | ⟨q, hrc, _⟩ |
    ⟨q, v, f, _, hpg, hf, hf0, hb, _⟩
  · cases hrc
  · cases hrc
  · have hfileq : FileOK ({ md with queueIndex := q } : BM_Metadata).pageFile := hfile
    have hfq : frameAt ({ md with queueIndex := q } : BM_Metadata).pageFrames v = some f := hf
    obtain ⟨m, c1, c2, c3, c4, c5⟩ := missMetadata_file v f p hfileq
    obtain ⟨e1, e2, e3, e4⟩ := evicted_file v f hfileq (le_trans hge (le_of_lt hps))
    have htot : (missMetadata { md with queueIndex := q } v f p).pageFile.totalNumPages
        = p + 1 := by
      have h1 := c5 hroom
      have h2 : max (p + 1) md.pageFile.totalNumPages = p + 1 := max_eq_left (by omega)
      have h3 : (missMetadata { md with queueIndex := q } v f p).pageFile.totalNumPages
          ≤ p + 1 := by
        rw [← h2]; exact c4
      omega
    have hlen0 := filePages_length hfile
    have hlenE : ((filePages (evicted { md with queueIndex := q } v f).pageFile).length : Int)
        = md.pageFile.totalNumPages := by
      rw [filePages_length e1, e2]
    have hm : (m : Int) = p + 1 - md.pageFile.totalNumPages := by
      have : (missMetadata { md with queueIndex := q } v f p).pageFile.totalNumPages
          = md.pageFile.totalNumPages + m := c2
      omega
    obtain ⟨pg, hpg1, hread⟩ := readBlock_spec c1 hp (by rw [htot]; omega) hps f.data
    have hpgz : pg = emptyPage := by
      rw [c3] at hpg1
      rw [List.getElem?_append_right (by omega)] at hpg1
      rw [List.getElem?_replicate] at hpg1
      split at hpg1
      · exact (Option.some.inj hpg1).symm
      · cases hpg1
    refine ⟨_, v, f, _, by rw [hb], hpg, hf, hf0, htot, ?_, missMetadata_frame p hfq, ?_, ?_, ?_⟩
    · rw [filePages_length c1, htot]
    · show (readBlock p (missMetadata { md with queueIndex := q } v f p).pageFile f.data).2 = _
      rw [hread, hpgz]
      rfl
    · intro k pg' hk hnot
      have hkl : k < (filePages md.pageFile).length := by
        rcases List.getElem?_eq_some_iff.mp hk with ⟨hl, _⟩
        exact hl
      rw [c3, List.getElem?_append_left (by omega), e4]
      split
      · rename_i hc
        rw [List.getElem?_set_ne]
        · exact hk
        · intro he
          apply hnot
          refine ⟨hc.1, hc.2.1, ?_⟩
          have := hc.2.2.1
          omega
      · exact hk
    · intro ho hd hq0 hq1
      have hql : f.pageNum.toNat < (filePages md.pageFile).length := by omega
      rw [c3, List.getElem?_append_left (by omega), e4, if_pos ⟨ho, hd, hq0, hq1⟩]
      exact List.getElem?_set_self hql

/-- Counterexample to C10 as stated. In `poolDirty` the file has one page, of zero bytes, and
page 1 is not resident; `pinPage` of page 1 returns `RC_OK`, and page 0 of the file, which
existed before, now holds the `'X'` payload of the evicted frame. In `poolFull`, whose device
has no room, `pinPage` of the absent page 1 returns `RC_OK` and the file still has one
page. -/
theorem pinPage_growth_changes_old_page :
    (poolDirty.mgmtData.map fun md =>
        (getValue md.pageTable 1, md.pageFile.totalNumPages, filePages md.pageFile)) =
      some (none, 1, [emptyPage]) ∧
    ((pinPage 1 poolDirty { pageNum := NO_PAGE, data := none } 1).map fun r =>
        (r.1, r.2.1.mgmtData.map fun md => (filePages md.pageFile)[0]?)) =
      some (RC_OK, some (some payloadX)) ∧
    payloadX ≠ emptyPage ∧
    (poolFull.mgmtData.map fun md =>
        (getValue md.pageTable 1, md.pageFile.totalNumPages)) = some (none, 1) ∧
    ((pinPage 1 poolFull { pageNum := NO_PAGE, data := none } 1).map fun r =>
        (r.1, r.2.1.mgmtData.map fun md => (md.pageFile.totalNumPages,
          (filePages md.pageFile).length))) = some (RC_OK, some (1, 1)) :=
  ⟨rfl, rfl, payloadX_ne_emptyPage, rfl, rfl⟩

/-- Witness for C10: the pin of page 1 in `poolDirty`. -/
theorem pinPage_grows_file_witness :
    ∃ bm' page', pinPage 1 poolDirty { pageNum := NO_PAGE, data := none } 1 =
        some (RC_OK, bm', page') ∧
      ∃ md' v f', bm'.mgmtData = some md' ∧ page' = { pageNum := 1, data := some v } ∧
        md'.pageFile.totalNumPages = 1 + 1 ∧
        ((filePages md'.pageFile).length : Int) = 1 + 1 ∧
        frameAt md'.pageFrames v = some f' ∧ f'.data = List.replicate PAGE_SIZE 0 := by
  have hs : (pinPage 1 poolDirty { pageNum := NO_PAGE, data := none } 1).isSome = true := rfl
  have hr : pinPage 1 poolDirty { pageNum := NO_PAGE, data := none } 1
      = some (RC_OK, ((pinPage 1 poolDirty { pageNum := NO_PAGE, data := none } 1).get hs).2.1,
          ((pinPage 1 poolDirty { pageNum := NO_PAGE, data := none } 1).get hs).2.2) := rfl
  obtain ⟨md', v, f, f', h1, h2, _, _, h5, h6, h7, h8, _, _⟩ :=
    pinPage_grows_file 1 poolDirty _ { pageNum := NO_PAGE, data := none } _ 1 _ rfl
      ⟨_, rfl, rfl⟩ rfl (by decide) (by decide) (by decide) hr
  exact ⟨_, _, hr, md', v, f', h1, h2, h5, h6, h7, h8⟩

/-- C11 at its failing input. In `poolFull` the calls pin 1, fill with the `'X'` payload, mark
dirty, unpin return `RC_OK` and leave frame 0 holding page 1, dirty and not pinned, over a
file of one page. The `forceFlushPool` that follows returns `RC_OK`, counts one write and
reports the frame clean, but the file is still the single zero page: the buffer has not been
written to page 1, which the file does not have. -/
theorem forceFlushPool_counts_write_outside_file :
    ((runClient 1 [pin 1, fill payloadX, dirty, unpin] clientFull).map fun c =>
        (c.codes, getFrameContents c.pool, getDirtyFlags c.pool, getFixCounts c.pool,
          getNumWriteIO c.pool,
          c.pool.mgmtData.map fun md => (md.pageFile.totalNumPages, filePages md.pageFile))) =
      some ([RC_OK, RC_OK, RC_OK], some (some [1]), some (some [true]), some (some [0]), 0,
        some (1, [emptyPage])) ∧
    ((runClient 1 [pin 1, fill payloadX, dirty, unpin, flush] clientFull).map fun c =>
        (c.codes, getFrameContents c.pool, getDirtyFlags c.pool, getFixCounts c.pool,
          getNumWriteIO c.pool,
          c.pool.mgmtData.map fun md => (md.pageFile.totalNumPages, filePages md.pageFile))) =
      some ([RC_OK, RC_OK, RC_OK, RC_OK], some (some [1]), some (some [false]),
        some (some [0]), 1, some (1, [emptyPage])) :=
  ⟨rfl, rfl⟩

/-- C12 at its failing input. In `poolFull` the calls pin 1, fill with the `'X'` payload, mark
dirty, unpin return `RC_OK` and leave frame 0 holding page 1, dirty and not pinned, over a
file of one page. The `forcePage` that follows returns `RC_OK`, counts one write and reports
the frame clean, but the file is still the single zero page: the buffer has not been written
to page 1 of the file. -/
theorem forcePage_counts_write_outside_file :
    ((runClient 1 [pin 1, fill payloadX, dirty, unpin] clientFull).map fun c =>
        (c.codes, c.handle.pageNum, getFrameContents c.pool, getDirtyFlags c.pool,
          getFixCounts c.pool, getNumWriteIO c.pool,
          c.pool.mgmtData.map fun md => (md.pageFile.totalNumPages, filePages md.pageFile))) =
      some ([RC_OK, RC_OK, RC_OK], 1, some (some [1]), some (some [true]), some (some [0]), 0,
        some (1, [emptyPage])) ∧
    ((runClient 1 [pin 1, fill payloadX, dirty, unpin, force] clientFull).map fun c =>
        (c.codes, c.handle.pageNum, getFrameContents c.pool, getDirtyFlags c.pool,
          getFixCounts c.pool, getNumWriteIO c.pool,
          c.pool.mgmtData.map fun md => (md.pageFile.totalNumPages, filePages md.pageFile))) =
      some ([RC_OK, RC_OK, RC_OK, RC_OK], 1, some (some [1]), some (some [false]),
        some (some [0]), 1, some (1, [emptyPage])) :=
  ⟨rfl, rfl⟩

/-- C13, as amended. Force against flush. In a fresh pool of 2 frames (FIFO or LRU), after
`pinPage(0)` and `markDirty`, the call `forcePage` for page 0, which is still pinned, returns
`RC_WRITE_FAILED`; the frame of page 0 is still reported dirty with fix count 1 and
`getNumWriteIO` is 0. The `forceFlushPool` that follows, page 0 still pinned, returns `RC_OK`
and writes nothing: `getNumWriteIO` is still 0, the frame is still reported dirty, and the file
is the single zero page it was. -/
theorem force_then_flush_on_pinned_page :
    (∀ s, s = RS_FIFO ∨ s = RS_LRU →
      ((runClient 2 [pin 0, dirty, force] (scenarioClient 2 2 s)).map fun c =>
          (c.codes, getDirtyFlags c.pool, getFixCounts c.pool, getNumWriteIO c.pool)) =
        some ([RC_OK, RC_OK, RC_WRITE_FAILED], some (some [true, false]),
          some (some [1, 0]), 0) ∧
      ((runClient 2 [pin 0, dirty, force, flush] (scenarioClient 2 2 s)).map fun c =>
          (c.codes, getDirtyFlags c.pool, getFixCounts c.pool, getNumWriteIO c.pool,
            c.pool.mgmtData.map fun md => filePages md.pageFile)) =
        some ([RC_OK, RC_OK, RC_WRITE_FAILED, RC_OK], some (some [true, false]),
          some (some [1, 0]), 0, some [emptyPage])) := by
  intro s hs
  rcases hs with hs | hs <;> subst hs <;> exact ⟨rfl, rfl⟩

/-- Witness for C13: the amended scenario under FIFO. -/
theorem force_then_flush_on_pinned_page_witness :
    ((runClient 2 [pin 0, dirty, force] (scenarioClient 2 2 RS_FIFO)).map fun c =>
        (c.codes, getDirtyFlags c.pool, getFixCounts c.pool, getNumWriteIO c.pool)) =
      some ([RC_OK, RC_OK, RC_WRITE_FAILED], some (some [true, false]),
        some (some [1, 0]), 0) :=
  (force_then_flush_on_pinned_page RS_FIFO (Or.inl rfl)).1

/-- Counterexample for C13: in the scenario as the claim words it, the third call does not
return `RC_OK`, the frame of page 0 is not reported clean, and `getNumWriteIO` is not 1. -/
theorem force_on_pinned_page_is_refused :
    ¬ ∃ c, runClient 2 [pin 0, dirty, force] (scenarioClient 2 2 RS_FIFO) = some c ∧
      (c.codes = [RC_OK, RC_OK, RC_OK] ∨ getDirtyFlags c.pool = some (some [false, false]) ∨
        getNumWriteIO c.pool = 1) := by
  rintro ⟨c, hc, hor⟩
  have h1 : (runClient 2 [pin 0, dirty, force] (scenarioClient 2 2 RS_FIFO)).map
      (fun c => c.codes) = some [RC_OK, RC_OK, RC_WRITE_FAILED] := rfl
  have h2 : (runClient 2 [pin 0, dirty, force] (scenarioClient 2 2 RS_FIFO)).map
      (fun c => getDirtyFlags c.pool) = some (some (some [true, false])) := rfl
  have h3 : (runClient 2 [pin 0, dirty, force] (scenarioClient 2 2 RS_FIFO)).map
      (fun c => getNumWriteIO c.pool) = some 0 := rfl
  rw [hc] at h1 h2 h3
  simp only [Option.map_some', Option.some.injEq] at h1 h2 h3
  rcases hor with h | h | h
  · rw [h1] at h; simp at h
  · rw [h2] at h; simp at h
  · rw [h3] at h; simp at h

/-- C14, as amended. A failed `forcePage`. For a page `p` resident in frame `i` whose fix count
is above 0, `forcePage` returns `RC_WRITE_FAILED` and leaves the pool as it was except for two
time stamps: frame `i` is stamped with the clock and the clock advances by one (modulo
`2^32`). The directory, the file, the queue index, `numRead`, `numWrite`, every other frame,
and the page, fix count, dirty flag, occupied flag and buffer of frame `i` are unchanged. -/
theorem forcePage_failure_changes_only_stamps (bm : BM_BufferPool) (md : BM_Metadata)
    (p i : Int) (f : BM_PageFrame) (hmd : bm.mgmtData = some md)
    (hget : getValue md.pageTable p = some i) (hf : frameAt md.pageFrames i = some f)
    (hpin : 0 < f.fixCount) :
    ∃ md', forcePage bm p = some (RC_WRITE_FAILED, { bm with mgmtData := some md' }) ∧
      md' = { md with
        timeStamp := (md.timeStamp + 1) % 2 ^ 32
        pageFrames := setFrame md.pageFrames i { f with timeStamp := md.timeStamp } } ∧
      md'.pageTable = md.pageTable ∧ md'.pageFile = md.pageFile ∧
      md'.queueIndex = md.queueIndex ∧ md'.numRead = md.numRead ∧
      md'.numWrite = md.numWrite ∧ md'.timeStamp = (md.timeStamp + 1) % 2 ^ 32 ∧
      frameAt md'.pageFrames i = some { f with timeStamp := md.timeStamp } ∧
      ∀ j, j ≠ i → frameAt md'.pageFrames j = frameAt md.pageFrames j := by
  have h0 : f.fixCount ≠ 0 := by omega
  refine ⟨_, ?_, rfl, rfl, rfl, rfl, rfl, rfl, rfl, ?_, ?_⟩
  · rw [forcePage_resident hmd hget hf, if_neg h0]
  · show frameAt (setFrame md.pageFrames i _) i = _
    rw [frameAt_setFrame hf, if_pos rfl]
  · intro j hj
    show frameAt (setFrame md.pageFrames i _) j = _
    rw [frameAt_setFrame hf, if_neg hj]

/-- Witness for C14: `forcePage` for page 0 of `poolHeld`, which a client holds. -/
theorem forcePage_failure_changes_only_stamps_witness :
    ∃ md', forcePage poolHeld 0 = some (RC_WRITE_FAILED, { poolHeld with mgmtData := some md' }) ∧
      md'.pageFile = mdHeld.pageFile ∧ md'.numWrite = mdHeld.numWrite ∧ md'.timeStamp = 3 := by
  obtain ⟨md', h1, _, _, h4, _, _, h7, h8, _⟩ :=
    forcePage_failure_changes_only_stamps poolHeld mdHeld 0 0
      { data := emptyPage, pageNum := 0, frameIndex := 0, fixCount := 1, dirty := false,
        occupied := true, timeStamp := 1 } rfl rfl rfl (by decide)
  exact ⟨md', h1, h4, h7, h8⟩

/-- Counterexample for C14: in `poolHeld` page 0 is resident with fix count 1, the clock
stands at 2 and the frame's time stamp is 1; `forcePage` returns `RC_WRITE_FAILED` and leaves
the clock at 3 and the frame's time stamp at 2, so the pool is not what it was. -/
theorem failed_forcePage_advances_clock :
    ((forcePage poolHeld 0).map fun r =>
        (r.1, r.2.mgmtData.map fun md => (md.timeStamp, md.pageFrames.map fun f => f.timeStamp))) =
      some (RC_WRITE_FAILED, some (3, [2])) ∧
    (mdHeld.timeStamp, mdHeld.pageFrames.map fun f => f.timeStamp) = (2, [1]) ∧
    (mdHeld.pageFrames.map fun f => f.fixCount) = [1] ∧ getValue mdHeld.pageTable 0 = some 0 :=
  ⟨rfl, rfl, rfl, rfl⟩

/-- C15 at its failing input. In `poolFull` the calls pin 1, fill with the `'X'` payload, mark
dirty, unpin return `RC_OK` and leave frame 0 holding page 1, dirty and not pinned, over a
file of one page. The `shutdownBufferPool` that follows returns `RC_OK` and leaves the pool
without metadata, and the stream it closed is still the single zero page: the buffer of the
dirty frame has not been written. The scenario of the claim itself runs as it says: in a
fresh pool of 2 with page 0 pinned the shutdown returns `RC_WRITE_FAILED` and the pool keeps
its metadata; after the unpin the shutdown returns `RC_OK`. -/
theorem shutdownBufferPool_loses_page_outside_file :
    ((runClient 1 [pin 1, fill payloadX, dirty, unpin] clientFull).bind fun c =>
      (shutdownBufferPool c.pool).map fun r =>
        (c.codes, getFrameContents c.pool, getDirtyFlags c.pool, getFixCounts c.pool, r.1,
          r.2.1.mgmtData.isSome, r.2.2.map fun fp => fp.pages)) =
      some ([RC_OK, RC_OK, RC_OK], some (some [1]), some (some [true]), some (some [0]),
        RC_OK, false, some [emptyPage]) ∧
    ((runClient 2 [pin 0] (scenarioClient 2 2 RS_FIFO)).bind fun c =>
      (shutdownBufferPool c.pool).bind fun r1 =>
        (unpinPage r1.2.1 c.handle.pageNum).bind fun r2 =>
          (shutdownBufferPool r2.2).map fun r3 =>
            (c.codes, r1.1, r1.2.1.mgmtData.isSome, getFixCounts r1.2.1, r2.1, r3.1,
              r3.2.1.mgmtData.isSome, r3.2.2.map fun fp => fp.pages)) =
      some ([RC_OK], RC_WRITE_FAILED, true, some (some [1, 0]), RC_OK, RC_OK, false,
        some [emptyPage]) :=
  ⟨rfl, rfl⟩

/-- C16. Pin hit. In an initialized pool, for a page `p >= 0` resident in frame `i`, `pinPage`
returns `RC_OK` with the handle `(p, frame i)`; the record of frame `i` afterwards is its
record before with the fix count one more and the time stamp refreshed (page, buffer, dirty
and occupied flag as before); every other frame is unchanged; and `numRead`, `numWrite`, the
file, the directory and the queue index are unchanged. -/
theorem pinPage_hit_effect (fuel : Nat) (bm : BM_BufferPool) (page : BM_PageHandle) (p i : Int)
    (md : BM_Metadata) (f : BM_PageFrame) (hmd : bm.mgmtData = some md) (hp : 0 ≤ p)
    (hget : getValue md.pageTable p = some i) (hf : frameAt md.pageFrames i = some f) :
    ∃ md', pinPage fuel bm page p =
        some (RC_OK, { bm with mgmtData := some md' }, { pageNum := p, data := some i }) ∧
      frameAt md'.pageFrames i =
        some { f with timeStamp := md.timeStamp, fixCount := f.fixCount + 1 } ∧
      (∀ j, j ≠ i → frameAt md'.pageFrames j = frameAt md.pageFrames j) ∧
      md'.pageFrames.length = md.pageFrames.length ∧
      md'.numRead = md.numRead ∧ md'.numWrite = md.numWrite ∧ md'.pageFile = md.pageFile ∧
      md'.pageTable = md.pageTable ∧ md'.queueIndex = md.queueIndex := by
  refine ⟨{ md with
      timeStamp := (md.timeStamp + 1) % 2 ^ 32
      pageFrames := setFrame md.pageFrames i
        { f with timeStamp := md.timeStamp, fixCount := f.fixCount + 1 } },
    ?_, ?_, ?_, ?_, rfl, rfl, rfl, rfl, rfl⟩
  · rw [pinPage_hit hmd hp hget, hf]
    rfl
  · show frameAt (setFrame md.pageFrames i _) i = _
    rw [frameAt_setFrame hf, if_pos rfl]
  · intro j hj
    show frameAt (setFrame md.pageFrames i _) j = _
    rw [frameAt_setFrame hf, if_neg hj]
  · show (setFrame md.pageFrames i _).length = _
    rw [length_setFrame]

/-- Witness for C16: a pin of page 0 in `poolHeld`, where it is resident with fix count 1. -/
theorem pinPage_hit_effect_witness :
    ∃ md', pinPage 0 poolHeld { pageNum := NO_PAGE, data := none } 0 =
        some (RC_OK, { poolHeld with mgmtData := some md' }, { pageNum := 0, data := some 0 }) ∧
      (frameAt md'.pageFrames 0).map (fun f => f.fixCount) = some 2 ∧
      md'.numRead = 1 ∧ md'.numWrite = 0 := by
  obtain ⟨md', h1, h2, _, _, h5, h6, _⟩ :=
    pinPage_hit_effect 0 poolHeld { pageNum := NO_PAGE, data := none } 0 0 mdHeld
      { data := emptyPage, pageNum := 0, frameIndex := 0, fixCount := 1, dirty := false,
        occupied := true, timeStamp := 1 } rfl (by decide) rfl rfl
  refine ⟨md', h1, ?_, h5, h6⟩
  rw [h2]
  rfl

/-- C17. The function `unpinPage` on an initialized pool. If the page `p` is resident in frame `i`,
whose fix count is not negative (I4), it returns `RC_OK`; the record of frame `i` afterwards
is its record before with the fix count `max (fixCount - 1) 0` and the time stamp refreshed,
so at fix count 0 the unpin is absorbed; every other frame, the directory, the file,
`numRead` and `numWrite` are unchanged. If `p` is not resident it returns
`RC_IM_KEY_NOT_FOUND` and the pool is unchanged. -/
theorem unpinPage_clamps_at_zero (bm : BM_BufferPool) (md : BM_Metadata) (p : Int)
    (hmd : bm.mgmtData = some md) :
    (∀ i f, getValue md.pageTable p = some i → frameAt md.pageFrames i = some f →
      0 ≤ f.fixCount →
      ∃ md', unpinPage bm p = some (RC_OK, { bm with mgmtData := some md' }) ∧
        frameAt md'.pageFrames i =
          some { f with timeStamp := md.timeStamp, fixCount := max (f.fixCount - 1) 0 } ∧
        (∀ j, j ≠ i → frameAt md'.pageFrames j = frameAt md.pageFrames j) ∧
        md'.pageFrames.length = md.pageFrames.length ∧
        md'.pageTable = md.pageTable ∧ md'.pageFile = md.pageFile ∧
        md'.numRead = md.numRead ∧ md'.numWrite = md.numWrite ∧
        md'.queueIndex = md.queueIndex) ∧
    (getValue md.pageTable p = none → unpinPage bm p = some (RC_IM_KEY_NOT_FOUND, bm)) := by
  refine ⟨?_, fun hnone => (not_resident_ops hmd hnone).1⟩
  intro i f hget hf h0
  have hmax : (if f.fixCount > 0 then f.fixCount - 1 else f.fixCount) = max (f.fixCount - 1) 0 := by
    split <;> omega
  refine ⟨{ md with
      timeStamp := (md.timeStamp + 1) % 2 ^ 32
      pageFrames := setFrame md.pageFrames i
        { f with timeStamp := md.timeStamp, fixCount := max (f.fixCount - 1) 0 } },
    ?_, ?_, ?_, ?_, rfl, rfl, rfl, rfl, rfl⟩
  · rw [unpinPage_resident hmd hget hf, hmax]
  · show frameAt (setFrame md.pageFrames i _) i = _
    rw [frameAt_setFrame hf, if_pos rfl]
  · intro j hj
    show frameAt (setFrame md.pageFrames i _) j = _
    rw [frameAt_setFrame hf, if_neg hj]
  · show (setFrame md.pageFrames i _).length = _
    rw [length_setFrame]

/-- Witness for C17: in `poolHeld` the unpin of page 0 takes the fix count from 1 to 0; in
`poolDirty`, where the fix count is 0, the unpin returns `RC_OK` and the fix count stays 0;
page 7 is not resident. -/
theorem unpinPage_clamps_at_zero_witness :
    (∃ md', unpinPage poolHeld 0 = some (RC_OK, { poolHeld with mgmtData := some md' }) ∧
      (frameAt md'.pageFrames 0).map (fun f => f.fixCount) = some 0) ∧
    (∃ md', unpinPage poolDirty 0 = some (RC_OK, { poolDirty with mgmtData := some md' }) ∧
      (frameAt md'.pageFrames 0).map (fun f => f.fixCount) = some 0) ∧
    unpinPage poolHeld 7 = some (RC_IM_KEY_NOT_FOUND, poolHeld) := by
  refine ⟨?_, ?_, (unpinPage_clamps_at_zero poolHeld mdHeld 7 rfl).2 rfl⟩
  · obtain ⟨md', h1, h2, _⟩ := (unpinPage_clamps_at_zero poolHeld mdHeld 0 rfl).1 0
      { data := emptyPage, pageNum := 0, frameIndex := 0, fixCount := 1, dirty := false,
        occupied := true, timeStamp := 1 } rfl rfl (by decide)
    refine ⟨md', h1, ?_⟩
    rw [h2]
    rfl
  · obtain ⟨md', h1, h2, _⟩ := (unpinPage_clamps_at_zero poolDirty mdDirty 0 rfl).1 0
      { data := payloadX, pageNum := 0, frameIndex := 0, fixCount := 0, dirty := true,
        occupied := true, timeStamp := 3 } rfl rfl (by decide)
    refine ⟨md', h1, ?_⟩
    rw [h2]
    rfl

/-- C18, as amended. Balance. Take an initialized pool with `DirAgree` and `FrameInv` whose
frame array has `numPages` frames, and a page `p` for which `pinPage` returns `RC_OK`. Then
`unpinPage` on the handle returns `RC_OK`, the frame the handle points at holds `p`,
`getFixCounts` returns a list, and its entry for that frame is the fix count the frame of `p`
had before the pin when `p` was resident, and 0 when `p` was not resident. So the entry is 0
whenever no client held `p` before the pin. -/
theorem pin_then_unpin_restores_fixCount (fuel : Nat) (bm bm1 : BM_BufferPool)
    (page page1 : BM_PageHandle) (p : Int) (md : BM_Metadata)
    (hmd : bm.mgmtData = some md) (hagree : DirAgree md) (hinv : FrameInv md)
    (hlen : (md.pageFrames.length : Int) = bm.numPages)
    (hpin : pinPage fuel bm page p = some (RC_OK, bm1, page1)) :
    ∃ bm2 v counts, page1 = { pageNum := p, data := some v } ∧
      unpinPage bm1 page1.pageNum = some (RC_OK, bm2) ∧
      (∃ md2 g, bm2.mgmtData = some md2 ∧ frameAt md2.pageFrames v = some g ∧
        g.occupied = true ∧ g.pageNum = p) ∧
      getFixCounts bm2 = some (some counts) ∧
      (∀ i f, getValue md.pageTable p = some i → frameAt md.pageFrames i = some f →
        v = i ∧ counts[v.toNat]? = some f.fixCount) ∧
      (getValue md.pageTable p = none → counts[v.toNat]? = some 0) ∧
      ((∀ i f, getValue md.pageTable p = some i → frameAt md.pageFrames i = some f →
        f.fixCount = 0) → counts[v.toNat]? = some 0) := by
  obtain ⟨bm2, v, counts, h1, h2, h3, h4, h5, h6⟩ :=
    pin_unpin_fixCount hmd hagree hinv hlen hpin
  refine ⟨bm2, v, counts, h1, h2, h3, h4, h5, h6, ?_⟩
  intro hfree
  cases hget : getValue md.pageTable p with
  | none => exact h6 hget
  | some i =>
    obtain ⟨f, hf, _⟩ := hagree.2.2 p i hget
    rw [(h5 i f hget hf).2, hfree i f hget hf]

/-- Counterexample for C18: in `poolHeld` page 0 is resident and held by a client. A pin of
page 0 followed by the unpin returns `RC_OK` twice, and `getFixCounts` reports 1, not 0, for
the frame of page 0. -/
theorem pin_then_unpin_leaves_held_page_pinned :
    ((runClient 1 [pin 0, unpin]
        { pool := poolHeld, handle := { pageNum := NO_PAGE, data := none }, codes := [] }).map
      fun c => (c.codes, c.handle.data, getFixCounts c.pool, getFrameContents c.pool)) =
      some ([RC_OK, RC_OK], some 0, some (some [1]), some (some [0])) :=
  rfl

/-- Witness for C18: pin and unpin of page 1, which is not resident in `poolDirty`. -/
theorem pin_then_unpin_restores_fixCount_witness :
    ∃ bm1 page1 bm2 counts,
      pinPage 1 poolDirty { pageNum := NO_PAGE, data := none } 1 = some (RC_OK, bm1, page1) ∧
      unpinPage bm1 page1.pageNum = some (RC_OK, bm2) ∧
      getFixCounts bm2 = some (some counts) ∧ counts[0]? = some 0 := by
  have hs : (pinPage 1 poolDirty { pageNum := NO_PAGE, data := none } 1).isSome = true := rfl
  have hr : pinPage 1 poolDirty { pageNum := NO_PAGE, data := none } 1
      = some (RC_OK, ((pinPage 1 poolDirty { pageNum := NO_PAGE, data := none } 1).get hs).2.1,
          ((pinPage 1 poolDirty { pageNum := NO_PAGE, data := none } 1).get hs).2.2) := rfl
  obtain ⟨bm2, v, counts, h1, h2, _, h4, _, h6, _⟩ :=
    pin_then_unpin_restores_fixCount 1 poolDirty _ { pageNum := NO_PAGE, data := none } _ 1
      mdDirty rfl DirAgree_mdDirty FrameInv_mdDirty rfl hr
  have hv : ((pinPage 1 poolDirty { pageNum := NO_PAGE, data := none } 1).get hs).2.2
      = { pageNum := 1, data := some 0 } := rfl
  rw [hv] at h1
  simp only [BM_PageHandle.mk.injEq, true_and, Option.some.injEq] at h1
  subst h1
  exact ⟨_, _, bm2, counts, hr, h2, h4, h6 rfl⟩

/-- C19. The function `markDirty` is idempotent on what a client can observe. In an initialized
pool with `DirAgree` whose frame array has `numPages` frames, for a resident page `p` (pinned
or not): `markDirty` returns `RC_OK` twice in a row, and after the second call
`getFrameContents`, `getDirtyFlags`, `getFixCounts`, `getNumReadIO`, `getNumWriteIO`, the
file, the directory and the buffers of the frames are what they were after the first call;
the file is what it was before the first call; and after the first call `getDirtyFlags`
reports the frame of `p` dirty. -/
theorem markDirty_idempotent (bm : BM_BufferPool) (md : BM_Metadata) (p i : Int)
    (hmd : bm.mgmtData = some md) (hagree : DirAgree md)
    (hlen : (md.pageFrames.length : Int) = bm.numPages)
    (hget : getValue md.pageTable p = some i) :
    ∃ bm1 bm2 md1 md2 flags, markDirty bm p = some (RC_OK, bm1) ∧
      markDirty bm1 p = some (RC_OK, bm2) ∧
      bm1.mgmtData = some md1 ∧ bm2.mgmtData = some md2 ∧
      getFrameContents bm2 = getFrameContents bm1 ∧
      getDirtyFlags bm2 = getDirtyFlags bm1 ∧
      getFixCounts bm2 = getFixCounts bm1 ∧
      getNumReadIO bm2 = getNumReadIO bm1 ∧
      getNumWriteIO bm2 = getNumWriteIO bm1 ∧
      md2.pageFile = md1.pageFile ∧ md1.pageFile = md.pageFile ∧
      md2.pageTable = md1.pageTable ∧
      (md2.pageFrames.map fun f => f.data) = (md1.pageFrames.map fun f => f.data) ∧
      getDirtyFlags bm1 = some (some flags) ∧ flags[i.toNat]? = some true :=
  markDirty_twice hmd hagree hlen hget

/-- Witness for C19: two calls of `markDirty` for page 0 of `poolHeld`, which a client holds
and which is clean before. -/
theorem markDirty_idempotent_witness :
    ∃ bm1 bm2, markDirty poolHeld 0 = some (RC_OK, bm1) ∧
      markDirty bm1 0 = some (RC_OK, bm2) ∧
      getDirtyFlags bm2 = getDirtyFlags bm1 ∧ getFixCounts bm2 = getFixCounts bm1 ∧
      getDirtyFlags bm1 = some (some [true]) := by
  obtain ⟨bm1, bm2, _, _, flags, h1, h2, _, _, _, h6, h7, _, _, _, _, _, _, h14, _⟩ :=
    markDirty_idempotent poolHeld mdHeld 0 0 rfl DirAgree_mdHeld rfl rfl
  have hs : (markDirty poolHeld 0).isSome = true := rfl
  have hr : markDirty poolHeld 0 = some (RC_OK, ((markDirty poolHeld 0).get hs).2) := rfl
  have hb : bm1 = ((markDirty poolHeld 0).get hs).2 := by
    rw [hr] at h1
    simp only [Option.some.injEq, Prod.mk.injEq, true_and] at h1
    exact h1.symm
  refine ⟨bm1, bm2, h1, h2, h6, h7, ?_⟩
  rw [hb]
  rfl

/-- C20 at its failing inputs. The byte offset `pageNum * PAGE_SIZE` is an `int`. For page
524288 it is `-2147483648`: in a file of 524289 pages, where that page is in range,
`writeBlock` and `readBlock` return `RC_FILE_NOT_FOUND` and leave the file and the buffer as
they were. For page 1048576 it is 0: in a file of 1048577 zero pages `writeBlock` of the `'X'`
payload returns `RC_OK`, page 0 holds the payload afterwards and page 1048576 is still zero
bytes. -/
theorem writeBlock_readBlock_offset_overflows :
    seekOffset 524288 = -2147483648 ∧ seekOffset 1048576 = 0 ∧
    (zeroFile 524289).totalNumPages = 524289 ∧
    writeBlock 524288 (zeroFile 524289) payloadX = (RC_FILE_NOT_FOUND, zeroFile 524289) ∧
    readBlock 524288 (zeroFile 524289) emptyPage = (RC_FILE_NOT_FOUND, emptyPage) ∧
    (zeroFile 1048577).totalNumPages = 1048577 ∧
    (filePages (zeroFile 1048577))[0]? = some emptyPage ∧
    (writeBlock 1048576 (zeroFile 1048577) payloadX).1 = RC_OK ∧
    (filePages (writeBlock 1048576 (zeroFile 1048577) payloadX).2)[0]? = some payloadX ∧
    (filePages (writeBlock 1048576 (zeroFile 1048577) payloadX).2)[1048576]? =
      some emptyPage ∧
    payloadX ≠ emptyPage := by
  obtain ⟨s1, s2⟩ := seekOffset_overflow
  obtain ⟨ok1, t1, _⟩ := FileOK_zeroFile 524289
  obtain ⟨ok2, t2, hp⟩ := FileOK_zeroFile 1048577
  obtain ⟨a1, a2⟩ := (writeBlock_readBlock_wrapped (zeroFile 524289) ok1
    524288 payloadX emptyPage (by norm_num) (by rw [t1]; norm_num)).1 (by rw [s1]; norm_num)
  obtain ⟨b1, b2, _⟩ := (writeBlock_readBlock_wrapped (zeroFile 1048577) ok2
    1048576 payloadX emptyPage (by norm_num) (by rw [t2]; norm_num)).2 (by rw [s2])
  have hz : (seekOffset 1048576 / (PAGE_SIZE : Int)).toNat = 0 := by rw [s2]; rfl
  refine ⟨s1, s2, by rw [t1]; norm_num, a1, a2, by rw [t2]; norm_num, ?_, b1, ?_, ?_,
    payloadX_ne_emptyPage⟩
  · rw [hp, List.getElem?_replicate]
    simp
  · rw [b2, hz, hp, List.getElem?_set_self (by rw [List.length_replicate]; norm_num)]
  · rw [b2, hz, hp, List.getElem?_set_ne (by norm_num), List.getElem?_replicate]
    simp

/-- C21. The function `ensureCapacity` on an open handle whose `totalNumPages` is the number of
pages of the file. If the device has room for `n` pages every append succeeds and the call
returns `RC_OK`. Whenever it returns `RC_OK`: `totalNumPages` is `max` of its old value and
`n`; the file is the file before followed by `n - totalNumPages` pages (none when that is
negative), each of them `emptyPage`, which is `PAGE_SIZE` zero bytes; so every page that
existed keeps its contents. When `n` is at most the old `totalNumPages` the handle and the
file are returned as they were. The loop ends after `n - totalNumPages` passes: given any
larger number of passes it returns the same result. -/
theorem ensureCapacity_extends_with_zero_pages (fh : SM_FileHandle) (hok : FileOK fh)
    (n : Int) :
    (n ≤ (fileRoom fh : Int) → (ensureCapacity n fh).1 = RC_OK) ∧
    ((ensureCapacity n fh).1 = RC_OK →
      (ensureCapacity n fh).2.totalNumPages = max fh.totalNumPages n ∧
      FileOK (ensureCapacity n fh).2 ∧
      filePages (ensureCapacity n fh).2 =
        filePages fh ++ List.replicate (n - fh.totalNumPages).toNat emptyPage ∧
      (∀ (q : Nat), q < (filePages fh).length →
        (filePages (ensureCapacity n fh).2)[q]? = (filePages fh)[q]?) ∧
      (∀ (q : Nat), (filePages fh).length ≤ q →
        q < (filePages (ensureCapacity n fh).2).length →
        (filePages (ensureCapacity n fh).2)[q]? = some emptyPage)) ∧
    (n ≤ fh.totalNumPages → ensureCapacity n fh = (RC_OK, fh)) ∧
    (∀ (k : Nat), (n - fh.totalNumPages).toNat ≤ k →
      ensureCapacityLoop k n fh = ensureCapacity n fh) ∧
    emptyPage = List.replicate PAGE_SIZE 0 :=
  ⟨(ensureCapacity_grows fh hok n).1, (ensureCapacity_grows fh hok n).2.1,
    (ensureCapacity_grows fh hok n).2.2.1, (ensureCapacity_grows fh hok n).2.2.2, rfl⟩

/-- Witness for C21: `fileW` has two pages on a device with room for eight; a call for four
pages leaves four, and a call for one page leaves the handle as it was. -/
theorem ensureCapacity_extends_with_zero_pages_witness :
    (ensureCapacity 4 fileW).1 = RC_OK ∧ (ensureCapacity 4 fileW).2.totalNumPages = 4 ∧
    filePages (ensureCapacity 4 fileW).2 = [emptyPage, emptyPage, emptyPage, emptyPage] ∧
    ensureCapacity 1 fileW = (RC_OK, fileW) := by
  have h := ensureCapacity_extends_with_zero_pages fileW ⟨_, rfl, rfl⟩ 4
  have h1 := ensureCapacity_extends_with_zero_pages fileW ⟨_, rfl, rfl⟩ 1
  have hrc := h.1 (by decide)
  obtain ⟨a, _, c, _⟩ := h.2.1 hrc
  refine ⟨hrc, ?_, ?_, h1.2.2.1 (by decide)⟩
  · rw [a]; rfl
  · rw [c]; rfl

/-- C22 at its failing inputs. The handle `fileW` is what `openPageFile` leaves for a file of
two pages: `curPagePos` is 0. After `readNextBlock`, which returns `RC_OK`, `curPagePos` is 1;
`readFirstBlock` then returns `RC_OK` and `curPagePos` is still 1, not 0. On `fileW` itself
`readLastBlock` returns `RC_OK` and `curPagePos` is still 0, not `totalNumPages - 1 = 1`.
Neither function ever changes the handle. -/
theorem readFirstBlock_readLastBlock_leave_curPagePos :
    fileW.curPagePos = 0 ∧ fileW.totalNumPages - 1 = 1 ∧
    (readNextBlock fileW emptyPage).1 = RC_OK ∧
    (readNextBlock fileW emptyPage).2.1.curPagePos = 1 ∧
    (readFirstBlock (readNextBlock fileW emptyPage).2.1 emptyPage).1 = RC_OK ∧
    (readFirstBlock (readNextBlock fileW emptyPage).2.1 emptyPage).2.1.curPagePos = 1 ∧
    (readLastBlock fileW emptyPage).1 = RC_OK ∧
    (readLastBlock fileW emptyPage).2.1.curPagePos = 0 ∧
    (∀ fh mem, (readFirstBlock fh mem).2.1 = fh ∧ (readLastBlock fh mem).2.1 = fh) :=
  ⟨rfl, rfl, rfl, rfl, rfl, rfl, rfl, rfl,
    fun fh mem => ⟨(positional_failure fh mem).1, (positional_failure fh mem).2.2.1⟩⟩

/-- C23. A positional operation that fails leaves `curPagePos` and `totalNumPages` as they
were. For every handle and buffer: `readFirstBlock`, `readCurrentBlock` and `readLastBlock`
return the handle as it was whatever the code; `readPreviousBlock` and `readNextBlock`
return the handle as it was when the code is not `RC_OK`; `writeCurrentBlock` never changes
`curPagePos` or `totalNumPages`, and returns the handle as it was when the code is not
`RC_OK`. The two failures the claim names: `readPreviousBlock` at position 0 (or below)
returns `RC_READ_NON_EXISTING_PAGE`, and so does `readNextBlock` on an open handle whose
position is the last page or beyond; both leave the handle and the buffer as they were. -/
theorem failed_positional_operation_keeps_position (fh : SM_FileHandle) (mem : List Nat) :
    (readFirstBlock fh mem).2.1 = fh ∧ (readCurrentBlock fh mem).2.1 = fh ∧
    (readLastBlock fh mem).2.1 = fh ∧
    ((readPreviousBlock fh mem).1 ≠ RC_OK → (readPreviousBlock fh mem).2.1 = fh) ∧
    ((readNextBlock fh mem).1 ≠ RC_OK → (readNextBlock fh mem).2.1 = fh) ∧
    (writeCurrentBlock fh mem).2.curPagePos = fh.curPagePos ∧
    (writeCurrentBlock fh mem).2.totalNumPages = fh.totalNumPages ∧
    ((writeCurrentBlock fh mem).1 ≠ RC_OK → (writeCurrentBlock fh mem).2 = fh) ∧
    (fh.curPagePos ≤ 0 → readPreviousBlock fh mem = (RC_READ_NON_EXISTING_PAGE, fh, mem)) ∧
    (fh.mgmtInfo ≠ none → fh.totalNumPages ≤ fh.curPagePos + 1 →
      readNextBlock fh mem = (RC_READ_NON_EXISTING_PAGE, fh, mem)) := by
  obtain ⟨a, b, c, d, e, f, g, h⟩ := positional_failure fh mem
  obtain ⟨i, j⟩ := positional_edge_failures fh mem
  exact ⟨a, b, c, d, e, f, g, h, i, j⟩

/-- Witness for C23: on `fileW`, at position 0, `readPreviousBlock` fails and leaves the
handle as it was; after `readNextBlock` the position is the last page, and a second
`readNextBlock` fails and leaves the position there. -/
theorem failed_positional_operation_keeps_position_witness :
    readPreviousBlock fileW emptyPage = (RC_READ_NON_EXISTING_PAGE, fileW, emptyPage) ∧
    (readNextBlock (readNextBlock fileW emptyPage).2.1 emptyPage).1 =
      RC_READ_NON_EXISTING_PAGE ∧
    (readNextBlock (readNextBlock fileW emptyPage).2.1 emptyPage).2.1.curPagePos = 1 := by
  have h1 := (failed_positional_operation_keeps_position fileW emptyPage).2.2.2.2.2.2.2.2.1
    (by decide)
  have h2 := (failed_positional_operation_keeps_position (readNextBlock fileW emptyPage).2.1
    emptyPage).2.2.2.2.2.2.2.2.2
    (show (some { pages := [emptyPage, emptyPage], capacity := 8 } : Option FILE) ≠ none from
      Option.some_ne_none _) (by decide)
  refine ⟨h1, ?_, ?_⟩
  · rw [h2]
  · rw [h2]; rfl

/-- C24 at its failing inputs. The call `initBufferPool` for a pool of 3 frames, in a pool record
whose `numPages` field held 0 before the call (a zeroed record), returns `RC_OK` and leaves
the queue index at `-1`, not at `2`; with 7 in that field it leaves 6. In both cases
`numRead` and `numWrite` are 0 and frame `i` has index `i`, fix count 0 and is neither dirty
nor occupied. With `-5` in that field the queue index is `-6`, and the first `pinPage`
reads `pageFrames[-2]`: it is not defined. In general the queue index after a successful
call is the prior `numPages` minus one, whatever the new `numPages` is. -/
theorem initBufferPool_cursor_from_prior_numPages :
    (initBufferPool { numPages := 0, strategy := RS_OTHER, mgmtData := none } scenarioFS
      "testbuffer.bin" 3 RS_FIFO scenarioMalloc).1 = RC_OK ∧
    ((initBufferPool { numPages := 0, strategy := RS_OTHER, mgmtData := none } scenarioFS
      "testbuffer.bin" 3 RS_FIFO scenarioMalloc).2.mgmtData.map fun md =>
        (md.queueIndex, md.numRead, md.numWrite,
          md.pageFrames.map fun f => (f.frameIndex, f.fixCount, f.dirty, f.occupied))) =
      some (-1, 0, 0, [(0, 0, false, false), (1, 0, false, false), (2, 0, false, false)]) ∧
    ((initBufferPool { numPages := 7, strategy := RS_OTHER, mgmtData := none } scenarioFS
      "testbuffer.bin" 3 RS_FIFO scenarioMalloc).2.mgmtData.map fun md =>
        (md.queueIndex, md.numRead, md.numWrite,
          md.pageFrames.map fun f => (f.frameIndex, f.fixCount, f.dirty, f.occupied))) =
      some (6, 0, 0, [(0, 0, false, false), (1, 0, false, false), (2, 0, false, false)]) ∧
    ((scenarioClient (-5) 3 RS_FIFO).pool.mgmtData.map fun md => md.queueIndex) = some (-6) ∧
    pinPage 3 (scenarioClient (-5) 3 RS_FIFO).pool { pageNum := NO_PAGE, data := none } 0 =
      none ∧
    (∀ bm fs name n strategy garbage,
      ((initBufferPool bm fs name n strategy garbage).2.mgmtData.map fun md =>
          md.queueIndex) =
        if (initBufferPool bm fs name n strategy garbage).1 = RC_OK then
          some (bm.numPages - 1)
        else none) :=
  ⟨rfl, rfl, rfl, rfl, rfl, initBufferPool_queueIndex⟩

/-- C25, as amended. The directory that a successful `initBufferPool` creates is
`initHashTable PAGE_TABLE_SIZE`, whatever `numPages` is: its size is 256, so it is at least
256 always, and at least `numPages` exactly when `numPages` is at most 256. -/
theorem initBufferPool_directory_size (bm : BM_BufferPool) (fs : String → Option FILE)
    (name : String) (n : Int) (strategy : ReplacementStrategy) (garbage : Nat → BM_PageFrame)
    (h : (initBufferPool bm fs name n strategy garbage).1 = RC_OK) :
    ∃ md, (initBufferPool bm fs name n strategy garbage).2.mgmtData = some md ∧
      md.pageTable = initHashTable PAGE_TABLE_SIZE ∧ md.pageTable.size = 256 ∧
      (256 : Int) ≤ (md.pageTable.size : Int) ∧
      (n ≤ (md.pageTable.size : Int) ↔ n ≤ 256) := by
  obtain ⟨md, e, hpt, _⟩ := initBufferPool_OK bm fs name n strategy garbage h
  refine ⟨md, by rw [e], hpt, by rw [hpt]; rfl, by rw [hpt]; decide, ?_⟩
  rw [hpt]
  rfl

/-- Witness for C25: the pool of 3 frames of the scenarios. -/
theorem initBufferPool_directory_size_witness :
    ∃ md, (scenarioClient 3 3 RS_FIFO).pool.mgmtData = some md ∧ md.pageTable.size = 256 := by
  obtain ⟨md, h1, _, h3, _⟩ := initBufferPool_directory_size
    { numPages := 3, strategy := RS_OTHER, mgmtData := none } scenarioFS "testbuffer.bin" 3
    RS_FIFO scenarioMalloc rfl
  exact ⟨md, h1, h3⟩

/-- Counterexample for C25: `initBufferPool` for a pool of 257 frames returns `RC_OK` and
creates the directory with size 256, which is less than 257. -/
theorem initBufferPool_directory_smaller_than_pool :
    (initBufferPool { numPages := 257, strategy := RS_OTHER, mgmtData := none } scenarioFS
      "testbuffer.bin" 257 RS_FIFO scenarioMalloc).1 = RC_OK ∧
    ((initBufferPool { numPages := 257, strategy := RS_OTHER, mgmtData := none } scenarioFS
      "testbuffer.bin" 257 RS_FIFO scenarioMalloc).2.mgmtData.map fun md =>
        (md.pageTable.size, md.pageFrames.length)) = some (256, 257) ∧
    ¬ ((257 : Int) ≤ ((256 : Nat) : Int)) := by
  have h : (initBufferPool { numPages := 257, strategy := RS_OTHER, mgmtData := none }
      scenarioFS "testbuffer.bin" 257 RS_FIFO scenarioMalloc).1 = RC_OK := rfl
  obtain ⟨md, e, hpt, _, _, _, hl, _⟩ :=
    initBufferPool_OK { numPages := 257, strategy := RS_OTHER, mgmtData := none }
      scenarioFS "testbuffer.bin" 257 RS_FIFO scenarioMalloc h
  refine ⟨h, ?_, by decide⟩
  rw [e]
  simp only [Option.map_some', hpt, hl]
  rfl

/-- C26. The victim search of `replacementFIFO` is total under its precondition. For
`numPages = n > 0`, a frame array of `n` frames and a queue index in `[0, n)`, whatever the
fix counts are: the loop is left within `n` passes (each pass advances the index once), at an
index `r` in `[0, n)`; `replacementFIFO` returns (no division by zero, no access outside the
array), the queue index it stores is `r`, and with any larger number of passes the result is
the same. The precondition is needed: in `mdCursorOut`, two frames that are both pinned with
the queue index at `-1`, every pass of the loop is followed by another, the index moving
between 0 and 1 and never reaching `-1`, so `replacementFIFO` does not return however many
passes it is given. -/
theorem replacementFIFO_total_in_range (n : Int) (md : BM_Metadata) (hn : 0 < n)
    (hlen : (md.pageFrames.length : Int) = n)
    (hc0 : 0 ≤ md.queueIndex) (hc1 : md.queueIndex < n) :
    (∃ victim md' r,
      fifoLoop md.pageFrames n md.queueIndex n.toNat md.queueIndex = some r ∧
      replacementFIFO n.toNat n md = some (victim, md') ∧
      md'.queueIndex = r ∧ 0 ≤ r ∧ r < n ∧
      (∀ fuel : Nat, n ≤ (fuel : Int) → replacementFIFO fuel n md = some (victim, md'))) ∧
    (mdCursorOut.pageFrames.length = 2 ∧ mdCursorOut.queueIndex = -1 ∧
      (mdCursorOut.pageFrames.map fun f => f.fixCount) = [1, 2] ∧
      (∀ (fuel : Nat) (cur : Int), cur = -1 ∨ cur = 0 ∨ cur = 1 →
        fifoLoop mdCursorOut.pageFrames 2 mdCursorOut.queueIndex (fuel + 1) cur =
          fifoLoop mdCursorOut.pageFrames 2 mdCursorOut.queueIndex fuel
            (Int.tmod (cur + 1) 2) ∧
        (Int.tmod (cur + 1) 2 = 0 ∨ Int.tmod (cur + 1) 2 = 1)) ∧
      ∀ fuel, replacementFIFO fuel 2 mdCursorOut = none) :=
  ⟨replacementFIFO_returns n md hn hlen hc0 hc1,
    rfl, rfl, rfl, fifoLoop_cursor_out_step, replacementFIFO_cursor_out⟩

/-- Witness for C26: in `mdAllPinned`, two pinned frames with the queue index at 1, the loop
is left after two passes at index 1 and no victim is returned. -/
theorem replacementFIFO_total_in_range_witness :
    ∃ md', replacementFIFO 2 2 mdAllPinned = some (none, md') ∧ md'.queueIndex = 1 := by
  obtain ⟨victim, md', r, _, h2, h3, _⟩ :=
    (replacementFIFO_total_in_range 2 mdAllPinned (by decide) rfl (by decide) (by decide)).1
  have hs : (replacementFIFO 2 2 mdAllPinned).isSome = true := rfl
  have hr : replacementFIFO 2 2 mdAllPinned
      = some (none, ((replacementFIFO 2 2 mdAllPinned).get hs).2) := rfl
  have hq : ((replacementFIFO 2 2 mdAllPinned).get hs).2.queueIndex = 1 := rfl
  have e : (victim, md') = (none, ((replacementFIFO 2 2 mdAllPinned).get hs).2) := by
    have := h2.symm.trans hr
    exact Option.some.inj this
  have e2 : md' = ((replacementFIFO 2 2 mdAllPinned).get hs).2 := (Prod.mk.inj e).2
  exact ⟨md', by rw [hr, e2], by rw [e2]; exact hq⟩

end BufferMgr
